import Mathlib

/-!
# raner: byte buffer, length-header codec, connection, client, timer, loop and pool

Shallow embedding of `raner/byte_buffer.h`, `raner/byte_buffer.cc`,
`examples/chat/codec.h`, the socket operations of `raner/socket.cc` that the connection
uses, the state machine of `raner/tcp_connection.cc` (send path, shutdown, close and
teardown), `raner/epoll_timer.cc`, the connect and retry logic of `raner/tcp_client.cc`,
the conversions of `raner/time.cc`, the dispatch of `raner/event_loop_thread_pool.cc` and
the loop of `raner/event_loop.cc` (`Loop`, `Quit`, `QueueInLoop`, `doPendingFunctors`),
followed by the properties proved about them.

Conventions of the embedding
* `std::vector<char> buffer_` is a `List Byte`; `buffer_.size()` is its length.
* `size_t` values are sizes of live objects and are modelled as `Nat`; the unsigned
  subtraction `writer_index_ - reader_index_` is the truncated `Nat` subtraction, which
  agrees with the code whenever the index invariant
  `reader_index_ ≤ writer_index_ ≤ buffer_.size()` holds, and every property below is
  stated under that invariant. The narrowing conversions of the code (`static_cast<int>`
  in `ToStringView` and in `Socket::Write`) are modelled with explicit `% 2^32` and
  `% 2^64` arithmetic (LP64: 32-bit `int`, 64-bit `size_t`).
* `assert(...)` is modelled as failure: an operation returns `none` when an assertion of
  the source does not hold. The `DCHECK_NE` of `Socket::setSocketError` only diagnose, are
  compiled out of a release build and are not modelled.
* System calls are modelled by their outcome, which is an input of the operation: the
  bytes `readv` transferred, or the count `send` accepted, or the `errno` of the failure.
* The host byte order is a parameter `little_endian` of every operation that depends on it.
* The callbacks a connection invokes belong to its owner; a call is recorded in the ghost
  field `calls`, in order. `Send` and `Shutdown` of the connection, which a user may call
  from any thread, take the value of `IsInLoopThread()` as a parameter: on the loop thread
  `RunInLoop` runs the functor at once, otherwise it is queued on the loop, and the run
  of the queued functor is an event of its own. `Connect` and `Disconnect` of the client
  are embedded for a call on the loop thread.
* `Time` is its count of microseconds since the epoch, an `Int`; `int` arithmetic on the
  retry interval is wrapped to 32 bits.
* A functor queued in a loop is modelled by what it does to the loop: whether it calls
  `Quit()` and which functors it queues; what happens to the loop during the multiplexer
  wait and from other threads during a drain is an input of each iteration.
* `raner/endian.h` and `raner/epoll_server.h` are not among the sources; what the embedded
  code uses of them is modelled from the specification and marked so.
-/

namespace raner

/-- One `char` of storage. -/
abbrev Byte := Fin 256

/-- The constant `ByteBuffer::kInitialSize`. -/
def kInitialSize : Nat := 1024

/-- The members of `class ByteBuffer`. -/
structure ByteBuffer where
  buffer_ : List Byte
  reader_index_ : Nat
  writer_index_ : Nat
deriving DecidableEq, Repr

namespace ByteBuffer

/-- The constructor `ByteBuffer(initial_size)`: a zero-filled vector, both indices 0. -/
def create (initial_size : Nat) : ByteBuffer :=
  { buffer_ := List.replicate initial_size 0, reader_index_ := 0, writer_index_ := 0 }

/-- The value of `buffer_.size()`. -/
def capacity (b : ByteBuffer) : Nat := b.buffer_.length

def DiscardableBytes (b : ByteBuffer) : Nat := b.reader_index_

def ReadableBytes (b : ByteBuffer) : Nat := b.writer_index_ - b.reader_index_

def WritableBytes (b : ByteBuffer) : Nat := b.buffer_.length - b.writer_index_

/-- The bytes of the range `[BeginRead(), BeginWrite())`. -/
def readable (b : ByteBuffer) : List Byte :=
  (b.buffer_.drop b.reader_index_).take b.ReadableBytes

/-- The index invariant drawn in the header comment of the class. -/
def Inv (b : ByteBuffer) : Prop :=
  b.reader_index_ ≤ b.writer_index_ ∧ b.writer_index_ ≤ b.buffer_.length

instance (b : ByteBuffer) : Decidable b.Inv := by
  unfold Inv; infer_instance

def SkipAll (b : ByteBuffer) : ByteBuffer :=
  { b with reader_index_ := 0, writer_index_ := 0 }

def SkipReadBytes (b : ByteBuffer) (len : Nat) : Option ByteBuffer :=
  if len ≤ b.ReadableBytes then
    if len < b.ReadableBytes then
      some { b with reader_index_ := b.reader_index_ + len }
    else
      some b.SkipAll
  else none

/-- The function `SkipAsString(len)`: the returned string and the buffer afterwards. -/
def SkipAsString (b : ByteBuffer) (len : Nat) : Option (List Byte × ByteBuffer) :=
  if len ≤ b.ReadableBytes then
    let res := (b.buffer_.drop b.reader_index_).take len
    match b.SkipReadBytes len with
    | some b' => some (res, b')
    | none => none
  else none

def SkipAllAsString (b : ByteBuffer) : Option (List Byte × ByteBuffer) :=
  b.SkipAsString b.ReadableBytes

def SkipWriteBytes (b : ByteBuffer) (len : Nat) : Option ByteBuffer :=
  if len ≤ b.WritableBytes then
    some { b with writer_index_ := b.writer_index_ + len }
  else none

/-- The call `buffer_.resize(n)` of `std::vector<char>`: truncate, or pad with zero bytes. -/
def resize (v : List Byte) (n : Nat) : List Byte :=
  v.take n ++ List.replicate (n - v.length) 0

/-- The call `std::copy(src, src + src.size(), begin() + pos)` into the storage `v`;
`none` when the destination range leaves the storage. -/
def copyInto (v : List Byte) (pos : Nat) (src : List Byte) : Option (List Byte) :=
  if pos + src.length ≤ v.length then
    some (v.take pos ++ src ++ v.drop (pos + src.length))
  else none

/-- The function `expandCapacity(len)`. Its closing `assert(readable == ReadableBytes())`
holds by the two assignments before it and is left out. -/
def expandCapacity (b : ByteBuffer) (len : Nat) : Option ByteBuffer :=
  if b.WritableBytes + b.DiscardableBytes < len then
    some { b with buffer_ := resize b.buffer_ (b.writer_index_ + len) }
  else
    if 0 < b.reader_index_ then
      let readable := b.ReadableBytes
      match copyInto b.buffer_ 0 ((b.buffer_.drop b.reader_index_).take readable) with
      | some v => some { buffer_ := v, reader_index_ := 0, writer_index_ := 0 + readable }
      | none => none
    else none

def ensureWritableBytes (b : ByteBuffer) (len : Nat) : Option ByteBuffer :=
  match (if b.WritableBytes < len then b.expandCapacity len else some b) with
  | some b' => if len ≤ b'.WritableBytes then some b' else none
  | none => none

/-- The function `Write(data, len)`, with `data` the `len` bytes at the pointer. -/
def Write (b : ByteBuffer) (data : List Byte) : Option ByteBuffer :=
  match b.ensureWritableBytes data.length with
  | some b1 =>
    match copyInto b1.buffer_ b1.writer_index_ data with
    | some v => SkipWriteBytes { b1 with buffer_ := v } data.length
    | none => none
  | none => none

/-- The conversion `static_cast<int>(x)` of a `size_t` (32-bit two's complement). -/
def sizeToInt (x : Nat) : Int :=
  if x % 2 ^ 32 < 2 ^ 31 then ((x % 2 ^ 32 : Nat) : Int) else ((x % 2 ^ 32 : Nat) : Int) - 2 ^ 32

/-- The implicit conversion of an `int` to the 64-bit `size_t`. -/
def intToSize (i : Int) : Nat := (i % 2 ^ 64).toNat

/-- The function `ToStringView()`: the bytes the returned view covers, `none` when the view
leaves the storage. -/
def ToStringView (b : ByteBuffer) : Option (List Byte) :=
  let n := intToSize (sizeToInt b.ReadableBytes)
  if b.reader_index_ + n ≤ b.buffer_.length then
    some ((b.buffer_.drop b.reader_index_).take n)
  else none

/-- The function `Shrink()`; the final `Swap(other)` leaves `other`'s contents in the buffer. -/
def Shrink (b : ByteBuffer) : Option ByteBuffer :=
  match (create kInitialSize).ensureWritableBytes b.ReadableBytes with
  | some other =>
    match b.ToStringView with
    | some sv => other.Write sv
    | none => none
  | none => none

/-- Outcome of the system call `::readv(fd, vec, iovcnt)`: `-1` with an `errno`, or the
bytes it transferred (its return value is their number). -/
inductive ReadvResult where
  | error (errno : Int)
  | data (bytes : List Byte)
deriving DecidableEq, Repr

/-- The size `sizeof(extrabuf)` of the side buffer of `ReadFD`. -/
def kExtraBufSize : Nat := 65536

/-- The number of bytes the iovecs handed to `readv` can take:
`iovcnt = (writable < sizeof(extrabuf)) ? 2 : 1`. -/
def iovCapacity (b : ByteBuffer) : Nat :=
  let writable := b.WritableBytes
  let iovcnt := if writable < kExtraBufSize then 2 else 1
  if iovcnt = 2 then writable + kExtraBufSize else writable

/-- What `ReadFD` leaves behind: the buffer, the returned count and `*save_errno`. -/
structure ReadFDResult where
  buf : ByteBuffer
  ret : Int
  save_errno : Int
deriving DecidableEq, Repr

/-- The function `ReadFD(fd, save_errno)` of `byte_buffer.cc`.  The scatter read stores the
first `writable` transferred bytes at `begin() + writer_index_` and the rest at the start of
`extrabuf`; a transfer larger than the iovecs is outside the contract of `readv` (`none`). -/
def ReadFD (b : ByteBuffer) (res : ReadvResult) (save_errno : Int) : Option ReadFDResult :=
  let writable := b.WritableBytes
  match res with
  | ReadvResult.error e => some { buf := b, ret := -1, save_errno := e }
  | ReadvResult.data bytes =>
    if bytes.length ≤ b.iovCapacity then
      let n := bytes.length
      match copyInto b.buffer_ b.writer_index_ (bytes.take writable) with
      | some v =>
        let b1 : ByteBuffer := { b with buffer_ := v }
        let extrabuf := bytes.drop writable
        if n ≤ writable then
          some { buf := { b1 with writer_index_ := b1.writer_index_ + n }, ret := n,
                 save_errno := save_errno }
        else
          match Write { b1 with writer_index_ := b1.buffer_.length }
              (extrabuf.take (n - writable)) with
          | some b2 => some { buf := b2, ret := n, save_errno := save_errno }
          | none => none
      | none => none
    else none

/-- Operations of the byte stream: `Write(d)` and `SkipAsString(n)`. -/
inductive StreamOp where
  | write (d : List Byte)
  | skip (n : Nat)
deriving DecidableEq, Repr

/-- Runs a sequence of stream operations; returns the skipped strings, in order, and the
final buffer. -/
def runStream (b : ByteBuffer) : List StreamOp → Option (List (List Byte) × ByteBuffer)
  | [] => some ([], b)
  | StreamOp.write d :: ops =>
    match b.Write d with
    | some b' => runStream b' ops
    | none => none
  | StreamOp.skip n :: ops =>
    match b.SkipAsString n with
    | some (s, b') =>
      match runStream b' ops with
      | some (out, b'') => some (s :: out, b'')
      | none => none
    | none => none

/-- The strings written by a sequence of stream operations, in order. -/
def written : List StreamOp → List (List Byte)
  | [] => []
  | StreamOp.write d :: ops => d :: written ops
  | StreamOp.skip _ :: ops => written ops

/-- Every skip of the sequence asks for at most the bytes readable at that point, when
`count` bytes are readable at the start. -/
def skipsWithin (count : Nat) : List StreamOp → Bool
  | [] => true
  | StreamOp.write d :: ops => skipsWithin (count + d.length) ops
  | StreamOp.skip n :: ops => decide (n ≤ count) && skipsWithin (count - n) ops

/-- The mutating operations of the public interface. -/
inductive BufOp where
  | write (d : List Byte)
  | skipRead (n : Nat)
  | skipWrite (n : Nat)
  | skipAll
  | shrink
deriving DecidableEq, Repr

def applyOp (b : ByteBuffer) : BufOp → Option ByteBuffer
  | BufOp.write d => b.Write d
  | BufOp.skipRead n => b.SkipReadBytes n
  | BufOp.skipWrite n => b.SkipWriteBytes n
  | BufOp.skipAll => some b.SkipAll
  | BufOp.shrink => b.Shrink

def runOps (b : ByteBuffer) : List BufOp → Option ByteBuffer
  | [] => some b
  | op :: ops =>
    match b.applyOp op with
    | some b' => runOps b' ops
    | none => none

/-- A buffer laid out as discardable bytes `pre`, readable bytes `mid` and writable
bytes `post`; every buffer satisfying the index invariant has this shape. -/
def layout (pre mid post : List Byte) : ByteBuffer :=
  { buffer_ := pre ++ mid ++ post, reader_index_ := pre.length,
    writer_index_ := pre.length + mid.length }

end ByteBuffer

/-! ### Fixed-width integers -/

/-- The `k` low bytes of `x`, least significant first. -/
def toLE : Nat → Nat → List Byte
  | 0, _ => []
  | k + 1, x => ⟨x % 256, Nat.mod_lt x (by decide)⟩ :: toLE k (x / 256)

/-- The number whose bytes, least significant first, are `bs`. -/
def fromLE : List Byte → Nat
  | [] => 0
  | b :: bs => b.val + 256 * fromLE bs

/-- The `k` low bytes of `x`, most significant first (network byte order). -/
def toBE (k x : Nat) : List Byte := (toLE k x).reverse

/-- The number whose bytes, most significant first, are `bs`. -/
def fromBE (bs : List Byte) : Nat := fromLE bs.reverse

/-- The object representation of a `k`-byte unsigned integer on the host: the bytes that
`Write(&n, sizeof(n))` copies. `little_endian` is the byte order of the host. -/
def objectBytes (little_endian : Bool) (k x : Nat) : List Byte :=
  if little_endian then toLE k x else toBE k x

/-- The unsigned integer whose object representation on the host is `bs`: what
`memcpy(&x, p, sizeof(x))` or `*static_cast<const uint32_t*>(p)` loads. -/
def objectValue (little_endian : Bool) (bs : List Byte) : Nat :=
  if little_endian then fromLE bs else fromBE bs

/-- Modelled from the spec: `raner/endian.h` is not among the sources. `gbswap_16/32/64`
reverse the bytes of a value, as `ManualByteSwap` of `tests/endian_test.cc` does; `k` is the
width in bytes. -/
def gbswap (k x : Nat) : Nat := fromLE (toLE k x).reverse

/-- Modelled from the spec: `ghtons`, host to network order of a 16-bit value (the swap on
a little-endian host, the identity on a big-endian one). -/
def ghtons (little_endian : Bool) (x : Nat) : Nat := if little_endian then gbswap 2 x else x

/-- Modelled from the spec: `ghtonl`, host to network order of a 32-bit value. -/
def ghtonl (little_endian : Bool) (x : Nat) : Nat := if little_endian then gbswap 4 x else x

/-- Modelled from the spec: `ghtonll`, host to network order of a 64-bit value. -/
def ghtonll (little_endian : Bool) (x : Nat) : Nat := if little_endian then gbswap 8 x else x

/-- Modelled from the spec: `gntohs`, network to host order of a 16-bit value. -/
def gntohs (little_endian : Bool) (x : Nat) : Nat := if little_endian then gbswap 2 x else x

/-- Modelled from the spec: `gntohl`, network to host order of a 32-bit value. -/
def gntohl (little_endian : Bool) (x : Nat) : Nat := if little_endian then gbswap 4 x else x

/-- Modelled from the spec: `gntohll`, network to host order of a 64-bit value. -/
def gntohll (little_endian : Bool) (x : Nat) : Nat := if little_endian then gbswap 8 x else x

/-- The conversion `static_cast<uintN_t>(x)`: reduction modulo `2^bits`. -/
def toUnsigned (bits : Nat) (x : Int) : Nat := (x % 2 ^ bits).toNat

/-- The conversion `static_cast<intN_t>(u)`: the two's-complement reading of the low
`bits` bits. -/
def toSigned (bits : Nat) (u : Nat) : Int :=
  if u % 2 ^ bits < 2 ^ (bits - 1) then ((u % 2 ^ bits : Nat) : Int)
  else ((u % 2 ^ bits : Nat) : Int) - 2 ^ bits

namespace ByteBuffer

/-- The `k` bytes of storage at `BeginRead()`. -/
def peekBytes (b : ByteBuffer) (k : Nat) : List Byte :=
  (b.buffer_.drop b.reader_index_).take k

def WriteInt64 (little_endian : Bool) (b : ByteBuffer) (x : Int) : Option ByteBuffer :=
  let n := ghtonll little_endian (toUnsigned 64 x)
  b.Write (objectBytes little_endian 8 n)

def WriteInt32 (little_endian : Bool) (b : ByteBuffer) (x : Int) : Option ByteBuffer :=
  let n := ghtonl little_endian (toUnsigned 32 x)
  b.Write (objectBytes little_endian 4 n)

/-- The function `WriteInt16(int32_t x)`; the parameter is narrowed to `uint16_t`. -/
def WriteInt16 (little_endian : Bool) (b : ByteBuffer) (x : Int) : Option ByteBuffer :=
  let n := ghtons little_endian (toUnsigned 16 x)
  b.Write (objectBytes little_endian 2 n)

/-- The function `WriteInt8(int8_t x)`: writes the one byte of `x`. -/
def WriteInt8 (little_endian : Bool) (b : ByteBuffer) (x : Int) : Option ByteBuffer :=
  b.Write (objectBytes little_endian 1 (toUnsigned 8 x))

def PeekInt8 (little_endian : Bool) (b : ByteBuffer) : Option Int :=
  if 1 ≤ b.ReadableBytes then
    some (toSigned 8 (objectValue little_endian (b.peekBytes 1)))
  else none

def PeekInt16 (little_endian : Bool) (b : ByteBuffer) : Option Int :=
  if 2 ≤ b.ReadableBytes then
    let x := toSigned 16 (objectValue little_endian (b.peekBytes 2))
    some (toSigned 16 (gntohs little_endian (toUnsigned 16 x)))
  else none

def PeekInt32 (little_endian : Bool) (b : ByteBuffer) : Option Int :=
  if 4 ≤ b.ReadableBytes then
    let x := toSigned 32 (objectValue little_endian (b.peekBytes 4))
    some (toSigned 32 (gntohl little_endian (toUnsigned 32 x)))
  else none

def PeekInt64 (little_endian : Bool) (b : ByteBuffer) : Option Int :=
  if 8 ≤ b.ReadableBytes then
    let x := toSigned 64 (objectValue little_endian (b.peekBytes 8))
    some (toSigned 64 (gntohll little_endian (toUnsigned 64 x)))
  else none

def ReadInt8 (little_endian : Bool) (b : ByteBuffer) : Option (Int × ByteBuffer) :=
  match b.PeekInt8 little_endian with
  | some x =>
    match b.SkipReadBytes 1 with
    | some b' => some (x, b')
    | none => none
  | none => none

def ReadInt16 (little_endian : Bool) (b : ByteBuffer) : Option (Int × ByteBuffer) :=
  match b.PeekInt16 little_endian with
  | some x =>
    match b.SkipReadBytes 2 with
    | some b' => some (x, b')
    | none => none
  | none => none

def ReadInt32 (little_endian : Bool) (b : ByteBuffer) : Option (Int × ByteBuffer) :=
  match b.PeekInt32 little_endian with
  | some x =>
    match b.SkipReadBytes 4 with
    | some b' => some (x, b')
    | none => none
  | none => none

def ReadInt64 (little_endian : Bool) (b : ByteBuffer) : Option (Int × ByteBuffer) :=
  match b.PeekInt64 little_endian with
  | some x =>
    match b.SkipReadBytes 8 with
    | some b' => some (x, b')
    | none => none
  | none => none

end ByteBuffer

/-! ### Length-header codec of `examples/chat/codec.h` -/

namespace LengthHeaderCodec

/-- The constant `kHeaderLen == sizeof(uint32_t)`. -/
def kHeaderLen : Nat := 4

/-- What `OnMessage` acts on: the buffer it is handed, the arguments of its calls of
`messageCallback_` so far (in order) and the number of its calls of `conn->Shutdown()`. -/
structure CodecState where
  buf : ByteBuffer
  delivered : List (List Byte)
  shutdowns : Nat
deriving DecidableEq, Repr

/-- The `while` loop of `OnMessage`, one iteration per unit of fuel; `none` when the fuel
runs out before the loop ends, or when an assertion of the buffer fails. -/
def OnMessageLoop (little_endian : Bool) : Nat → CodecState → Option CodecState
  | 0, _ => none
  | fuel + 1, st =>
    if kHeaderLen ≤ st.buf.ReadableBytes then
      let len := gntohl little_endian (objectValue little_endian (st.buf.peekBytes 4))
      if 65536 < len then
        some { st with shutdowns := st.shutdowns + 1 }
      else if len + kHeaderLen ≤ st.buf.ReadableBytes then
        match st.buf.SkipReadBytes kHeaderLen with
        | some b1 =>
          let message := b1.peekBytes len
          match b1.SkipReadBytes len with
          | some b2 =>
            OnMessageLoop little_endian fuel
              { buf := b2, delivered := st.delivered ++ [message], shutdowns := st.shutdowns }
          | none => none
        | none => none
      else some st
    else some st

/-- The function `OnMessage(conn, buf)`. Every iteration that continues consumes at least
the four header bytes, so `ReadableBytes() + 1` iterations always suffice. -/
def OnMessage (little_endian : Bool) (st : CodecState) : Option CodecState :=
  OnMessageLoop little_endian (st.buf.ReadableBytes + 1) st

/-- The function `Send(conn, message)` up to its call `conn->Send(&buf)`: the local buffer
whose readable bytes are handed to the connection. -/
def Send (little_endian : Bool) (message : List Byte) : Option ByteBuffer :=
  let buf := ByteBuffer.create kInitialSize
  let len := ghtonl little_endian (message.length % 2 ^ 32)
  match buf.Write (objectBytes little_endian 4 len) with
  | some b1 => b1.Write message
  | none => none

/-- A frame of the wire format: the payload length as four big-endian bytes, then the
payload. -/
def frame (m : List Byte) : List Byte := toBE 4 m.length ++ m

end LengthHeaderCodec

/-! ### The connection of `raner/tcp_connection.cc` -/

/-- The enumeration `TCPConnection::State`. -/
inductive ConnState where
  | kDisconnected
  | kConnecting
  | kConnected
  | kDisconnecting
deriving DecidableEq, Repr

/-- The value of `EWOULDBLOCK` (equal to `EAGAIN`) on Linux. -/
def EWOULDBLOCK : Int := 11

/-- The value of `EPIPE` on Linux. -/
def EPIPE : Int := 32

/-- The value of `ECONNRESET` on Linux. -/
def ECONNRESET : Int := 104

/-- Outcome of the system call `send(fd_, buffer, count, MSG_NOSIGNAL)` under
`HANDLE_EINTR`: the number of bytes the socket accepted, or `-1` with an `errno`. -/
inductive SendResult where
  | accepted (k : Nat)
  | failed (errno : Int)
deriving DecidableEq, Repr

/-- The members `fd_` and `socket_error_` of `class Socket`, with two ghost fields that
record the effects on the descriptor: the bytes `send` accepted so far and the number of
`shutdown(fd_, SHUT_WR)` calls. -/
structure Socket where
  fd_ : Int
  socket_error_ : Bool
  wire : List Byte
  wr_shutdowns : Nat
deriving DecidableEq, Repr

namespace Socket

def IsClosed (s : Socket) : Bool := decide (s.fd_ < 0)

def Close (s : Socket) : Socket :=
  if !s.IsClosed then { s with fd_ := -1 } else s

/-- The function `setSocketError()`; its two `DCHECK_NE` are compiled out of a release
build and are not modelled. -/
def setSocketError (s : Socket) : Socket :=
  Close { s with socket_error_ := true }

def ShutdownWrite (s : Socket) : Socket :=
  if !s.IsClosed then { s with wr_shutdowns := s.wr_shutdowns + 1 } else s

/-- The function `Socket::Write(buffer, count)`: the socket afterwards, the returned `int`
and the value of `errno` afterwards. -/
def Write (s : Socket) (errno : Int) (buffer : List Byte) (res : SendResult) :
    Socket × Int × Int :=
  match res with
  | SendResult.accepted k =>
    let s1 : Socket := { s with wire := s.wire ++ buffer.take k }
    let ret := ByteBuffer.sizeToInt k
    if ret < 0 then (s1.setSocketError, ret, errno) else (s1, ret, errno)
  | SendResult.failed e => (s.setSocketError, -1, e)

end Socket

/-- Modelled from the spec: `raner/epoll_server.h` is not among the sources. The multiplexer
registers fds with an interest mask; kept here are the list of fds that have write interest
and the list of registered fds. -/
structure EpollServer where
  write_fds : List Int
  fds : List Int
deriving DecidableEq, Repr

namespace EpollServer

/-- Modelled from the spec: `HasRegisterWrite(fd)`, whether write interest is registered
for `fd`. -/
def HasRegisterWrite (e : EpollServer) (fd : Int) : Bool := decide (fd ∈ e.write_fds)

/-- Modelled from the spec: `StartWrite(fd)` registers write interest for `fd`. -/
def StartWrite (e : EpollServer) (fd : Int) : EpollServer :=
  if fd ∈ e.write_fds then e else { e with write_fds := fd :: e.write_fds }

/-- Modelled from the spec: `StopWrite(fd)` deregisters write interest for `fd`. -/
def StopWrite (e : EpollServer) (fd : Int) : EpollServer :=
  { e with write_fds := e.write_fds.filter (fun x => decide (x ≠ fd)) }

/-- Modelled from the spec: `RegisterFD(fd, cb, event_mask)` registers `fd` with the given
interest mask, replacing an earlier registration; `write` tells whether the mask holds
`EPOLLOUT`. -/
def RegisterFD (e : EpollServer) (fd : Int) (write : Bool) : EpollServer :=
  { write_fds :=
      if write then fd :: e.write_fds.filter (fun x => decide (x ≠ fd))
      else e.write_fds.filter (fun x => decide (x ≠ fd)),
    fds := fd :: e.fds.filter (fun x => decide (x ≠ fd)) }

/-- Modelled from the spec: `UnregisterFD(fd)` removes `fd` and its interest mask from the
multiplexer. -/
def UnregisterFD (e : EpollServer) (fd : Int) : EpollServer :=
  { write_fds := e.write_fds.filter (fun x => decide (x ≠ fd)),
    fds := e.fds.filter (fun x => decide (x ≠ fd)) }

/-- Modelled from the spec: whether `fd` is registered with the multiplexer. -/
def IsRegistered (e : EpollServer) (fd : Int) : Bool := decide (fd ∈ e.fds)

end EpollServer

/-- A functor queued on the loop by the connection, named by the callback it is bound to. -/
inductive PendingFunctor where
  | write_complete
  | high_water_mark (queued_bytes : Nat)
  | force_close_in_loop
  | connect_destroyed
  | stop_in_loop
  | shutdown_in_loop
  | send_in_loop (message : List Byte)
deriving DecidableEq, Repr

/-- A call of one of the callbacks the connection invokes directly: the connection callback
(with what `conn->Connected()` answers during the call), the message callback and the close
callback. The bodies of the callbacks belong to the owner and are not part of the
connection; a call is recorded. -/
inductive UserCall where
  | connection (connected : Bool)
  | message
  | close
deriving DecidableEq, Repr

/-- The parts of `class EventLoop` the send path touches. -/
structure EventLoop where
  epoll_server_ : EpollServer
  pending_functors_ : List PendingFunctor
deriving DecidableEq, Repr

namespace EventLoop

/-- The function `QueueInLoop(cb)`: `push_back` on the pending queue (the wake-up of the
multiplexer is not modelled). -/
def QueueInLoop (l : EventLoop) (cb : PendingFunctor) : EventLoop :=
  { l with pending_functors_ := l.pending_functors_ ++ [cb] }

end EventLoop

/-- The members of `class TCPConnection`, with the loop it is bound to and the thread's
`errno`; `write_complete_callback_` and `high_water_mark_callback_` are `true` when a
callback is installed (the connection, message and close callbacks are installed by the
owner before the connection is established). Two ghost fields record effects: `calls`, the
callbacks invoked so far in order, and `half_closes`, for every `shutdown(fd, SHUT_WR)`
issued the number of bytes the output buffer held at that moment. -/
structure TCPConnection where
  loop_ : EventLoop
  state_ : ConnState
  socket_ : Socket
  write_complete_callback_ : Bool
  high_water_mark_callback_ : Bool
  high_water_mark_ : Nat
  output_buffer_ : ByteBuffer
  errno : Int
  input_buffer_ : ByteBuffer
  calls : List UserCall
  half_closes : List Nat
deriving DecidableEq, Repr

namespace TCPConnection

/-- The condition `loop_->epoll_server()->HasRegisterWrite(socket_->fd())`. -/
def HasRegisterWrite (c : TCPConnection) : Bool :=
  c.loop_.epoll_server_.HasRegisterWrite c.socket_.fd_

def StartWrite (c : TCPConnection) : TCPConnection :=
  { c with loop_ := { c.loop_ with
      epoll_server_ := c.loop_.epoll_server_.StartWrite c.socket_.fd_ } }

def StopWrite (c : TCPConnection) : TCPConnection :=
  { c with loop_ := { c.loop_ with
      epoll_server_ := c.loop_.epoll_server_.StopWrite c.socket_.fd_ } }

def QueueInLoop (c : TCPConnection) (cb : PendingFunctor) : TCPConnection :=
  { c with loop_ := c.loop_.QueueInLoop cb }

/-- The locals of `sendInLoop` after its direct-write block. -/
structure SendLocals where
  conn : TCPConnection
  nwrote : Nat
  remaining : Nat
  fault_error : Bool

/-- The direct-write block of `sendInLoop` (lines 115 to 134), entered when no write
interest is registered and the output buffer is empty. `remaining = len - nwrote` is
computed in `size_t`: when `nwrote` exceeds `len` it wraps and `assert(remaining <= len)`
fails (`none`). -/
def directWrite (c : TCPConnection) (data : List Byte) (res : SendResult) :
    Option SendLocals :=
  let len := data.length
  match c.socket_.Write c.errno data res with
  | (sock, ret, errno) =>
    let c1 : TCPConnection := { c with socket_ := sock, errno := errno }
    if 0 ≤ ret then
      let nwrote := ret.toNat
      if nwrote ≤ len then
        let remaining := len - nwrote
        let c2 := if remaining = 0 ∧ c1.write_complete_callback_ = true
          then c1.QueueInLoop PendingFunctor.write_complete else c1
        some { conn := c2, nwrote := nwrote, remaining := remaining, fault_error := false }
      else none
    else
      let fault_error :=
        if errno ≠ EWOULDBLOCK then
          if errno = EPIPE ∨ errno = ECONNRESET then true else false
        else false
      some { conn := c1, nwrote := 0, remaining := len, fault_error := fault_error }

/-- The queueing block of `sendInLoop` (lines 136 to 148): the high-water-mark check, the
append of the unwritten bytes to the output buffer and the registration of write interest. -/
def queueRemaining (l : SendLocals) (data : List Byte) : Option TCPConnection :=
  if !l.fault_error ∧ 0 < l.remaining then
    let old_len := l.conn.output_buffer_.ReadableBytes
    let c1 :=
      if l.conn.high_water_mark_ ≤ old_len + l.remaining ∧
          old_len < l.conn.high_water_mark_ ∧ l.conn.high_water_mark_callback_ = true
      then l.conn.QueueInLoop (PendingFunctor.high_water_mark (old_len + l.remaining))
      else l.conn
    match c1.output_buffer_.Write ((data.drop l.nwrote).take l.remaining) with
    | some ob =>
      let c2 : TCPConnection := { c1 with output_buffer_ := ob }
      if !c2.HasRegisterWrite then some c2.StartWrite else some c2
    | none => none
  else some l.conn

/-- The function `sendInLoop(data, len)`; `res` is the outcome of the `send` system call,
consulted only when the direct write is attempted. -/
def sendInLoop (c : TCPConnection) (data : List Byte) (res : SendResult) :
    Option TCPConnection :=
  let len := data.length
  if c.state_ = ConnState.kDisconnected then some c
  else
    let locals : Option SendLocals :=
      if !c.HasRegisterWrite ∧ c.output_buffer_.ReadableBytes = 0 then
        directWrite c data res
      else some { conn := c, nwrote := 0, remaining := len, fault_error := false }
    match locals with
    | some l => queueRemaining l data
    | none => none

/-- The function `shutdownInLoop()`; when `Socket::ShutdownWrite` issues the system call
(the socket is not closed) the ghost field `half_closes` records the size of the output
buffer. -/
def shutdownInLoop (c : TCPConnection) : TCPConnection :=
  if !c.HasRegisterWrite then
    { c with socket_ := c.socket_.ShutdownWrite,
             half_closes := c.half_closes ++
               (if !c.socket_.IsClosed then [c.output_buffer_.ReadableBytes] else []) }
  else c

/-- The function `handleWrite()`; `res` is the outcome of the `send` system call. -/
def handleWrite (c : TCPConnection) (res : SendResult) : Option TCPConnection :=
  if c.HasRegisterWrite then
    match c.socket_.Write c.errno c.output_buffer_.readable res with
    | (sock, n, errno) =>
      let c1 : TCPConnection := { c with socket_ := sock, errno := errno }
      if 0 < n then
        match c1.output_buffer_.SkipReadBytes n.toNat with
        | some ob =>
          let c2 : TCPConnection := { c1 with output_buffer_ := ob }
          if c2.output_buffer_.ReadableBytes = 0 then
            let c3 := c2.StopWrite
            let c4 := if c3.write_complete_callback_ = true
              then c3.QueueInLoop PendingFunctor.write_complete else c3
            if c4.state_ = ConnState.kDisconnecting then some c4.shutdownInLoop else some c4
          else some c2
        | none => none
      else some c1
  else some c

/-- A sample connection: connected, fd 5, threshold 100 with both callbacks installed, an
empty output buffer of capacity 8, no write interest registered, nothing pending. -/
def blocked : TCPConnection :=
  { loop_ := { epoll_server_ := { write_fds := [], fds := [5] }, pending_functors_ := [] },
    state_ := ConnState.kConnected,
    socket_ := { fd_ := 5, socket_error_ := false, wire := [], wr_shutdowns := 0 },
    write_complete_callback_ := true, high_water_mark_callback_ := true,
    high_water_mark_ := 100, output_buffer_ := ByteBuffer.create 8, errno := 0,
    input_buffer_ := ByteBuffer.create 8, calls := [UserCall.connection true],
    half_closes := [] }

/-- The constructor: state `kConnecting`, default-constructed buffers and a
`high_water_mark_` of 64 MiB; no write-complete or high-water-mark callback is installed
yet. -/
def construct (loop : EventLoop) (socket : Socket) (errno : Int) : TCPConnection :=
  { loop_ := loop, state_ := ConnState.kConnecting, socket_ := socket,
    write_complete_callback_ := false, high_water_mark_callback_ := false,
    high_water_mark_ := 64 * 1024 * 1024, output_buffer_ := ByteBuffer.create kInitialSize,
    errno := errno, input_buffer_ := ByteBuffer.create kInitialSize, calls := [],
    half_closes := [] }

def SetWriteCompleteCallback (c : TCPConnection) : TCPConnection :=
  { c with write_complete_callback_ := true }

def SetHighWaterMarkCallback (c : TCPConnection) (high_water_mark : Nat) : TCPConnection :=
  { c with high_water_mark_callback_ := true, high_water_mark_ := high_water_mark }

/-- The accessor `Connected()`: `state_ == kConnected`. -/
def Connected (c : TCPConnection) : Bool := decide (c.state_ = ConnState.kConnected)

def setState (c : TCPConnection) (s : ConnState) : TCPConnection := { c with state_ := s }

/-- The call `loop_->epoll_server()->RegisterFD(socket_->fd(), this, kEpollFlags)` with
`kEpollFlags = EPOLLIN`. -/
def RegisterFD (c : TCPConnection) : TCPConnection :=
  { c with loop_ := { c.loop_ with
      epoll_server_ := c.loop_.epoll_server_.RegisterFD c.socket_.fd_ false } }

/-- The call `loop_->epoll_server()->UnregisterFD(socket_->fd())`. -/
def UnregisterFD (c : TCPConnection) : TCPConnection :=
  { c with loop_ := { c.loop_ with
      epoll_server_ := c.loop_.epoll_server_.UnregisterFD c.socket_.fd_ } }

/-- The call `connection_callback_(shared_from_this())`: recorded with the answer
`Connected()` gives during the call. -/
def connection_callback_ (c : TCPConnection) : TCPConnection :=
  { c with calls := c.calls ++ [UserCall.connection c.Connected] }

/-- The call `message_callback_(shared_from_this(), &input_buffer_)`. -/
def message_callback_ (c : TCPConnection) : TCPConnection :=
  { c with calls := c.calls ++ [UserCall.message] }

/-- The call `close_callback_(guard_this)`. -/
def close_callback_ (c : TCPConnection) : TCPConnection :=
  { c with calls := c.calls ++ [UserCall.close] }

/-- The function `ConnectEstablished()`; `none` when `assert(state_ == kConnecting)`
fails. -/
def ConnectEstablished (c : TCPConnection) : Option TCPConnection :=
  if c.state_ = ConnState.kConnecting then
    some ((c.setState ConnState.kConnected).RegisterFD.connection_callback_)
  else none

/-- The function `ConnectDestroyed()`. -/
def ConnectDestroyed (c : TCPConnection) : TCPConnection :=
  if c.state_ = ConnState.kConnected then
    (c.setState ConnState.kDisconnected).UnregisterFD.connection_callback_
  else c

/-- The function `handleClose()`; `none` when
`assert(state_ == kConnected || state_ == kDisconnecting)` fails. -/
def handleClose (c : TCPConnection) : Option TCPConnection :=
  if c.state_ = ConnState.kConnected ∨ c.state_ = ConnState.kDisconnecting then
    some ((c.setState ConnState.kDisconnected).UnregisterFD.connection_callback_.close_callback_)
  else none

/-- The function `handleError()`: it reads `SO_ERROR` and logs; no member changes. -/
def handleError (c : TCPConnection) : TCPConnection := c

/-- The function `handleRead()`; `res` is the outcome of the `readv` system call. -/
def handleRead (c : TCPConnection) (res : ByteBuffer.ReadvResult) : Option TCPConnection :=
  let saved_errno : Int := 0
  match c.input_buffer_.ReadFD res saved_errno with
  | some r =>
    let c1 : TCPConnection := { c with input_buffer_ := r.buf }
    if 0 < r.ret then some c1.message_callback_
    else if r.ret = 0 then c1.handleClose
    else some ({ c1 with errno := r.save_errno }).handleError
  | none => none

/-- The function `Shutdown()`; `in_loop_thread` is the value of `IsInLoopThread()`:
`RunInLoop` runs `shutdownInLoop` at once on the loop thread and queues it on the loop
otherwise. -/
def Shutdown (c : TCPConnection) (in_loop_thread : Bool) : TCPConnection :=
  if c.state_ = ConnState.kConnected then
    let c1 := c.setState ConnState.kDisconnecting
    if in_loop_thread then c1.shutdownInLoop
    else c1.QueueInLoop PendingFunctor.shutdown_in_loop
  else c

/-- The function `ForceClose()`. -/
def ForceClose (c : TCPConnection) : TCPConnection :=
  if c.state_ = ConnState.kConnected ∨ c.state_ = ConnState.kDisconnecting then
    (c.setState ConnState.kDisconnecting).QueueInLoop PendingFunctor.force_close_in_loop
  else c

/-- The function `forceCloseInLoop()`. -/
def forceCloseInLoop (c : TCPConnection) : Option TCPConnection :=
  if c.state_ = ConnState.kConnected ∨ c.state_ = ConnState.kDisconnecting then
    c.handleClose
  else some c

/-- The function `Send(message)`: nothing unless the state is `kConnected`; then
`sendInLoop` at once when called on the loop thread (`in_loop_thread`, the value of
`IsInLoopThread()`), and otherwise `RunInLoop` queues `sendInLoop` with a copy of the
message. `res`, the outcome of `send`, is consulted only on the loop thread. -/
def Send (c : TCPConnection) (message : List Byte) (res : SendResult)
    (in_loop_thread : Bool) : Option TCPConnection :=
  if c.state_ = ConnState.kConnected then
    if in_loop_thread then c.sendInLoop message res
    else some (c.QueueInLoop (PendingFunctor.send_in_loop message))
  else some c

/-- The run, from the functor queue of the loop, of a `sendInLoop(message)` that a `Send`
called from another thread has queued: `none` when no such functor was queued. -/
def runSendInLoop (c : TCPConnection) (message : List Byte) (res : SendResult) :
    Option TCPConnection :=
  if PendingFunctor.send_in_loop message ∈ c.loop_.pending_functors_ then
    c.sendInLoop message res
  else none

/-- The run, from the functor queue of the loop, of a `shutdownInLoop` that a `Shutdown()`
called from another thread has queued: `none` when no such functor was queued. -/
def runShutdownInLoop (c : TCPConnection) : Option TCPConnection :=
  if PendingFunctor.shutdown_in_loop ∈ c.loop_.pending_functors_ then
    some c.shutdownInLoop
  else none

/-- What can happen to a connection: the calls of its owner (on the loop thread), the
calls of its user on the loop thread (`send`, `shutdown`) or from another thread
(`send_queued`, `shutdown_queued`, `force_close`), the readiness events of its fd, and the
run of a functor from the queue of the loop (`send_in_loop`, `shutdown_in_loop`,
`force_close_in_loop`). -/
inductive ConnEvent where
  | established
  | destroyed
  | send (message : List Byte) (res : SendResult)
  | shutdown
  | force_close
  | force_close_in_loop
  | readable (res : ByteBuffer.ReadvResult)
  | writable (res : SendResult)
  | error
  | send_queued (message : List Byte)
  | send_in_loop (message : List Byte) (res : SendResult)
  | shutdown_queued
  | shutdown_in_loop

/-- One event applied to a connection. -/
def step (c : TCPConnection) : ConnEvent → Option TCPConnection
  | ConnEvent.established => c.ConnectEstablished
  | ConnEvent.destroyed => some c.ConnectDestroyed
  | ConnEvent.send message res => c.Send message res true
  | ConnEvent.shutdown => some (c.Shutdown true)
  | ConnEvent.force_close => some c.ForceClose
  | ConnEvent.force_close_in_loop => c.forceCloseInLoop
  | ConnEvent.readable res => c.handleRead res
  | ConnEvent.writable res => c.handleWrite res
  | ConnEvent.error => some c.handleError
  | ConnEvent.send_queued message => c.Send message (SendResult.accepted 0) false
  | ConnEvent.send_in_loop message res => c.runSendInLoop message res
  | ConnEvent.shutdown_queued => some (c.Shutdown false)
  | ConnEvent.shutdown_in_loop => c.runShutdownInLoop

/-- A history of events applied in order; `none` when an assertion fails on the way. -/
def run (c : TCPConnection) : List ConnEvent → Option TCPConnection
  | [] => some c
  | e :: es =>
    match c.step e with
    | some c1 => run c1 es
    | none => none

end TCPConnection

/-! ## The reconnect timer and the client -/

/-- The result of an `int` operation, wrapped to 32 bits. -/
def int32 (x : Int) : Int := toSigned 32 (toUnsigned 32 x)

/-- The members of `class EpollTimer`: `deadline_` is the `Time` in microseconds since the
epoch, `0` (`Time::UnixEpoch()`) meaning unset, and `timer_cb_` tells whether a callback is
installed. Modelled from the spec: `registered` is the time for which `epoll_timer_impl_`
is registered as an alarm with the multiplexer, if it is (`raner/epoll_server.h` is not
among the sources). -/
structure EpollTimer where
  deadline_ : Int
  timer_cb_ : Bool
  registered : Option Int
deriving DecidableEq, Repr

namespace EpollTimer

/-- The call `loop_->CreateTimer(timer_cb)`: the constructor sets `deadline_` to
`Time::UnixEpoch()`, then the callback is installed. -/
def CreateTimer : EpollTimer := { deadline_ := 0, timer_cb_ := true, registered := none }

/-- The function `IsSet()`: `deadline_.IsInitialized()`, that is `rep_ != 0`. -/
def IsSet (t : EpollTimer) : Bool := decide (t.deadline_ ≠ 0)

/-- The function `setImpl()`: `RegisterAlarm` with the deadline. -/
def setImpl (t : EpollTimer) : EpollTimer := { t with registered := some t.deadline_ }

/-- The function `cancelImpl()`: `UnregisterIfRegistered`. -/
def cancelImpl (t : EpollTimer) : EpollTimer := { t with registered := none }

def updateImpl (t : EpollTimer) : EpollTimer :=
  let new_deadline := t.deadline_
  let t1 := ({ t with deadline_ := 0 } : EpollTimer).cancelImpl
  ({ t1 with deadline_ := new_deadline } : EpollTimer).setImpl

/-- The function `Set(new_deadline)`; its two `DCHECK` are not modelled. -/
def Set (t : EpollTimer) (new_deadline : Int) : EpollTimer :=
  ({ t with deadline_ := new_deadline } : EpollTimer).setImpl

def Cancel (t : EpollTimer) : EpollTimer :=
  if !t.IsSet then t else ({ t with deadline_ := 0 } : EpollTimer).cancelImpl

def Update (t : EpollTimer) (new_deadline : Int) : EpollTimer :=
  if new_deadline = 0 then t.Cancel
  else
    let was_set := t.IsSet
    let t1 : EpollTimer := { t with deadline_ := new_deadline }
    if was_set then t1.updateImpl else t1.setImpl

/-- The function `fire()`: the timer afterwards and whether `timer_cb_` was called. -/
def fire (t : EpollTimer) : EpollTimer × Bool :=
  if !t.IsSet then (t, false)
  else ({ t with deadline_ := 0 }, t.timer_cb_)

/-- The function `EpollTimerImpl::OnAlarm()`. Modelled from the spec: `EpollAlarm::OnAlarm()`
marks the alarm as no longer registered. -/
def OnAlarm (t : EpollTimer) : EpollTimer × Bool :=
  ({ t with registered := none } : EpollTimer).fire

end EpollTimer

/-- Outcome of `Socket::Connect(host, port)` on a fresh socket: a failure of name
resolution, `socket`, `fcntl` or `connect` (with whether `setSocketError()` was reached), or
a descriptor on which the connection is established or in progress. -/
inductive ConnectOutcome where
  | failed (socket_error : Bool)
  | started (fd : Int)
deriving DecidableEq, Repr

namespace Socket

/-- The constructor `Socket()`. -/
def fresh : Socket := { fd_ := -1, socket_error_ := false, wire := [], wr_shutdowns := 0 }

/-- The function `Socket::Connect(host, port)`: on failure the socket is closed and `false`
is returned. -/
def Connect (s : Socket) (out : ConnectOutcome) : Socket × Bool :=
  match out with
  | ConnectOutcome.failed socket_error =>
    (Close { s with socket_error_ := socket_error }, false)
  | ConnectOutcome.started fd => ({ s with fd_ := fd }, true)

end Socket

/-- The enumeration `TCPClient::State`. -/
inductive ClientState where
  | kDisconnected
  | kConnecting
  | kConnected
deriving DecidableEq, Repr

/-- The constant `TCPClient::kMaxRetryIntervalMs`. -/
def kMaxRetryIntervalMs : Int := 30 * 1000

/-- The constant `TCPClient::kInitRetryIntervalMs`. -/
def kInitRetryIntervalMs : Int := 500

/-- The members of `class TCPClient`, with the loop it is bound to and the thread's `errno`;
`socket_`, `reconnect_timer_` and `connection_` are `none` when the pointer is null, and
`write_complete_callback_` is `true` when a callback is installed. The ghost field
`attempts` counts the connect attempts started so far (the calls of `connect()`, each of
which creates a socket and calls `Socket::Connect`). -/
structure TCPClient where
  loop_ : EventLoop
  connect_ : Bool
  state_ : ClientState
  retry_interval_ms_ : Int
  socket_ : Option Socket
  reconnect_timer_ : Option EpollTimer
  write_complete_callback_ : Bool
  retry_ : Bool
  next_conn_id_ : Int
  connection_ : Option TCPConnection
  errno : Int
  attempts : Nat
deriving DecidableEq, Repr

namespace TCPClient

/-- The constructor. -/
def create (loop : EventLoop) (errno : Int) : TCPClient :=
  { loop_ := loop, connect_ := false, state_ := ClientState.kDisconnected,
    retry_interval_ms_ := kInitRetryIntervalMs, socket_ := none, reconnect_timer_ := none,
    write_complete_callback_ := false, retry_ := false, next_conn_id_ := 1,
    connection_ := none, errno := errno, attempts := 0 }

def EnableRetry (c : TCPClient) : TCPClient := { c with retry_ := true }

def SetWriteCompleteCallback (c : TCPClient) : TCPClient :=
  { c with write_complete_callback_ := true }

/-- The function `retry()`; `now` is the value of `Time::Now()` in microseconds. The
products `retry_interval_ms_ * 1000` and `retry_interval_ms_ * 2` are computed in `int`;
the sum of the time and the duration is a 64-bit count of microseconds, far from its
bounds, and is left unwrapped. `none` when `socket_` is null. -/
def retry (c : TCPClient) (now : Int) : Option TCPClient :=
  match c.socket_ with
  | none => none
  | some s =>
    let c1 : TCPClient := { c with socket_ := some s.Close, state_ := ClientState.kDisconnected }
    if c1.connect_ then
      let timer := match c1.reconnect_timer_ with
        | none => EpollTimer.CreateTimer
        | some t => t
      let timer1 := timer.Update (now + int32 (c1.retry_interval_ms_ * 1000))
      some { c1 with reconnect_timer_ := some timer1,
                     retry_interval_ms_ :=
                       min (int32 (c1.retry_interval_ms_ * 2)) kMaxRetryIntervalMs }
    else some c1

/-- The function `connecting()`, with `kEpollFlags = EPOLLOUT`. -/
def connecting (c : TCPClient) : Option TCPClient :=
  match c.socket_ with
  | none => none
  | some s =>
    some { c with state_ := ClientState.kConnecting,
                  loop_ := { c.loop_ with
                    epoll_server_ := c.loop_.epoll_server_.RegisterFD s.fd_ true } }

/-- The function `connect()`; `out` is the outcome of `Socket::Connect`. -/
def connect (c : TCPClient) (out : ConnectOutcome) (now : Int) : Option TCPClient :=
  match Socket.fresh.Connect out with
  | (s, ok) =>
    let c1 : TCPClient := { c with socket_ := some s, attempts := c.attempts + 1 }
    if !ok then c1.retry now else c1.connecting

/-- The function `startInLoop()`; `none` when `assert(state_ == kDisconnected)` fails. -/
def startInLoop (c : TCPClient) (out : ConnectOutcome) (now : Int) : Option TCPClient :=
  if c.state_ = ClientState.kDisconnected then
    if c.connect_ then c.connect out now else some c
  else none

/-- The function `Connect()` called on the loop thread, where `RunInLoop` runs
`startInLoop` at once. -/
def Connect (c : TCPClient) (out : ConnectOutcome) (now : Int) : Option TCPClient :=
  ({ c with connect_ := true } : TCPClient).startInLoop out now

/-- The function `Stop()`. -/
def Stop (c : TCPClient) : TCPClient :=
  { c with connect_ := false, loop_ := c.loop_.QueueInLoop PendingFunctor.stop_in_loop }

/-- The function `stopInLoop()`. -/
def stopInLoop (c : TCPClient) (now : Int) : Option TCPClient :=
  if c.state_ = ClientState.kConnecting then
    match c.socket_ with
    | none => none
    | some s =>
      ({ c with state_ := ClientState.kDisconnected,
                loop_ := { c.loop_ with
                  epoll_server_ := c.loop_.epoll_server_.UnregisterFD s.fd_ } }
        : TCPClient).retry now
  else some c

/-- The function `Disconnect()` called on the loop thread; the connection works on the
loop of the client. -/
def Disconnect (c : TCPClient) : TCPClient :=
  match c.connection_ with
  | some conn =>
    let conn1 := ({ conn with loop_ := c.loop_ } : TCPConnection).Shutdown true
    { c with connect_ := false, connection_ := some conn1, loop_ := conn1.loop_ }
  | none => { c with connect_ := false }

/-- The function `restart()`. -/
def restart (c : TCPClient) (out : ConnectOutcome) (now : Int) : Option TCPClient :=
  ({ c with state_ := ClientState.kDisconnected,
            retry_interval_ms_ := kInitRetryIntervalMs, connect_ := true }
    : TCPClient).startInLoop out now

/-- The function `newConnection()`: the socket moves into the new connection, which is
established at once; `none` when `socket_` is null. -/
def newConnection (c : TCPClient) : Option TCPClient :=
  match c.socket_ with
  | none => none
  | some s =>
    let conn : TCPConnection :=
      { TCPConnection.construct c.loop_ s c.errno with
        write_complete_callback_ := c.write_complete_callback_ }
    match conn.ConnectEstablished with
    | some conn1 =>
      some { c with next_conn_id_ := int32 (c.next_conn_id_ + 1), socket_ := none,
                    connection_ := some conn1, loop_ := conn1.loop_ }
    | none => none

/-- The function `removeConnection(conn)`, the close callback of the connection; `none`
when `assert(connection_ == conn)` fails because the client holds no connection. -/
def removeConnection (c : TCPClient) (out : ConnectOutcome) (now : Int) : Option TCPClient :=
  match c.connection_ with
  | none => none
  | some _ =>
    let c1 : TCPClient :=
      { c with connection_ := none,
               loop_ := c.loop_.QueueInLoop PendingFunctor.connect_destroyed }
    if c1.retry_ ∧ c1.connect_ then c1.restart out now else some c1

/-- The function `handleWrite()`; `err` is the value `GetSocketError()` returns. `none`
when `assert(state_ == kDisconnected)` fails or `socket_` is null. -/
def handleWrite (c : TCPClient) (err : Int) (now : Int) : Option TCPClient :=
  if c.state_ = ClientState.kConnecting then
    match c.socket_ with
    | none => none
    | some s =>
      let c1 : TCPClient :=
        { c with loop_ := { c.loop_ with
            epoll_server_ := c.loop_.epoll_server_.UnregisterFD s.fd_ } }
      if err ≠ 0 then c1.retry now
      else
        let c2 : TCPClient := { c1 with state_ := ClientState.kConnected }
        if c2.connect_ then c2.newConnection
        else some { c2 with socket_ := some s.Close }
  else if c.state_ = ClientState.kDisconnected then some c else none

/-- The function `handleError()`. -/
def handleError (c : TCPClient) (err : Int) (now : Int) : Option TCPClient :=
  if c.state_ = ClientState.kConnecting then
    match c.socket_ with
    | none => none
    | some s =>
      let c1 : TCPClient :=
        { c with loop_ := { c.loop_ with
            epoll_server_ := c.loop_.epoll_server_.UnregisterFD s.fd_ } }
      if err ≠ 0 then c1.retry now else some c1
  else some c

/-- The alarm of the reconnect timer goes off: `EpollTimerImpl::OnAlarm()`, whose
`fire()` calls the timer callback `TCPClient::Connect`. Nothing happens when no alarm is
registered. -/
def onAlarm (c : TCPClient) (out : ConnectOutcome) (now : Int) : Option TCPClient :=
  match c.reconnect_timer_ with
  | none => some c
  | some t =>
    if t.registered.isSome then
      match t.OnAlarm with
      | (t1, called) =>
        let c1 : TCPClient := { c with reconnect_timer_ := some t1 }
        if called then c1.Connect out now else some c1
    else some c

/-- The connection of the client is closed: `TCPConnection::handleClose()` runs on it and
calls, last, its close callback `removeConnection`. Nothing happens when the client holds
no connection. -/
def connectionClosed (c : TCPClient) (out : ConnectOutcome) (now : Int) :
    Option TCPClient :=
  match c.connection_ with
  | none => some c
  | some conn =>
    match ({ conn with loop_ := c.loop_ } : TCPConnection).handleClose with
    | some conn1 =>
      ({ c with connection_ := some conn1, loop_ := conn1.loop_ } : TCPClient).removeConnection
        out now
    | none => none

/-- What can happen to a client on its loop thread: the calls of its user, the run of a
queued `stopInLoop`, the alarm of the reconnect timer, the readiness events of the
connecting socket, and the close of its connection. `out` is the outcome of
`Socket::Connect` and `now` the value of `Time::Now()`, consulted when the event gets that
far. -/
inductive ClientEvent where
  | connect (out : ConnectOutcome) (now : Int)
  | stop
  | stop_in_loop (now : Int)
  | disconnect
  | enable_retry
  | alarm (out : ConnectOutcome) (now : Int)
  | writable (err : Int) (now : Int)
  | error (err : Int) (now : Int)
  | connection_closed (out : ConnectOutcome) (now : Int)
deriving DecidableEq, Repr

/-- One event applied to a client. -/
def step (c : TCPClient) : ClientEvent → Option TCPClient
  | ClientEvent.connect out now => c.Connect out now
  | ClientEvent.stop => some c.Stop
  | ClientEvent.stop_in_loop now => c.stopInLoop now
  | ClientEvent.disconnect => some c.Disconnect
  | ClientEvent.enable_retry => some c.EnableRetry
  | ClientEvent.alarm out now => c.onAlarm out now
  | ClientEvent.writable err now => c.handleWrite err now
  | ClientEvent.error err now => c.handleError err now
  | ClientEvent.connection_closed out now => c.connectionClosed out now

/-- A history of events applied in order; `none` when an assertion fails on the way. -/
def run (c : TCPClient) : List ClientEvent → Option TCPClient
  | [] => some c
  | e :: es =>
    match c.step e with
    | some c1 => run c1 es
    | none => none

/-- A connect attempt that fails: `Socket::Connect` fails at once, or the connection is in
progress on `fd` and the readiness event that follows (write readiness, or an error event)
finds `SO_ERROR = err`; `now` is the time at which `retry()` then runs. -/
inductive FailedAttempt where
  | immediate (socket_error : Bool) (now : Int)
  | refused (fd : Int) (err : Int) (now : Int)
  | errored (fd : Int) (err : Int) (now : Int)
deriving DecidableEq, Repr

namespace FailedAttempt

def now : FailedAttempt → Int
  | immediate _ now => now
  | refused _ _ now => now
  | errored _ _ now => now

/-- The attempt does fail (`SO_ERROR` is not 0) and the clock is not before the epoch. -/
def ok : FailedAttempt → Bool
  | immediate _ now => decide (0 ≤ now)
  | refused _ err now => decide (err ≠ 0 ∧ 0 ≤ now)
  | errored _ err now => decide (err ≠ 0 ∧ 0 ≤ now)

/-- The events of the attempt: it is started by the user calling `Connect()` when it is the
first one, and by the alarm of the reconnect timer otherwise. -/
def events (first : Bool) : FailedAttempt → List ClientEvent
  | immediate socket_error now =>
    [if first then ClientEvent.connect (ConnectOutcome.failed socket_error) now
      else ClientEvent.alarm (ConnectOutcome.failed socket_error) now]
  | refused fd err now =>
    [if first then ClientEvent.connect (ConnectOutcome.started fd) now
      else ClientEvent.alarm (ConnectOutcome.started fd) now,
     ClientEvent.writable err now]
  | errored fd err now =>
    [if first then ClientEvent.connect (ConnectOutcome.started fd) now
      else ClientEvent.alarm (ConnectOutcome.started fd) now,
     ClientEvent.error err now]

end FailedAttempt

/-- The history of a client whose connect attempts all fail, one after the other. -/
def failedHistory : List FailedAttempt → List ClientEvent
  | [] => []
  | a :: rest => a.events true ++ rest.flatMap (FailedAttempt.events false)

/-- The client right after a failed attempt: Disconnected, still wanting to connect, with
retry interval `i`, `n` attempts started so far, and the reconnect timer set and registered
for the deadline `d`. -/
def Retrying (i : Int) (n : Nat) (d : Int) (c : TCPClient) : Prop :=
  c.state_ = ClientState.kDisconnected ∧ c.connect_ = true ∧ c.retry_interval_ms_ = i ∧
  c.attempts = n ∧
  c.reconnect_timer_ = some { deadline_ := d, timer_cb_ := true, registered := some d }

/-- The bounds of the retry interval. -/
def IntervalInv (c : TCPClient) : Prop :=
  500 ≤ c.retry_interval_ms_ ∧ c.retry_interval_ms_ ≤ 30000

/-- A sample client: constructed, auto-retry enabled, `Connect()` called with the attempt
in progress on fd 5, and the connection then established. -/
def connected : TCPClient :=
  ((create ⟨⟨[], []⟩, []⟩ 0).run
    [ClientEvent.enable_retry, ClientEvent.connect (ConnectOutcome.started 5) 0,
     ClientEvent.writable 0 1000]).getD (create ⟨⟨[], []⟩, []⟩ 0)

/-- A sample client: constructed, `Connect()` called at one second after the epoch, the
attempt failing at once. -/
def retrying : TCPClient :=
  ((create ⟨⟨[], []⟩, []⟩ 0).run
    [ClientEvent.connect (ConnectOutcome.failed false) 1000000]).getD
      (create ⟨⟨[], []⟩, []⟩ 0)

end TCPClient

/-! ### Later additions: timer callbacks, the stream of a connection, teardown -/

namespace EpollTimer

/-- The function `Set(new_deadline)` of a debug build: `none` when `DCHECK(!IsSet())` or
`DCHECK(new_deadline.IsInitialized())` fails. -/
def SetChecked (t : EpollTimer) (new_deadline : Int) : Option EpollTimer :=
  if !t.IsSet then
    if new_deadline ≠ 0 then some (t.Set new_deadline) else none
  else none

/-- The function `fire()` with the callback given as a function on the timer: `timer_cb`
runs on the state the timer has when `fire()` calls `timer_cb_()`. -/
def fireWith (t : EpollTimer) (timer_cb : EpollTimer → EpollTimer) : EpollTimer :=
  if !t.IsSet then t
  else
    let t1 : EpollTimer := { t with deadline_ := 0 }
    if t1.timer_cb_ then timer_cb t1 else t1

end EpollTimer

namespace TCPConnection

/-- The destructor `~TCPConnection()`: `none` when `assert(state_ == kDisconnected)`
fails. -/
def destroy (c : TCPConnection) : Option Unit :=
  if c.state_ = ConnState.kDisconnected then some () else none

/-- An event of the outgoing stream of a connection: a call `sendInLoop(message)` or a
write-readiness event, each with the outcome of the `send` it may make. -/
inductive StreamEvent where
  | send (message : List Byte) (res : SendResult)
  | writable (res : SendResult)
deriving DecidableEq, Repr

/-- The outcome of a `send` that is offered `offered` bytes is within the contract of the
system call and is not a fatal failure: at most the offered bytes are accepted (fewer than
`2^31`, the most one `send` transfers), or the call fails with an `errno` other than
`EPIPE` and `ECONNRESET`. -/
def sendOk (offered : Nat) : SendResult → Bool
  | SendResult.accepted k => decide (k ≤ offered ∧ k < 2 ^ 31)
  | SendResult.failed e => decide (e ≠ EPIPE ∧ e ≠ ECONNRESET)

/-- One event of the stream applied to a connection. -/
def streamStep (c : TCPConnection) : StreamEvent → Option TCPConnection
  | StreamEvent.send message res => c.sendInLoop message res
  | StreamEvent.writable res => c.handleWrite res

/-- The number of bytes the `send` of an event is offered: the message on a send, the
content of the output buffer on a write-readiness event. -/
def offered (c : TCPConnection) : StreamEvent → Nat
  | StreamEvent.send message _ => message.length
  | StreamEvent.writable _ => c.output_buffer_.ReadableBytes

def StreamEvent.res : StreamEvent → SendResult
  | StreamEvent.send _ res => res
  | StreamEvent.writable res => res

/-- A history of stream events applied in order. -/
def streamRun (c : TCPConnection) : List StreamEvent → Option TCPConnection
  | [] => some c
  | e :: es =>
    match c.streamStep e with
    | some c1 => streamRun c1 es
    | none => none

/-- Every `send` outcome of the history is within `sendOk` for the state in which it is
consulted. -/
def admissible (c : TCPConnection) : List StreamEvent → Bool
  | [] => true
  | e :: es =>
    sendOk (c.offered e) e.res &&
      (match c.streamStep e with
       | some c1 => admissible c1 es
       | none => false)

/-- The messages passed to `sendInLoop` in a history, in order. -/
def messages : List StreamEvent → List (List Byte)
  | [] => []
  | StreamEvent.send message _ :: es => message :: messages es
  | StreamEvent.writable _ :: es => messages es

/-- A sample connection with a backlog: the sample connection `blocked` after a
`sendInLoop` of three bytes of which the socket accepted one; two bytes are queued and write
interest is registered. -/
def backlog : TCPConnection :=
  (blocked.sendInLoop [1, 2, 3] (SendResult.accepted 1)).getD blocked

end TCPConnection

namespace TCPClient

/-- A sample client: constructed without auto-retry, `Connect()` called with the attempt in
progress on fd 5, and the connection then established. -/
def established : TCPClient :=
  ((create ⟨⟨[], []⟩, []⟩ 0).run
    [ClientEvent.connect (ConnectOutcome.started 5) 0,
     ClientEvent.writable 0 1000]).getD (create ⟨⟨[], []⟩, []⟩ 0)

end TCPClient

/-! ### `raner/time.cc` -/

/-- The result of an `int64_t` operation, wrapped to 64 bits. -/
def int64 (x : Int) : Int := toSigned 64 (toUnsigned 64 x)

/-- The class `Time`: `rep_` is the count of microseconds since the epoch, an `int64_t`. -/
structure Time where
  rep_ : Int
deriving DecidableEq, Repr

namespace Time

/-- The constant `Time::kMicrosecondsPerSecond`. -/
def kMicrosecondsPerSecond : Int := 1000 * 1000

def UnixEpoch : Time := { rep_ := 0 }

def IsInitialized (t : Time) : Bool := decide (t.rep_ ≠ 0)

/-- The function `FromTimeT(tt)`; `time_t` is a 64-bit integer. -/
def FromTimeT (tt : Int) : Time := { rep_ := int64 (tt * kMicrosecondsPerSecond) }

/-- The function `ToTimeT()`; the division of C++ truncates. -/
def ToTimeT (t : Time) : Int := Int.tdiv t.rep_ kMicrosecondsPerSecond

def ToMilliSeconds (t : Time) : Int := Int.tdiv t.rep_ kMicrosecondsPerSecond

def ToSeconds (t : Time) : Int := Int.tdiv t.ToMilliSeconds 1000

end Time

/-! ### `raner/event_loop_thread_pool.cc` -/

/-- The members of `class EventLoopThreadPool`; a loop (`EventLoop*`) is kept as a number
that identifies it. -/
structure EventLoopThreadPool where
  base_loop_ : Nat
  started_ : Bool
  num_threads_ : Int
  next_ : Int
  loops_ : List Nat
deriving DecidableEq, Repr

namespace EventLoopThreadPool

/-- The constructor. -/
def create (base_loop : Nat) : EventLoopThreadPool :=
  { base_loop_ := base_loop, started_ := false, num_threads_ := 0, next_ := 0, loops_ := [] }

def SetThreadNum (p : EventLoopThreadPool) (num_threads : Int) : EventLoopThreadPool :=
  { p with num_threads_ := num_threads }

/-- The function `Start(cb)`; `new_loop i` is the loop `StartLoop()` of the `i`-th thread
returns. `none` when `assert(!started_)` fails. -/
def Start (p : EventLoopThreadPool) (new_loop : Nat → Nat) : Option EventLoopThreadPool :=
  if !p.started_ then
    some { p with started_ := true,
                  loops_ := p.loops_ ++ (List.range p.num_threads_.toNat).map new_loop }
  else none

/-- The function `GetNextLoop()`: the pool afterwards and the loop returned. `none` when
`assert(started_)` fails or `loops_[next_]` is outside the vector. -/
def GetNextLoop (p : EventLoopThreadPool) : Option (EventLoopThreadPool × Nat) :=
  if p.started_ then
    if !p.loops_.isEmpty then
      match p.loops_[ByteBuffer.intToSize p.next_]? with
      | some loop =>
        let next1 := int32 (p.next_ + 1)
        let next2 := if p.loops_.length ≤ ByteBuffer.intToSize next1 then 0 else next1
        some ({ p with next_ := next2 }, loop)
      | none => none
    else some (p, p.base_loop_)
  else none

/-- The function `GetLoopForHash(hashCode)`; it changes no member. -/
def GetLoopForHash (p : EventLoopThreadPool) (hashCode : Nat) : Option Nat :=
  if !p.loops_.isEmpty then p.loops_[hashCode % p.loops_.length]?
  else some p.base_loop_

/-- A call on the pool. -/
inductive PoolCall where
  | next
  | hash (hashCode : Nat)
deriving DecidableEq, Repr

/-- A sequence of calls: the pool afterwards and the loops returned, in order. -/
def calls (p : EventLoopThreadPool) : List PoolCall → Option (EventLoopThreadPool × List Nat)
  | [] => some (p, [])
  | PoolCall.next :: rest =>
    match p.GetNextLoop with
    | some (p1, loop) =>
      match calls p1 rest with
      | some (p2, loops) => some (p2, loop :: loops)
      | none => none
    | none => none
  | PoolCall.hash hashCode :: rest =>
    match p.GetLoopForHash hashCode with
    | some loop =>
      match calls p rest with
      | some (p2, loops) => some (p2, loop :: loops)
      | none => none
    | none => none

/-- The round-robin dispatch in the words of the specification: with `k` calls of
`GetNextLoop` made so far, the next one returns `L (k mod N)`, and a call of
`GetLoopForHash` returns `L (hashCode mod N)` and does not count. -/
def roundRobin (L : Nat → Nat) (N : Nat) (k : Nat) : List PoolCall → List Nat
  | [] => []
  | PoolCall.next :: rest => L (k % N) :: roundRobin L N (k + 1) rest
  | PoolCall.hash hashCode :: rest => L (hashCode % N) :: roundRobin L N k rest

/-- The number of `GetNextLoop` calls in a sequence. -/
def nextCalls : List PoolCall → Nat
  | [] => 0
  | PoolCall.next :: rest => nextCalls rest + 1
  | PoolCall.hash _ :: rest => nextCalls rest

end EventLoopThreadPool

/-! ### The loop of `raner/event_loop.cc` -/

/-- A functor queued on a loop, kept with what it does when it runs: the number `id` names
it, `quits` tells whether it calls `Quit()`, and `queues` are the functors it passes to
`QueueInLoop`, in order. -/
inductive EventLoop.Functor where
  | mk (id : Nat) (quits : Bool) (queues : List EventLoop.Functor)

namespace EventLoop.Functor

def id : EventLoop.Functor → Nat
  | mk id _ _ => id

def quits : EventLoop.Functor → Bool
  | mk _ quits _ => quits

def queues : EventLoop.Functor → List EventLoop.Functor
  | mk _ _ queues => queues

end EventLoop.Functor

/-- The members of `class EventLoop` that `Loop()`, `Quit()`, `QueueInLoop()` and
`doPendingFunctors()` use (the structure `EventLoop` above keeps what a connection uses of
its loop). Two ghost fields record effects: `executed`, the functors run so far, by `id`
and in order, and `wakes`, the number of calls of `epoll_server_.Wake()`. -/
structure LoopState where
  looping_ : Bool
  quit_ : Bool
  calling_pending_functors_ : Bool
  iteration_ : Int
  pending_functors_ : List EventLoop.Functor
  executed : List Nat
  wakes : Nat

namespace LoopState

/-- The constructor. -/
def create : LoopState :=
  { looping_ := false, quit_ := false, calling_pending_functors_ := false, iteration_ := 0,
    pending_functors_ := [], executed := [], wakes := 0 }

/-- The function `Quit()`; `in_loop_thread` is the value of `IsInLoopThread()`. -/
def Quit (s : LoopState) (in_loop_thread : Bool) : LoopState :=
  let s1 : LoopState := { s with quit_ := true }
  if !in_loop_thread then { s1 with wakes := s1.wakes + 1 } else s1

/-- The function `QueueInLoop(cb)`; `in_loop_thread` is the value of `IsInLoopThread()`. -/
def QueueInLoop (s : LoopState) (cb : EventLoop.Functor) (in_loop_thread : Bool) :
    LoopState :=
  let s1 : LoopState := { s with pending_functors_ := s.pending_functors_ ++ [cb] }
  if !in_loop_thread || s1.calling_pending_functors_ then { s1 with wakes := s1.wakes + 1 }
  else s1

/-- The call `functors[i]()` on the loop thread: the functor is recorded, then does what
it does. -/
def call (s : LoopState) (f : EventLoop.Functor) : LoopState :=
  let s1 : LoopState := { s with executed := s.executed ++ [f.id] }
  let s2 := if f.quits then s1.Quit true else s1
  f.queues.foldl (fun st g => st.QueueInLoop g true) s2

/-- The function `doPendingFunctors()`. -/
def doPendingFunctors (s : LoopState) : LoopState :=
  let functors := s.pending_functors_
  let s1 : LoopState := { s with calling_pending_functors_ := true, pending_functors_ := [] }
  let s2 := functors.foldl call s1
  { s2 with calling_pending_functors_ := false }

/-- What is done to a loop from outside its drain: a call of `QueueInLoop` or of `Quit()`,
by a callback of the multiplexer (on the loop thread) or by another thread. -/
inductive Action where
  | queue (cb : EventLoop.Functor) (in_loop_thread : Bool)
  | quit (in_loop_thread : Bool)

def act (s : LoopState) : Action → LoopState
  | Action.queue cb in_loop_thread => s.QueueInLoop cb in_loop_thread
  | Action.quit in_loop_thread => s.Quit in_loop_thread

/-- The inputs of one iteration of the loop: `during_wait` is what happens to the loop
while `WaitForEventsAndExecuteCallbacks()` runs, `during_drain` what other threads do to it
while the drain runs (taken after the functors of the drain). -/
structure Iteration where
  during_wait : List Action
  during_drain : List Action

/-- The body of the `while` loop of `Loop()`. Modelled from the spec:
`WaitForEventsAndExecuteCallbacks()` of the absent `raner/epoll_server.h` blocks until
events or a wake and runs the callbacks; what these do to the loop is the input. -/
def iterate (s : LoopState) (i : Iteration) : LoopState :=
  let s1 := i.during_wait.foldl act s
  let s2 : LoopState := { s1 with iteration_ := int64 (s1.iteration_ + 1) }
  let s3 := s2.doPendingFunctors
  let s4 := i.during_drain.foldl
    (fun st a => match a with
      | Action.queue cb _ => st.QueueInLoop cb false
      | Action.quit _ => st.Quit false) s3
  s4

/-- How a call of `Loop()` stands when its inputs are used up: it has returned, after `n`
iterations, or it is waiting in the multiplexer at the start of the next iteration. -/
inductive LoopResult where
  | returned (s : LoopState) (n : Nat)
  | waiting (s : LoopState) (n : Nat)

/-- The `while (!quit_)` loop of `Loop()`, with `n` iterations made so far. -/
def whileLoop : List Iteration → LoopState → Nat → LoopResult
  | [], s, n => if !s.quit_ then LoopResult.waiting s n else LoopResult.returned s n
  | i :: rest, s, n =>
    if !s.quit_ then whileLoop rest (s.iterate i) (n + 1) else LoopResult.returned s n

/-- What other threads do to a loop while its own thread is busy: their calls of
`QueueInLoop` and `Quit()`, in order, each made off the loop thread. -/
def otherThreads (s : LoopState) (actions : List Action) : LoopState :=
  actions.foldl
    (fun st a => match a with
      | Action.queue cb _ => st.QueueInLoop cb false
      | Action.quit _ => st.Quit false) s

/-- The function `Loop()`; `none` when `assert(!looping_)` fails. `at_entry` is what other
threads do to the loop between the statement `quit_ = false` and the first test of
`while (!quit_)`. -/
def Loop (s : LoopState) (at_entry : List Action) (inputs : List Iteration) :
    Option LoopResult :=
  if !s.looping_ then
    let s1 : LoopState := { s with looping_ := true, quit_ := false }
    match whileLoop inputs (s1.otherThreads at_entry) 0 with
    | LoopResult.returned s2 n => some (LoopResult.returned { s2 with looping_ := false } n)
    | LoopResult.waiting s2 n => some (LoopResult.waiting s2 n)
  else none

end LoopState

end raner

/-! ## Lemmas about the buffer operations -/

namespace raner
namespace ByteBuffer

theorem drop_len_add {α : Type} (l1 l2 : List α) (n k : Nat) (h : k = l1.length) :
    List.drop (k + n) (l1 ++ l2) = List.drop n l2 := by
  subst h
  exact List.drop_append n

theorem take_len {α : Type} (l1 l2 : List α) (k : Nat) (h : k = l1.length) :
    List.take k (l1 ++ l2) = l1 := by
  subst h; simp

theorem layout_WritableBytes (pre mid post : List Byte) :
    (layout pre mid post).WritableBytes = post.length := by
  simp [layout, WritableBytes]; omega

theorem layout_ReadableBytes (pre mid post : List Byte) :
    (layout pre mid post).ReadableBytes = mid.length := by
  simp [layout, ReadableBytes]

theorem layout_DiscardableBytes (pre mid post : List Byte) :
    (layout pre mid post).DiscardableBytes = pre.length := rfl

theorem layout_readable (pre mid post : List Byte) : (layout pre mid post).readable = mid := by
  simp [layout, readable, ReadableBytes]

theorem layout_capacity (pre mid post : List Byte) :
    (layout pre mid post).capacity = pre.length + mid.length + post.length := by
  simp [layout, capacity]; omega

theorem layout_Inv (pre mid post : List Byte) : (layout pre mid post).Inv := by
  simp [layout, Inv]

/-- Every buffer satisfying the invariant is a layout of its three regions. -/
theorem inv_layout (b : ByteBuffer) (h : b.Inv) :
    b = layout (b.buffer_.take b.reader_index_) b.readable (b.buffer_.drop b.writer_index_) := by
  obtain ⟨h1, h2⟩ := h
  have hsplit : b.buffer_ = b.buffer_.take b.reader_index_ ++ b.readable ++
      b.buffer_.drop b.writer_index_ := by
    unfold readable ReadableBytes
    rw [List.append_assoc]
    conv_lhs => rw [← List.take_append_drop b.reader_index_ b.buffer_]
    congr 1
    conv_lhs => rw [← List.take_append_drop (b.writer_index_ - b.reader_index_)
      (List.drop b.reader_index_ b.buffer_)]
    congr 1
    rw [List.drop_drop]
    congr 1
    omega
  have hr : (b.buffer_.take b.reader_index_).length = b.reader_index_ := by
    simp; omega
  have hm : b.readable.length = b.writer_index_ - b.reader_index_ := by
    simp [readable, ReadableBytes]; omega
  cases b with
  | mk v r w =>
    simp only [layout] at *
    congr 1
    · omega
    · omega

theorem copyInto_layout (pre mid post d : List Byte) (h : d.length ≤ post.length) :
    copyInto (pre ++ mid ++ post) (pre.length + mid.length) d
      = some (pre ++ (mid ++ d) ++ post.drop d.length) := by
  unfold copyInto
  rw [if_pos (by simp; omega)]
  congr 1
  rw [take_len (pre ++ mid) post _ (by simp), drop_len_add (pre ++ mid) post _ _ (by simp)]
  simp

/-- The copy and cursor advance that end `Write`, on a layout with enough room. -/
theorem finish_layout (pre mid post d : List Byte) (h : d.length ≤ post.length) :
    (match copyInto (layout pre mid post).buffer_ (layout pre mid post).writer_index_ d with
      | some v => SkipWriteBytes { layout pre mid post with buffer_ := v } d.length
      | none => none) = some (layout pre (mid ++ d) (post.drop d.length)) := by
  simp only [layout, copyInto_layout pre mid post d h, SkipWriteBytes, WritableBytes]
  rw [if_pos (by simp; omega)]
  simp [Nat.add_assoc]

theorem ensure_layout_fits (pre mid post : List Byte) (n : Nat) (h : n ≤ post.length) :
    (layout pre mid post).ensureWritableBytes n = some (layout pre mid post) := by
  unfold ensureWritableBytes
  simp only [layout_WritableBytes, if_neg (Nat.not_lt.mpr h), if_pos h]

theorem ensure_layout_grow (pre mid post : List Byte) (n : Nat) (h1 : post.length < n)
    (h2 : post.length + pre.length < n) :
    (layout pre mid post).ensureWritableBytes n
      = some (layout pre mid (post ++ List.replicate (n - post.length) 0)) := by
  have hr : resize (pre ++ mid ++ post) (pre.length + mid.length + n)
      = pre ++ mid ++ (post ++ List.replicate (n - post.length) 0) := by
    unfold resize
    rw [List.take_of_length_le (by simp; omega)]
    have e : pre.length + mid.length + n - (pre ++ mid ++ post).length
        = n - post.length := by simp; omega
    rw [e, List.append_assoc (pre ++ mid)]
  have he : (layout pre mid post).expandCapacity n
      = some (layout pre mid (post ++ List.replicate (n - post.length) 0)) := by
    unfold expandCapacity
    simp only [layout_WritableBytes, layout_DiscardableBytes, if_pos h2]
    simp only [layout, hr]
  have hl : (post ++ List.replicate (n - post.length) (0 : Byte)).length = n := by
    simp; omega
  unfold ensureWritableBytes
  simp only [layout_WritableBytes, if_pos h1, he, hl, le_refl, if_true]

theorem ensure_layout_compact (pre mid post : List Byte) (n : Nat) (h1 : post.length < n)
    (h2 : n ≤ post.length + pre.length) :
    (layout pre mid post).ensureWritableBytes n
      = some (layout [] mid (List.drop mid.length (pre ++ mid ++ post))) := by
  have hc : copyInto (pre ++ mid ++ post) 0 mid
      = some ([] ++ mid ++ List.drop mid.length (pre ++ mid ++ post)) := by
    unfold copyInto
    rw [if_pos (by simp; omega)]
    simp
  have he : (layout pre mid post).expandCapacity n
      = some (layout [] mid (List.drop mid.length (pre ++ mid ++ post))) := by
    unfold expandCapacity
    simp only [layout_WritableBytes, layout_DiscardableBytes, layout_ReadableBytes,
      if_neg (Nat.not_lt.mpr h2)]
    have hp : 0 < (layout pre mid post).reader_index_ := by
      simp only [layout]; omega
    rw [if_pos hp]
    have hm : List.take mid.length (List.drop (layout pre mid post).reader_index_
        (layout pre mid post).buffer_) = mid := by
      simp [layout]
    rw [hm]
    simp only [layout, hc]
    simp
  have hl : n ≤ (List.drop mid.length (pre ++ mid ++ post)).length := by
    simp; omega
  unfold ensureWritableBytes
  simp only [layout_WritableBytes, if_pos h1, he, if_pos hl]

theorem Write_layout_fits (pre mid post d : List Byte) (h : d.length ≤ post.length) :
    (layout pre mid post).Write d = some (layout pre (mid ++ d) (post.drop d.length)) := by
  unfold Write
  rw [ensure_layout_fits pre mid post _ h]
  exact finish_layout pre mid post d h

theorem Write_layout_grow (pre mid post d : List Byte) (h1 : post.length < d.length)
    (h2 : post.length + pre.length < d.length) :
    (layout pre mid post).Write d = some (layout pre (mid ++ d) []) := by
  unfold Write
  rw [ensure_layout_grow pre mid post _ h1 h2]
  have hl : (post ++ List.replicate (d.length - post.length) (0 : Byte)).length = d.length := by
    simp; omega
  refine (finish_layout pre mid _ d (by omega)).trans ?_
  rw [List.drop_eq_nil_of_le (by omega)]

theorem Write_layout_compact (pre mid post d : List Byte) (h1 : post.length < d.length)
    (h2 : d.length ≤ post.length + pre.length) :
    (layout pre mid post).Write d
      = some (layout [] (mid ++ d) ((List.drop mid.length (pre ++ mid ++ post)).drop d.length)) := by
  unfold Write
  rw [ensure_layout_compact pre mid post _ h1 h2]
  exact finish_layout [] mid _ d (by simp; omega)

/-- Summary of `Write` on a laid-out buffer: it succeeds and yields a layout whose readable
region is the old one followed by the data. -/
theorem Write_layout (pre mid post d : List Byte) :
    ∃ pre' post', (layout pre mid post).Write d = some (layout pre' (mid ++ d) post') ∧
      (d.length ≤ post.length → pre' = pre ∧ post' = post.drop d.length) ∧
      (post.length < d.length → post.length + pre.length < d.length → pre' = pre ∧ post' = []) ∧
      (post.length < d.length → d.length ≤ post.length + pre.length →
        pre' = [] ∧ post'.length = pre.length + post.length - d.length) := by
  by_cases h : d.length ≤ post.length
  · exact ⟨pre, post.drop d.length, Write_layout_fits pre mid post d h, fun _ => ⟨rfl, rfl⟩,
      fun h1 => absurd h (by omega), fun h1 => absurd h (by omega)⟩
  · by_cases h2 : post.length + pre.length < d.length
    · exact ⟨pre, [], Write_layout_grow pre mid post d (by omega) h2, fun h1 => absurd h1 h,
        fun _ _ => ⟨rfl, rfl⟩, fun _ h3 => absurd h2 (by omega)⟩
    · refine ⟨[], _, Write_layout_compact pre mid post d (by omega) (by omega),
        fun h1 => absurd h1 h, fun _ h3 => absurd h3 h2, fun _ _ => ⟨rfl, ?_⟩⟩
      simp; omega

theorem exists_layout (b : ByteBuffer) (h : b.Inv) : ∃ pre mid post, b = layout pre mid post :=
  ⟨_, _, _, inv_layout b h⟩

theorem SkipReadBytes_layout_lt (pre mid post : List Byte) (n : Nat) (h : n < mid.length) :
    (layout pre mid post).SkipReadBytes n
      = some (layout (pre ++ mid.take n) (mid.drop n) post) := by
  unfold SkipReadBytes
  simp only [layout_ReadableBytes, if_pos (Nat.le_of_lt h), if_pos h]
  simp only [layout]
  congr 2
  · conv_lhs => rw [← List.take_append_drop n mid]
    simp [List.append_assoc]
  · simp; omega
  · simp; omega

theorem SkipReadBytes_layout_all (pre mid post : List Byte) :
    (layout pre mid post).SkipReadBytes mid.length
      = some (layout [] [] (pre ++ mid ++ post)) := by
  unfold SkipReadBytes
  simp only [layout_ReadableBytes, le_refl, if_true, lt_irrefl, if_false]
  simp [layout, SkipAll]

/-- Skipping `n ≤ readable` bytes succeeds and leaves a layout holding the rest. -/
theorem SkipReadBytes_layout (pre mid post : List Byte) (n : Nat) (h : n ≤ mid.length) :
    ∃ pre' post', (layout pre mid post).SkipReadBytes n = some (layout pre' (mid.drop n) post') := by
  by_cases h1 : n < mid.length
  · exact ⟨_, _, SkipReadBytes_layout_lt pre mid post n h1⟩
  · have e : n = mid.length := by omega
    subst e
    exact ⟨[], pre ++ mid ++ post, by rw [SkipReadBytes_layout_all]; simp⟩

theorem SkipAsString_layout (pre mid post : List Byte) (n : Nat) (h : n ≤ mid.length) :
    ∃ pre' post', (layout pre mid post).SkipAsString n
      = some (mid.take n, layout pre' (mid.drop n) post') := by
  obtain ⟨pre', post', hs⟩ := SkipReadBytes_layout pre mid post n h
  refine ⟨pre', post', ?_⟩
  unfold SkipAsString
  simp only [layout_ReadableBytes, if_pos h, hs]
  have e : List.take n (List.drop (layout pre mid post).reader_index_ (layout pre mid post).buffer_)
      = mid.take n := by
    simp only [layout]
    rw [List.append_assoc, List.drop_left, List.take_append_of_le_length h]
  rw [e]

theorem Write_inv (b : ByteBuffer) (d : List Byte) (h : b.Inv) :
    ∃ b', b.Write d = some b' ∧ b'.Inv ∧ b'.readable = b.readable ++ d := by
  obtain ⟨pre, mid, post, rfl⟩ := exists_layout b h
  obtain ⟨pre', post', hw, -⟩ := Write_layout pre mid post d
  exact ⟨_, hw, layout_Inv _ _ _, by simp [layout_readable]⟩

theorem SkipAsString_inv (b : ByteBuffer) (n : Nat) (h : b.Inv) (hn : n ≤ b.ReadableBytes) :
    ∃ s b', b.SkipAsString n = some (s, b') ∧ b'.Inv ∧ s = b.readable.take n ∧
      b'.readable = b.readable.drop n := by
  obtain ⟨pre, mid, post, rfl⟩ := exists_layout b h
  rw [layout_ReadableBytes] at hn
  obtain ⟨pre', post', hs⟩ := SkipAsString_layout pre mid post n hn
  exact ⟨_, _, hs, layout_Inv _ _ _, by simp [layout_readable], by simp [layout_readable]⟩

theorem runStream_fifo (ops : List StreamOp) : ∀ (b : ByteBuffer), b.Inv →
    skipsWithin b.ReadableBytes ops = true →
    ∃ out b', runStream b ops = some (out, b') ∧ b'.Inv ∧
      out.flatten ++ b'.readable = b.readable ++ (written ops).flatten := by
  induction ops with
  | nil => intro b h _; exact ⟨[], b, rfl, h, by simp [written]⟩
  | cons op ops ih =>
    intro b h hv
    cases op with
    | write d =>
      obtain ⟨b1, hw, hi, hr⟩ := Write_inv b d h
      have hlen : b1.ReadableBytes = b.ReadableBytes + d.length := by
        obtain ⟨p1, m1, q1, rfl⟩ := exists_layout b1 hi
        obtain ⟨p, m, q, rfl⟩ := exists_layout b h
        simp only [layout_readable] at hr
        simp [layout_ReadableBytes, hr]
      simp only [skipsWithin] at hv
      rw [← hlen] at hv
      obtain ⟨out, b2, hrun, hi2, heq⟩ := ih b1 hi hv
      refine ⟨out, b2, ?_, hi2, ?_⟩
      · simp only [runStream, hw, hrun]
      · rw [heq, hr]; simp [written]
    | skip n =>
      simp only [skipsWithin, Bool.and_eq_true, decide_eq_true_eq] at hv
      obtain ⟨s, b1, hs, hi, hs1, hr⟩ := SkipAsString_inv b n h hv.1
      have hlen : b1.ReadableBytes = b.ReadableBytes - n := by
        obtain ⟨p1, m1, q1, rfl⟩ := exists_layout b1 hi
        obtain ⟨p, m, q, rfl⟩ := exists_layout b h
        simp only [layout_readable] at hr
        simp [layout_ReadableBytes, hr]
      have hv2 := hv.2
      rw [← hlen] at hv2
      obtain ⟨out, b2, hrun, hi2, heq⟩ := ih b1 hi hv2
      refine ⟨s :: out, b2, ?_, hi2, ?_⟩
      · simp only [runStream, hs, hrun]
      · simp only [List.flatten_cons, List.append_assoc, heq, hr, hs1, written]
        rw [← List.append_assoc, List.take_append_drop]


theorem ensure_layout (pre mid post : List Byte) (n : Nat) :
    ∃ pre' post', (layout pre mid post).ensureWritableBytes n = some (layout pre' mid post') ∧
      n ≤ post'.length ∧
      (n ≤ post.length → pre' = pre ∧ post' = post) ∧
      (post.length < n → post.length + pre.length < n →
        pre' = pre ∧ post' = post ++ List.replicate (n - post.length) 0) := by
  by_cases h : n ≤ post.length
  · exact ⟨pre, post, ensure_layout_fits pre mid post n h, h, fun _ => ⟨rfl, rfl⟩,
      fun h1 => absurd h (by omega)⟩
  · by_cases h2 : post.length + pre.length < n
    · exact ⟨pre, _, ensure_layout_grow pre mid post n (by omega) h2, by simp; omega,
        fun h1 => absurd h1 h, fun _ _ => ⟨rfl, rfl⟩⟩
    · exact ⟨[], _, ensure_layout_compact pre mid post n (by omega) (by omega), by simp; omega,
        fun h1 => absurd h1 h, fun _ h3 => absurd h3 h2⟩

theorem SkipReadBytes_inv (b b' : ByteBuffer) (n : Nat) (h : b.Inv)
    (hs : b.SkipReadBytes n = some b') : b'.Inv := by
  unfold SkipReadBytes at hs
  unfold Inv ReadableBytes at *
  split at hs
  · split at hs
    · cases hs; simp only; omega
    · cases hs; simp [SkipAll]
  · cases hs

theorem SkipWriteBytes_inv (b b' : ByteBuffer) (n : Nat) (h : b.Inv)
    (hs : b.SkipWriteBytes n = some b') : b'.Inv := by
  unfold SkipWriteBytes at hs
  unfold Inv WritableBytes at *
  split at hs
  · cases hs; simp only; omega
  · cases hs

theorem create_eq_layout (n : Nat) : create n = layout [] [] (List.replicate n 0) := by
  simp [create, layout]

theorem create_Inv (n : Nat) : (create n).Inv := by
  rw [create_eq_layout]; exact layout_Inv _ _ _

theorem Shrink_inv (b b' : ByteBuffer) (hs : b.Shrink = some b') : b'.Inv := by
  unfold Shrink at hs
  rw [create_eq_layout] at hs
  obtain ⟨pre', post', he, -⟩ := ensure_layout [] [] (List.replicate kInitialSize 0) b.ReadableBytes
  rw [he] at hs
  cases hv : b.ToStringView with
  | none => rw [hv] at hs; cases hs
  | some sv =>
    rw [hv] at hs
    simp only at hs
    obtain ⟨b1, hw, hi, -⟩ := Write_inv (layout pre' [] post') sv (layout_Inv _ _ _)
    rw [hw] at hs
    cases hs
    exact hi

theorem applyOp_inv (b b' : ByteBuffer) (op : BufOp) (h : b.Inv)
    (hs : b.applyOp op = some b') : b'.Inv := by
  cases op with
  | write d =>
    obtain ⟨b1, hw, hi, -⟩ := Write_inv b d h
    simp only [applyOp, hw] at hs
    cases hs; exact hi
  | skipRead n => exact SkipReadBytes_inv b b' n h hs
  | skipWrite n => exact SkipWriteBytes_inv b b' n h hs
  | skipAll =>
    simp only [applyOp] at hs
    cases hs
    simp [SkipAll, Inv]
  | shrink => exact Shrink_inv b b' hs

theorem runOps_inv (ops : List BufOp) : ∀ (b b' : ByteBuffer), b.Inv →
    runOps b ops = some b' → b'.Inv := by
  induction ops with
  | nil => intro b b' h hs; simp only [runOps] at hs; cases hs; exact h
  | cons op ops ih =>
    intro b b' h hs
    simp only [runOps] at hs
    cases ha : b.applyOp op with
    | none => rw [ha] at hs; cases hs
    | some b1 =>
      rw [ha] at hs
      exact ih b1 b' (applyOp_inv b b1 op h ha) hs

/-! ## Claims C1 to C5: the byte buffer -/

/-- C1: the buffer is a FIFO byte stream. On a buffer satisfying the index invariant,
`Write(d)` succeeds and makes the readable content the old content followed by `d`;
`SkipAsString(n)` with `n ≤ ReadableBytes()` returns the first `n` readable bytes and leaves
the remaining suffix; hence for every sequence of writes and skips (each skip within the
bytes readable at that point) the skipped strings followed by the remaining readable bytes
are the old readable bytes followed by all written strings, in order; from a freshly
constructed buffer they are exactly the written strings. -/
theorem fifo_stream (b : ByteBuffer) (hb : b.Inv) :
    (∀ d : List Byte, ∃ b', b.Write d = some b' ∧ b'.Inv ∧ b'.readable = b.readable ++ d) ∧
    (∀ n : Nat, n ≤ b.ReadableBytes → ∃ s b', b.SkipAsString n = some (s, b') ∧ b'.Inv ∧
      s = b.readable.take n ∧ b'.readable = b.readable.drop n) ∧
    (∀ ops : List StreamOp, skipsWithin b.ReadableBytes ops = true →
      ∃ out b', runStream b ops = some (out, b') ∧
        out.flatten ++ b'.readable = b.readable ++ (written ops).flatten) ∧
    (∀ (initial_size : Nat) (ops : List StreamOp), skipsWithin 0 ops = true →
      ∃ out b', runStream (create initial_size) ops = some (out, b') ∧
        out.flatten ++ b'.readable = (written ops).flatten) := by
  refine ⟨fun d => Write_inv b d hb, fun n hn => SkipAsString_inv b n hb hn, ?_, ?_⟩
  · intro ops hv
    obtain ⟨out, b', hr, -, he⟩ := runStream_fifo ops b hb hv
    exact ⟨out, b', hr, he⟩
  · intro initial_size ops hv
    have h0 : (create initial_size).ReadableBytes = 0 := by simp [create, ReadableBytes]
    obtain ⟨out, b', hr, -, he⟩ := runStream_fifo ops (create initial_size)
      (create_Inv initial_size) (by rw [h0]; exact hv)
    refine ⟨out, b', hr, ?_⟩
    rw [he]
    simp [create, readable, ReadableBytes]

/-- Witness of C1: the round trip write, skip, write, skip on a buffer of capacity 4. -/
theorem fifo_stream_witness :
    (create 4).Inv ∧
    ∃ out b', runStream (create 4)
        [StreamOp.write [1, 2, 3], StreamOp.skip 2, StreamOp.write [4, 5, 6], StreamOp.skip 1]
          = some (out, b') ∧
      out.flatten ++ b'.readable = (create 4).readable ++ [1, 2, 3, 4, 5, 6] :=
  ⟨by decide, (fifo_stream (create 4) (by decide)).2.2.1 _ (by decide)⟩

/-- C2: index invariant. Starting from a freshly constructed buffer, after every sequence of
`Write`, `SkipReadBytes(n)` with `n ≤ readable`, `SkipWriteBytes(n)` with `n ≤ writable`,
`SkipAll` and `Shrink` that runs to its end, `reader_index ≤ writer_index ≤ capacity`, and
therefore `DiscardableBytes() + ReadableBytes() + WritableBytes() == capacity`. -/
theorem index_invariant (initial_size : Nat) (ops : List BufOp) (b : ByteBuffer)
    (h : runOps (create initial_size) ops = some b) :
    0 ≤ b.reader_index_ ∧ b.reader_index_ ≤ b.writer_index_ ∧ b.writer_index_ ≤ b.capacity ∧
    b.DiscardableBytes + b.ReadableBytes + b.WritableBytes = b.capacity := by
  have hi := runOps_inv ops (create initial_size) b (create_Inv initial_size) h
  unfold Inv at hi
  unfold DiscardableBytes ReadableBytes WritableBytes capacity
  omega

set_option maxRecDepth 100000 in
/-- Witness of C2: a run through all five operations on a buffer of capacity 4. -/
theorem index_invariant_witness :
    runOps (create 4) [BufOp.write [1, 2, 3], BufOp.skipRead 1, BufOp.write [4, 5],
        BufOp.skipWrite 0, BufOp.shrink, BufOp.skipRead 4, BufOp.skipAll]
      = some { buffer_ := [2, 3, 4, 5] ++ List.replicate 1020 0, reader_index_ := 0,
               writer_index_ := 0 } ∧
    (0 ≤ 0 ∧ 0 ≤ 0 ∧ 0 ≤ 1024 ∧ 0 + 0 + 1024 = 1024) :=
  ⟨by rfl, index_invariant 4 [BufOp.write [1, 2, 3], BufOp.skipRead 1, BufOp.write [4, 5],
        BufOp.skipWrite 0, BufOp.shrink, BufOp.skipRead 4, BufOp.skipAll]
      { buffer_ := [2, 3, 4, 5] ++ List.replicate 1020 0, reader_index_ := 0,
        writer_index_ := 0 } (by rfl)⟩

/-- C3: exact growth policy of `Write` of `n = d.length` bytes on a buffer with capacity `c`,
reader index `r`, writer index `w` (index invariant assumed). The write succeeds and
(1) if `c - w ≥ n`, capacity and reader index are unchanged; (2) else if `(c - w) + r < n`,
the capacity becomes exactly `w + n`, `WritableBytes()` is 0 afterwards and the reader index
is unchanged; (3) otherwise the capacity is unchanged, the readable region sits at offset 0,
the reader index is 0 and the writer index is `(w - r) + n`. Reallocation and compaction
never both happen: the capacity or the reader index is unchanged. -/
theorem Write_growth_policy (b : ByteBuffer) (d : List Byte) (hb : b.Inv) :
    ∃ b', b.Write d = some b' ∧
      (d.length ≤ b.capacity - b.writer_index_ →
        b'.capacity = b.capacity ∧ b'.reader_index_ = b.reader_index_ ∧
        b'.writer_index_ = b.writer_index_ + d.length) ∧
      (b.capacity - b.writer_index_ < d.length →
        (b.capacity - b.writer_index_) + b.reader_index_ < d.length →
        b'.capacity = b.writer_index_ + d.length ∧ b'.WritableBytes = 0 ∧
        b'.reader_index_ = b.reader_index_ ∧ b'.writer_index_ = b.writer_index_ + d.length) ∧
      (b.capacity - b.writer_index_ < d.length →
        d.length ≤ (b.capacity - b.writer_index_) + b.reader_index_ →
        b'.capacity = b.capacity ∧ b'.reader_index_ = 0 ∧
        b'.writer_index_ = (b.writer_index_ - b.reader_index_) + d.length ∧
        b'.buffer_.take (b.writer_index_ - b.reader_index_) = b.readable) ∧
      (b'.capacity = b.capacity ∨ b'.reader_index_ = b.reader_index_) := by
  obtain ⟨pre, mid, post, rfl⟩ := exists_layout b hb
  obtain ⟨pre', post', hw, h1, h2, h3⟩ := Write_layout pre mid post d
  have hc : (layout pre mid post).capacity - (layout pre mid post).writer_index_ = post.length := by
    simp [layout, capacity]; omega
  refine ⟨_, hw, ?_, ?_, ?_, ?_⟩
  · intro h
    rw [hc] at h
    obtain ⟨rfl, rfl⟩ := h1 h
    simp [layout, capacity]; omega
  · intro ha hb'
    rw [hc] at ha hb'
    have hb2 : post.length + pre.length < d.length := hb'
    obtain ⟨rfl, rfl⟩ := h2 ha hb2
    simp [layout, capacity, WritableBytes]; omega
  · intro ha hb'
    rw [hc] at ha hb'
    have hb2 : d.length ≤ post.length + pre.length := hb'
    obtain ⟨rfl, hp⟩ := h3 ha hb2
    rw [layout_readable]
    simp [layout, capacity, hp]
    omega
  · by_cases ha : d.length ≤ post.length
    · obtain ⟨rfl, rfl⟩ := h1 ha
      right; rfl
    · by_cases hb' : post.length + pre.length < d.length
      · obtain ⟨rfl, rfl⟩ := h2 (by omega) hb'
        right; rfl
      · obtain ⟨rfl, hp⟩ := h3 (by omega) (by omega)
        left
        simp [layout, capacity, hp]; omega

/-- Witness of C3: the compaction case on a buffer of capacity 4 holding one readable byte
behind two discardable ones. -/
theorem Write_growth_policy_witness :
    ByteBuffer.Inv { buffer_ := [1, 2, 3, 0], reader_index_ := 2, writer_index_ := 3 } ∧
    ByteBuffer.Write { buffer_ := [1, 2, 3, 0], reader_index_ := 2, writer_index_ := 3 } [4, 5]
      = some { buffer_ := [3, 4, 5, 0], reader_index_ := 0, writer_index_ := 3 } ∧
    ∃ b', ByteBuffer.Write { buffer_ := [1, 2, 3, 0], reader_index_ := 2, writer_index_ := 3 }
        [4, 5, 6, 7] = some b' ∧ b'.capacity = 7 :=
  ⟨by decide, by decide,
    (Write_growth_policy { buffer_ := [1, 2, 3, 0], reader_index_ := 2, writer_index_ := 3 }
      [4, 5, 6, 7] (by decide)).imp
      (fun _ h => ⟨h.1, (h.2.2.1 (by decide) (by decide)).1⟩)⟩

/-- C4: `SkipReadBytes(n)` with `n ≤ ReadableBytes()` succeeds; if `n < ReadableBytes()` the
reader index advances by exactly `n` and the writer index is unchanged; if
`n == ReadableBytes()` both indices become 0, so `WritableBytes()` is the whole capacity.
The storage, hence the capacity, never changes. -/
theorem SkipReadBytes_indices (b : ByteBuffer) (n : Nat) (h : n ≤ b.ReadableBytes) :
    ∃ b', b.SkipReadBytes n = some b' ∧ b'.buffer_ = b.buffer_ ∧ b'.capacity = b.capacity ∧
      (n < b.ReadableBytes →
        b'.reader_index_ = b.reader_index_ + n ∧ b'.writer_index_ = b.writer_index_) ∧
      (n = b.ReadableBytes →
        b' = b.SkipAll ∧ b'.reader_index_ = 0 ∧ b'.writer_index_ = 0 ∧
        b'.WritableBytes = b.capacity) := by
  unfold SkipReadBytes
  rw [if_pos h]
  by_cases h1 : n < b.ReadableBytes
  · rw [if_pos h1]
    exact ⟨_, rfl, rfl, rfl, fun _ => ⟨rfl, rfl⟩, fun h2 => absurd h2 (by omega)⟩
  · rw [if_neg h1]
    exact ⟨_, rfl, rfl, rfl, fun h2 => absurd h2 h1, fun _ => ⟨rfl, rfl, rfl, rfl⟩⟩

/-- Witness of C4: skipping all three readable bytes of a small buffer. -/
theorem SkipReadBytes_indices_witness :
    3 ≤ ByteBuffer.ReadableBytes { buffer_ := [1, 2, 3, 0], reader_index_ := 0, writer_index_ := 3 } ∧
    ∃ b', ByteBuffer.SkipReadBytes { buffer_ := [1, 2, 3, 0], reader_index_ := 0, writer_index_ := 3 } 3
        = some b' ∧ b'.WritableBytes = 4 :=
  ⟨by decide,
    (SkipReadBytes_indices { buffer_ := [1, 2, 3, 0], reader_index_ := 0, writer_index_ := 3 } 3
      (by decide)).imp (fun _ h => ⟨h.1, (h.2.2.2.2 (by decide)).2.2.2⟩)⟩

/-- The view length `static_cast<int>(ReadableBytes())` converted back to `size_t`. -/
theorem viewLength_small (k : Nat) (h : k < 2 ^ 31) : intToSize (sizeToInt k) = k := by
  unfold intToSize sizeToInt
  have h1 : k % 2 ^ 32 = k := Nat.mod_eq_of_lt (by omega)
  rw [h1, if_pos h]
  have h2 : ((k : Int) % 2 ^ 64) = (k : Int) := by omega
  rw [h2]; simp

theorem viewLength_wrapped : intToSize (sizeToInt 4294967301) = 5 := by decide

/-- `Shrink` on a laid-out buffer whose view length `n` does not exceed the readable count:
the result holds only the first `n` readable bytes. -/
theorem Shrink_layout (pre mid post : List Byte) (n : Nat)
    (hn : intToSize (sizeToInt mid.length) = n) (hle : n ≤ mid.length) :
    ∃ post', (layout pre mid post).Shrink = some (layout [] (mid.take n) post') ∧
      post'.length = max kInitialSize mid.length - n := by
  obtain ⟨pre', post0, he, hroom, hfit, hgrow⟩ :=
    ensure_layout [] [] (List.replicate kInitialSize 0) mid.length
  have hpre : pre' = [] := by
    by_cases h : mid.length ≤ (List.replicate kInitialSize (0 : Byte)).length
    · exact (hfit h).1
    · exact (hgrow (by omega) (by simp at h ⊢; omega)).1
  have hlen0 : post0.length = max kInitialSize mid.length := by
    by_cases h : mid.length ≤ (List.replicate kInitialSize (0 : Byte)).length
    · rw [(hfit h).2]; simp at h ⊢; omega
    · rw [(hgrow (by omega) (by simp at h ⊢; omega)).2]; simp at h ⊢; omega
  subst hpre
  have hv : (layout pre mid post).ToStringView = some (mid.take n) := by
    unfold ToStringView
    simp only [layout_ReadableBytes, hn]
    rw [if_pos (by simp [layout]; omega)]
    simp only [layout]
    rw [List.append_assoc, List.drop_left, List.take_append_of_le_length hle]
  have hw := Write_layout_fits [] [] post0 (mid.take n) (by simp; omega)
  refine ⟨post0.drop (mid.take n).length, ?_, by simp; omega⟩
  unfold Shrink
  rw [create_eq_layout, layout_ReadableBytes, he, hv]
  simpa using hw

/-- For a buffer with fewer than `2^31` readable bytes `Shrink` keeps the readable bytes,
leaves nothing discardable and sizes the storage to `max(kInitialSize, readable)`. -/
theorem Shrink_small (b : ByteBuffer) (hb : b.Inv) (hk : b.ReadableBytes < 2 ^ 31) :
    ∃ b', b.Shrink = some b' ∧ b'.readable = b.readable ∧ b'.DiscardableBytes = 0 ∧
      b'.capacity = max kInitialSize b.ReadableBytes ∧
      b'.WritableBytes = max kInitialSize b.ReadableBytes - b.ReadableBytes := by
  obtain ⟨pre, mid, post, rfl⟩ : ∃ pre mid post, b = layout pre mid post :=
    ⟨_, _, _, inv_layout b hb⟩
  rw [layout_ReadableBytes] at hk ⊢
  obtain ⟨post', hs, hl⟩ := Shrink_layout pre mid post mid.length (viewLength_small _ hk)
    (le_refl _)
  rw [List.take_length] at hs
  refine ⟨_, hs, by simp [layout_readable], rfl, ?_, ?_⟩
  · rw [layout_capacity, hl]; simp
  · rw [layout_WritableBytes, hl]

/-- C5 (failing input): on a buffer holding `2^32 + 5` readable bytes `Shrink` keeps only
the first 5 of them and leaves `2^32` writable bytes, because `ToStringView` narrows the
readable count to `int`. -/
theorem Shrink_truncates_large :
    ∃ b', (layout [] (List.replicate 4294967301 7) []).Shrink = some b' ∧
      b'.ReadableBytes = 5 ∧ b'.WritableBytes = 4294967296 ∧
      b'.readable ≠ (layout [] (List.replicate 4294967301 7) []).readable := by
  have hlen : (List.replicate 4294967301 (7 : Byte)).length = 4294967301 :=
    List.length_replicate _ _
  generalize List.replicate 4294967301 (7 : Byte) = mid at hlen
  obtain ⟨post', hs, hl⟩ := Shrink_layout [] mid [] 5 (by rw [hlen]; exact viewLength_wrapped)
    (by omega)
  refine ⟨_, hs, ?_, ?_, ?_⟩
  · rw [layout_ReadableBytes]; simp; omega
  · rw [layout_WritableBytes, hl, hlen]; simp [kInitialSize]
  · rw [layout_readable, layout_readable]
    intro h
    have := congrArg List.length h
    simp at this
    omega

/-! ## Claim C7: bulk read from a file descriptor -/

theorem ReadFD_layout (pre mid post bytes : List Byte) (save_errno : Int)
    (hcap : bytes.length ≤ (layout pre mid post).iovCapacity) :
    ∃ pre' post', (layout pre mid post).ReadFD (ReadvResult.data bytes) save_errno
        = some { buf := layout pre' (mid ++ bytes) post', ret := bytes.length,
                 save_errno := save_errno } ∧
      (bytes.length ≤ post.length → pre' = pre ∧ post' = post.drop bytes.length) := by
  have hci := copyInto_layout pre mid post (bytes.take post.length) (by simp)
  by_cases h : bytes.length ≤ post.length
  · refine ⟨pre, post.drop bytes.length, ?_, fun _ => ⟨rfl, rfl⟩⟩
    unfold ReadFD
    simp only [if_pos hcap, layout_WritableBytes, if_pos h]
    have e : List.take post.length bytes = bytes := List.take_of_length_le h
    rw [e] at hci ⊢
    simp only [layout, hci]
    simp [Nat.add_assoc]
  · have hlt : post.length < bytes.length := by omega
    have htl : (List.take post.length bytes).length = post.length := by simp; omega
    obtain ⟨pre', post', hw, -⟩ := Write_layout pre (mid ++ bytes.take post.length) []
      (bytes.drop post.length)
    refine ⟨pre', post', ?_, fun h1 => absurd h1 h⟩
    unfold ReadFD
    simp only [if_pos hcap, layout_WritableBytes, if_neg h]
    have e1 : List.take (bytes.length - post.length) (List.drop post.length bytes)
        = List.drop post.length bytes := List.take_of_length_le (by simp)
    have e2 : (⟨pre ++ (mid ++ List.take post.length bytes) ++
        List.drop (List.take post.length bytes).length post, pre.length,
        (pre ++ (mid ++ List.take post.length bytes) ++
          List.drop (List.take post.length bytes).length post).length⟩ : ByteBuffer)
        = layout pre (mid ++ bytes.take post.length) [] := by
      rw [htl, List.drop_length]
      simp [layout, htl]
    simp only [layout, hci] at hw ⊢
    simp only [layout] at e2
    rw [e1, e2, hw]
    simp

/-- C7: `ReadFD` with the scatter read modelled by its outcome. When `readv` transfers
`n ≥ 0` bytes (within the room of its iovecs) the call returns `n`, leaves `*save_errno`
alone and the readable content becomes the old content followed by exactly those bytes;
when `n ≤ WritableBytes()` only the writer index changes, advancing by `n`. When `readv`
fails the buffer is unchanged, `-1` is returned and `*save_errno` holds the `errno`. -/
theorem ReadFD_appends (b : ByteBuffer) (save_errno : Int) (hb : b.Inv) :
    (∀ bytes : List Byte, bytes.length ≤ b.iovCapacity →
      ∃ r, b.ReadFD (ReadvResult.data bytes) save_errno = some r ∧
        r.ret = bytes.length ∧ 0 ≤ r.ret ∧ r.save_errno = save_errno ∧ r.buf.Inv ∧
        r.buf.readable = b.readable ++ bytes ∧
        (bytes.length ≤ b.WritableBytes →
          r.buf.writer_index_ = b.writer_index_ + bytes.length ∧
          r.buf.reader_index_ = b.reader_index_ ∧ r.buf.capacity = b.capacity ∧
          r.buf.buffer_.take b.writer_index_ = b.buffer_.take b.writer_index_)) ∧
    (∀ e : Int, b.ReadFD (ReadvResult.error e) save_errno
        = some { buf := b, ret := -1, save_errno := e }) := by
  refine ⟨?_, fun e => rfl⟩
  intro bytes hcap
  obtain ⟨pre, mid, post, rfl⟩ := exists_layout b hb
  obtain ⟨pre', post', hr, hfit⟩ := ReadFD_layout pre mid post bytes save_errno hcap
  refine ⟨_, hr, ?_, ?_, ?_, ?_, ?_, ?_⟩
  · rfl
  · simp
  · rfl
  · exact layout_Inv _ _ _
  · simp [layout_readable]
  intro hle
  rw [layout_WritableBytes] at hle
  obtain ⟨h1, h2⟩ := hfit hle
  subst h1 h2
  refine ⟨?_, ?_, ?_, ?_⟩
  · simp [layout]; omega
  · rfl
  · simp [layout, capacity]; omega
  · simp only [layout]
    rw [take_len (pre' ++ mid) post _ (by simp)]
    have e : pre' ++ (mid ++ bytes) ++ List.drop bytes.length post
        = (pre' ++ mid) ++ (bytes ++ List.drop bytes.length post) := by simp
    rw [e, take_len (pre' ++ mid) _ _ (by simp)]

/-- Witness of C7: both parts of a scatter read of 6 bytes into a buffer with 2 writable
bytes. -/
theorem ReadFD_appends_witness :
    ByteBuffer.Inv { buffer_ := [9, 1, 0, 0], reader_index_ := 1, writer_index_ := 2 } ∧
    ∃ r, ByteBuffer.ReadFD { buffer_ := [9, 1, 0, 0], reader_index_ := 1, writer_index_ := 2 }
        (ReadvResult.data [2, 3, 4, 5, 6, 7]) 0 = some r ∧
      r.buf.readable = [1, 2, 3, 4, 5, 6, 7] :=
  ⟨by decide,
    ((ReadFD_appends { buffer_ := [9, 1, 0, 0], reader_index_ := 1, writer_index_ := 2 } 0
      (by decide)).1 [2, 3, 4, 5, 6, 7] (by decide)).imp
      (fun _ h => ⟨h.1, h.2.2.2.2.2.1⟩)⟩

end ByteBuffer
end raner

/-! ## Claim C6: fixed-width integers -/

namespace raner
open ByteBuffer

theorem toLE_length (k x : Nat) : (toLE k x).length = k := by
  induction k generalizing x with
  | zero => rfl
  | succ k ih => simp [toLE, ih]

theorem toLE_fromLE (bs : List Byte) : toLE bs.length (fromLE bs) = bs := by
  induction bs with
  | nil => rfl
  | cons b bs ih =>
    have hb := b.isLt
    have h1 : (b.val + 256 * fromLE bs) % 256 = b.val := by omega
    have h2 : (b.val + 256 * fromLE bs) / 256 = fromLE bs := by omega
    simp only [List.length_cons, toLE, fromLE, h1, h2, ih]

theorem fromLE_toLE (k x : Nat) : fromLE (toLE k x) = x % 256 ^ k := by
  induction k generalizing x with
  | zero => simp [toLE, fromLE, Nat.mod_one]
  | succ k ih =>
    simp only [toLE, fromLE, ih]
    rw [Nat.pow_succ, Nat.mul_comm (256 ^ k) 256, Nat.mod_mul]

theorem fromLE_lt (bs : List Byte) : fromLE bs < 256 ^ bs.length := by
  induction bs with
  | nil => simp [fromLE]
  | cons b bs ih =>
    have hb := b.isLt
    simp only [fromLE, List.length_cons, Nat.pow_succ]
    omega

theorem toBE_length (k x : Nat) : (toBE k x).length = k := by
  simp [toBE, toLE_length]

theorem fromBE_toBE (k x : Nat) : fromBE (toBE k x) = x % 256 ^ k := by
  simp [fromBE, toBE, fromLE_toLE]

theorem fromBE_lt (bs : List Byte) : fromBE bs < 256 ^ bs.length := by
  have := fromLE_lt bs.reverse
  simpa [fromBE] using this

/-- Storing a value converted to network order yields its big-endian bytes, whatever the
byte order of the host. -/
theorem objectBytes_swap (le : Bool) (k x : Nat) :
    objectBytes le k (if le then gbswap k x else x) = toBE k x := by
  cases le with
  | false => simp [objectBytes]
  | true =>
    simp only [objectBytes, if_true, gbswap, toBE]
    have h := toLE_fromLE (toLE k x).reverse
    rwa [List.length_reverse, toLE_length] at h

/-- Loading a value and converting it to host order yields the big-endian reading of the
bytes, whatever the byte order of the host. -/
theorem swap_objectValue (le : Bool) (k : Nat) (bs : List Byte) (h : bs.length = k) :
    (if le then gbswap k (objectValue le bs) else objectValue le bs) = fromBE bs := by
  cases le with
  | false => simp [objectValue]
  | true =>
    simp only [objectValue, if_true, gbswap, fromBE]
    rw [← h, toLE_fromLE]

theorem objectValue_lt (le : Bool) (bs : List Byte) : objectValue le bs < 256 ^ bs.length := by
  cases le with
  | false => simpa [objectValue] using fromBE_lt bs
  | true => simpa [objectValue] using fromLE_lt bs
open ByteBuffer

theorem toUnsigned_toSigned (bits u : Nat) (hb : bits = 8 ∨ bits = 16 ∨ bits = 32 ∨ bits = 64)
    (h : u < 2 ^ bits) : toUnsigned bits (toSigned bits u) = u := by
  rcases hb with rfl | rfl | rfl | rfl <;>
    (unfold toUnsigned toSigned; norm_num at h ⊢; split <;> omega)

theorem toSigned_toUnsigned (bits : Nat) (x : Int)
    (hb : bits = 8 ∨ bits = 16 ∨ bits = 32 ∨ bits = 64)
    (h1 : -2 ^ (bits - 1) ≤ x) (h2 : x < 2 ^ (bits - 1)) :
    toSigned bits (toUnsigned bits x) = x := by
  rcases hb with rfl | rfl | rfl | rfl <;>
    (unfold toUnsigned toSigned; norm_num at h1 h2 ⊢; split <;> omega)

theorem toUnsigned_lt (bits : Nat) (x : Int) : toUnsigned bits x < 2 ^ bits := by
  unfold toUnsigned
  have hp : (0 : Int) < 2 ^ bits := by positivity
  have h1 := Int.emod_lt_of_pos x hp
  have h2 := Int.emod_nonneg x (ne_of_gt hp)
  have h3 : ((x % 2 ^ bits).toNat : Int) < ((2 ^ bits : Nat) : Int) := by
    rw [Int.toNat_of_nonneg h2]; push_cast; exact h1
  exact_mod_cast h3

namespace ByteBuffer

theorem peekBytes_eq (b : ByteBuffer) (k : Nat) (hb : b.Inv) (hk : k ≤ b.ReadableBytes) :
    b.peekBytes k = b.readable.take k ∧ (b.readable.take k).length = k := by
  obtain ⟨pre, mid, post, rfl⟩ := exists_layout b hb
  rw [layout_ReadableBytes] at hk
  rw [layout_readable]
  refine ⟨?_, by simp; omega⟩
  simp only [peekBytes, layout]
  rw [List.append_assoc, List.drop_left, List.take_append_of_le_length hk]

theorem SkipReadBytes_readable (b : ByteBuffer) (k : Nat) (hb : b.Inv)
    (hk : k ≤ b.ReadableBytes) :
    ∃ b', b.SkipReadBytes k = some b' ∧ b'.Inv ∧ b'.readable = b.readable.drop k := by
  obtain ⟨pre, mid, post, rfl⟩ := exists_layout b hb
  rw [layout_ReadableBytes] at hk
  obtain ⟨pre', post', hs⟩ := SkipReadBytes_layout pre mid post k hk
  exact ⟨_, hs, layout_Inv _ _ _, by simp [layout_readable]⟩

theorem PeekInt8_eq (le : Bool) (b : ByteBuffer) (hb : b.Inv) (hk : 1 ≤ b.ReadableBytes) :
    b.PeekInt8 le = some (toSigned 8 (fromBE (b.readable.take 1))) := by
  obtain ⟨hp, hl⟩ := peekBytes_eq b 1 hb hk
  unfold PeekInt8
  rw [if_pos hk, hp]
  have h := swap_objectValue le 1 _ hl
  have hs : gbswap 1 (objectValue le (b.readable.take 1)) = objectValue le (b.readable.take 1) := by
    have hlt := objectValue_lt le (b.readable.take 1)
    rw [hl] at hlt
    simp only [gbswap, toLE, List.reverse_cons, List.reverse_nil, List.nil_append, fromLE]
    omega
  rw [hs] at h
  simp only [ite_self] at h
  rw [h]

theorem PeekInt16_eq (le : Bool) (b : ByteBuffer) (hb : b.Inv) (hk : 2 ≤ b.ReadableBytes) :
    b.PeekInt16 le = some (toSigned 16 (fromBE (b.readable.take 2))) := by
  obtain ⟨hp, hl⟩ := peekBytes_eq b 2 hb hk
  unfold PeekInt16
  rw [if_pos hk, hp]
  have hlt := objectValue_lt le (b.readable.take 2)
  rw [hl] at hlt
  simp only []
  rw [toUnsigned_toSigned 16 _ (by simp) (by norm_num at hlt ⊢; exact hlt)]
  have h := swap_objectValue le 2 _ hl
  unfold gntohs
  rw [h]

theorem PeekInt32_eq (le : Bool) (b : ByteBuffer) (hb : b.Inv) (hk : 4 ≤ b.ReadableBytes) :
    b.PeekInt32 le = some (toSigned 32 (fromBE (b.readable.take 4))) := by
  obtain ⟨hp, hl⟩ := peekBytes_eq b 4 hb hk
  unfold PeekInt32
  rw [if_pos hk, hp]
  have hlt := objectValue_lt le (b.readable.take 4)
  rw [hl] at hlt
  simp only []
  rw [toUnsigned_toSigned 32 _ (by simp) (by norm_num at hlt ⊢; exact hlt)]
  have h := swap_objectValue le 4 _ hl
  unfold gntohl
  rw [h]

theorem PeekInt64_eq (le : Bool) (b : ByteBuffer) (hb : b.Inv) (hk : 8 ≤ b.ReadableBytes) :
    b.PeekInt64 le = some (toSigned 64 (fromBE (b.readable.take 8))) := by
  obtain ⟨hp, hl⟩ := peekBytes_eq b 8 hb hk
  unfold PeekInt64
  rw [if_pos hk, hp]
  have hlt := objectValue_lt le (b.readable.take 8)
  rw [hl] at hlt
  simp only []
  rw [toUnsigned_toSigned 64 _ (by simp) (by norm_num at hlt ⊢; exact hlt)]
  have h := swap_objectValue le 8 _ hl
  unfold gntohll
  rw [h]


theorem readable_length (b : ByteBuffer) (hb : b.Inv) : b.readable.length = b.ReadableBytes := by
  obtain ⟨pre, mid, post, rfl⟩ := exists_layout b hb
  rw [layout_readable, layout_ReadableBytes]

theorem objectBytes_one (le : Bool) (u : Nat) : objectBytes le 1 u = toBE 1 u := by
  cases le <;> simp [objectBytes, toBE, toLE]

theorem WriteInt8_eq (le : Bool) (b : ByteBuffer) (x : Int) :
    b.WriteInt8 le x = b.Write (toBE 1 (toUnsigned 8 x)) := by
  unfold WriteInt8; rw [objectBytes_one]

theorem WriteInt16_eq (le : Bool) (b : ByteBuffer) (x : Int) :
    b.WriteInt16 le x = b.Write (toBE 2 (toUnsigned 16 x)) := by
  unfold WriteInt16 ghtons; simp only []; rw [objectBytes_swap]

theorem WriteInt32_eq (le : Bool) (b : ByteBuffer) (x : Int) :
    b.WriteInt32 le x = b.Write (toBE 4 (toUnsigned 32 x)) := by
  unfold WriteInt32 ghtonl; simp only []; rw [objectBytes_swap]

theorem WriteInt64_eq (le : Bool) (b : ByteBuffer) (x : Int) :
    b.WriteInt64 le x = b.Write (toBE 8 (toUnsigned 64 x)) := by
  unfold WriteInt64 ghtonll; simp only []; rw [objectBytes_swap]

/-- Writing `k` big-endian bytes into a buffer with nothing readable. -/
theorem Write_toBE_empty (b : ByteBuffer) (hb : b.Inv) (h0 : b.ReadableBytes = 0) (k u : Nat) :
    ∃ b1, b.Write (toBE k u) = some b1 ∧ b1.Inv ∧ b1.ReadableBytes = k ∧
      b1.readable.take k = toBE k u ∧ b1.readable.drop k = [] := by
  obtain ⟨b1, hw, hi, hr⟩ := Write_inv b (toBE k u) hb
  have he : b.readable = [] := List.eq_nil_of_length_eq_zero (by rw [readable_length b hb, h0])
  rw [he, List.nil_append] at hr
  refine ⟨b1, hw, hi, ?_, ?_, ?_⟩
  · rw [← readable_length b1 hi, hr, toBE_length]
  · rw [hr]; exact List.take_of_length_le (by rw [toBE_length])
  · rw [hr]; exact List.drop_eq_nil_of_le (by rw [toBE_length])

theorem ReadableBytes_of_readable_nil (b : ByteBuffer) (hb : b.Inv) (h : b.readable = []) :
    b.ReadableBytes = 0 := by
  rw [← readable_length b hb, h]; rfl


theorem ReadInt8_eq (le : Bool) (b : ByteBuffer) (hb : b.Inv) (hk : 1 ≤ b.ReadableBytes) :
    ∃ b', b.ReadInt8 le = some (toSigned 8 (fromBE (b.readable.take 1)), b') ∧ b'.Inv ∧
      b'.readable = b.readable.drop 1 := by
  obtain ⟨b', hs, hi, hr⟩ := SkipReadBytes_readable b 1 hb hk
  exact ⟨b', by simp only [ReadInt8, PeekInt8_eq le b hb hk, hs], hi, hr⟩

theorem ReadInt16_eq (le : Bool) (b : ByteBuffer) (hb : b.Inv) (hk : 2 ≤ b.ReadableBytes) :
    ∃ b', b.ReadInt16 le = some (toSigned 16 (fromBE (b.readable.take 2)), b') ∧ b'.Inv ∧
      b'.readable = b.readable.drop 2 := by
  obtain ⟨b', hs, hi, hr⟩ := SkipReadBytes_readable b 2 hb hk
  exact ⟨b', by simp only [ReadInt16, PeekInt16_eq le b hb hk, hs], hi, hr⟩

theorem ReadInt32_eq (le : Bool) (b : ByteBuffer) (hb : b.Inv) (hk : 4 ≤ b.ReadableBytes) :
    ∃ b', b.ReadInt32 le = some (toSigned 32 (fromBE (b.readable.take 4)), b') ∧ b'.Inv ∧
      b'.readable = b.readable.drop 4 := by
  obtain ⟨b', hs, hi, hr⟩ := SkipReadBytes_readable b 4 hb hk
  exact ⟨b', by simp only [ReadInt32, PeekInt32_eq le b hb hk, hs], hi, hr⟩

theorem ReadInt64_eq (le : Bool) (b : ByteBuffer) (hb : b.Inv) (hk : 8 ≤ b.ReadableBytes) :
    ∃ b', b.ReadInt64 le = some (toSigned 64 (fromBE (b.readable.take 8)), b') ∧ b'.Inv ∧
      b'.readable = b.readable.drop 8 := by
  obtain ⟨b', hs, hi, hr⟩ := SkipReadBytes_readable b 8 hb hk
  exact ⟨b', by simp only [ReadInt64, PeekInt64_eq le b hb hk, hs], hi, hr⟩

/-- Decoding the `k = bits / 8` big-endian bytes of `toUnsigned bits x` gives back `x`. -/
theorem decode_encode (bits k : Nat) (x : Int)
    (hb : bits = 8 ∨ bits = 16 ∨ bits = 32 ∨ bits = 64) (hk : 256 ^ k = 2 ^ bits)
    (h1 : -2 ^ (bits - 1) ≤ x) (h2 : x < 2 ^ (bits - 1)) :
    toSigned bits (fromBE (toBE k (toUnsigned bits x))) = x := by
  rw [fromBE_toBE, hk, Nat.mod_eq_of_lt (toUnsigned_lt bits x)]
  exact toSigned_toUnsigned bits x hb h1 h2

theorem roundtrip8 (le : Bool) (b : ByteBuffer) (hb : b.Inv) (h0 : b.ReadableBytes = 0)
    (x : Int) (h1 : -128 ≤ x) (h2 : x ≤ 127) :
    ∃ b1 b2, b.WriteInt8 le x = some b1 ∧ b1.ReadInt8 le = some (x, b2) ∧
      b2.ReadableBytes = 0 := by
  obtain ⟨b1, hw, hi, hn, ht, hd⟩ := Write_toBE_empty b hb h0 1 (toUnsigned 8 x)
  obtain ⟨b2, hr, hi2, hr2⟩ := ReadInt8_eq le b1 hi (by omega)
  rw [ht, decode_encode 8 1 x (by simp) (by norm_num) (by norm_num; omega)
    (by norm_num; omega)] at hr
  rw [hd] at hr2
  exact ⟨b1, b2, by rw [WriteInt8_eq, hw], hr, ReadableBytes_of_readable_nil b2 hi2 hr2⟩

theorem roundtrip16 (le : Bool) (b : ByteBuffer) (hb : b.Inv) (h0 : b.ReadableBytes = 0)
    (x : Int) (h1 : -32768 ≤ x) (h2 : x ≤ 32767) :
    ∃ b1 b2, b.WriteInt16 le x = some b1 ∧ b1.ReadInt16 le = some (x, b2) ∧
      b2.ReadableBytes = 0 := by
  obtain ⟨b1, hw, hi, hn, ht, hd⟩ := Write_toBE_empty b hb h0 2 (toUnsigned 16 x)
  obtain ⟨b2, hr, hi2, hr2⟩ := ReadInt16_eq le b1 hi (by omega)
  rw [ht, decode_encode 16 2 x (by simp) (by norm_num) (by norm_num; omega)
    (by norm_num; omega)] at hr
  rw [hd] at hr2
  exact ⟨b1, b2, by rw [WriteInt16_eq, hw], hr, ReadableBytes_of_readable_nil b2 hi2 hr2⟩

theorem roundtrip32 (le : Bool) (b : ByteBuffer) (hb : b.Inv) (h0 : b.ReadableBytes = 0)
    (x : Int) (h1 : -2147483648 ≤ x) (h2 : x ≤ 2147483647) :
    ∃ b1 b2, b.WriteInt32 le x = some b1 ∧ b1.ReadInt32 le = some (x, b2) ∧
      b2.ReadableBytes = 0 := by
  obtain ⟨b1, hw, hi, hn, ht, hd⟩ := Write_toBE_empty b hb h0 4 (toUnsigned 32 x)
  obtain ⟨b2, hr, hi2, hr2⟩ := ReadInt32_eq le b1 hi (by omega)
  rw [ht, decode_encode 32 4 x (by simp) (by norm_num) (by norm_num; omega)
    (by norm_num; omega)] at hr
  rw [hd] at hr2
  exact ⟨b1, b2, by rw [WriteInt32_eq, hw], hr, ReadableBytes_of_readable_nil b2 hi2 hr2⟩

theorem roundtrip64 (le : Bool) (b : ByteBuffer) (hb : b.Inv) (h0 : b.ReadableBytes = 0)
    (x : Int) (h1 : -9223372036854775808 ≤ x) (h2 : x ≤ 9223372036854775807) :
    ∃ b1 b2, b.WriteInt64 le x = some b1 ∧ b1.ReadInt64 le = some (x, b2) ∧
      b2.ReadableBytes = 0 := by
  obtain ⟨b1, hw, hi, hn, ht, hd⟩ := Write_toBE_empty b hb h0 8 (toUnsigned 64 x)
  obtain ⟨b2, hr, hi2, hr2⟩ := ReadInt64_eq le b1 hi (by omega)
  rw [ht, decode_encode 64 8 x (by simp) (by norm_num) (by norm_num; omega)
    (by norm_num; omega)] at hr
  rw [hd] at hr2
  exact ⟨b1, b2, by rw [WriteInt64_eq, hw], hr, ReadableBytes_of_readable_nil b2 hi2 hr2⟩

/-- C6: fixed-width integers are stored in network byte order and round-trip, whatever the
byte order of the host. On a buffer satisfying the index invariant, `WriteIntN(x)` appends
exactly the `N/8` bytes of the two's-complement representation of `x` (`x` reduced modulo
`2^N`), most significant byte first; with at least `N/8` readable bytes `PeekIntN` returns
the big-endian two's-complement value of the first `N/8` readable bytes, and `ReadIntN`
returns the same value and leaves the readable bytes without their first `N/8`; on a buffer
with nothing readable, `WriteIntN(x)` followed by `ReadIntN` returns `x` for every `x` of the
signed `N`-bit range and leaves nothing readable. -/
theorem fixed_width_integers (little_endian : Bool) (b : ByteBuffer) (hb : b.Inv) :
    ((∀ x : Int, ∃ b', b.WriteInt8 little_endian x = some b' ∧
        b'.readable = b.readable ++ toBE 1 (toUnsigned 8 x)) ∧
     (∀ x : Int, ∃ b', b.WriteInt16 little_endian x = some b' ∧
        b'.readable = b.readable ++ toBE 2 (toUnsigned 16 x)) ∧
     (∀ x : Int, ∃ b', b.WriteInt32 little_endian x = some b' ∧
        b'.readable = b.readable ++ toBE 4 (toUnsigned 32 x)) ∧
     (∀ x : Int, ∃ b', b.WriteInt64 little_endian x = some b' ∧
        b'.readable = b.readable ++ toBE 8 (toUnsigned 64 x))) ∧
    ((1 ≤ b.ReadableBytes →
        b.PeekInt8 little_endian = some (toSigned 8 (fromBE (b.readable.take 1))) ∧
        ∃ b', b.ReadInt8 little_endian = some (toSigned 8 (fromBE (b.readable.take 1)), b') ∧
          b'.readable = b.readable.drop 1) ∧
     (2 ≤ b.ReadableBytes →
        b.PeekInt16 little_endian = some (toSigned 16 (fromBE (b.readable.take 2))) ∧
        ∃ b', b.ReadInt16 little_endian = some (toSigned 16 (fromBE (b.readable.take 2)), b') ∧
          b'.readable = b.readable.drop 2) ∧
     (4 ≤ b.ReadableBytes →
        b.PeekInt32 little_endian = some (toSigned 32 (fromBE (b.readable.take 4))) ∧
        ∃ b', b.ReadInt32 little_endian = some (toSigned 32 (fromBE (b.readable.take 4)), b') ∧
          b'.readable = b.readable.drop 4) ∧
     (8 ≤ b.ReadableBytes →
        b.PeekInt64 little_endian = some (toSigned 64 (fromBE (b.readable.take 8))) ∧
        ∃ b', b.ReadInt64 little_endian = some (toSigned 64 (fromBE (b.readable.take 8)), b') ∧
          b'.readable = b.readable.drop 8)) ∧
    (b.ReadableBytes = 0 →
      (∀ x : Int, -128 ≤ x → x ≤ 127 → ∃ b1 b2, b.WriteInt8 little_endian x = some b1 ∧
        b1.ReadInt8 little_endian = some (x, b2) ∧ b2.ReadableBytes = 0) ∧
      (∀ x : Int, -32768 ≤ x → x ≤ 32767 → ∃ b1 b2, b.WriteInt16 little_endian x = some b1 ∧
        b1.ReadInt16 little_endian = some (x, b2) ∧ b2.ReadableBytes = 0) ∧
      (∀ x : Int, -2147483648 ≤ x → x ≤ 2147483647 →
        ∃ b1 b2, b.WriteInt32 little_endian x = some b1 ∧
          b1.ReadInt32 little_endian = some (x, b2) ∧ b2.ReadableBytes = 0) ∧
      (∀ x : Int, -9223372036854775808 ≤ x → x ≤ 9223372036854775807 →
        ∃ b1 b2, b.WriteInt64 little_endian x = some b1 ∧
          b1.ReadInt64 little_endian = some (x, b2) ∧ b2.ReadableBytes = 0)) := by
  refine ⟨⟨?_, ?_, ?_, ?_⟩, ⟨?_, ?_, ?_, ?_⟩, ?_⟩
  · intro x
    obtain ⟨b', hw, -, hr⟩ := Write_inv b (toBE 1 (toUnsigned 8 x)) hb
    exact ⟨b', by rw [WriteInt8_eq, hw], hr⟩
  · intro x
    obtain ⟨b', hw, -, hr⟩ := Write_inv b (toBE 2 (toUnsigned 16 x)) hb
    exact ⟨b', by rw [WriteInt16_eq, hw], hr⟩
  · intro x
    obtain ⟨b', hw, -, hr⟩ := Write_inv b (toBE 4 (toUnsigned 32 x)) hb
    exact ⟨b', by rw [WriteInt32_eq, hw], hr⟩
  · intro x
    obtain ⟨b', hw, -, hr⟩ := Write_inv b (toBE 8 (toUnsigned 64 x)) hb
    exact ⟨b', by rw [WriteInt64_eq, hw], hr⟩
  · intro hk
    obtain ⟨b', hr, -, hd⟩ := ReadInt8_eq little_endian b hb hk
    exact ⟨PeekInt8_eq little_endian b hb hk, b', hr, hd⟩
  · intro hk
    obtain ⟨b', hr, -, hd⟩ := ReadInt16_eq little_endian b hb hk
    exact ⟨PeekInt16_eq little_endian b hb hk, b', hr, hd⟩
  · intro hk
    obtain ⟨b', hr, -, hd⟩ := ReadInt32_eq little_endian b hb hk
    exact ⟨PeekInt32_eq little_endian b hb hk, b', hr, hd⟩
  · intro hk
    obtain ⟨b', hr, -, hd⟩ := ReadInt64_eq little_endian b hb hk
    exact ⟨PeekInt64_eq little_endian b hb hk, b', hr, hd⟩
  · intro h0
    exact ⟨fun x h1 h2 => roundtrip8 little_endian b hb h0 x h1 h2,
      fun x h1 h2 => roundtrip16 little_endian b hb h0 x h1 h2,
      fun x h1 h2 => roundtrip32 little_endian b hb h0 x h1 h2,
      fun x h1 h2 => roundtrip64 little_endian b hb h0 x h1 h2⟩

/-- Witness of C6: `WriteInt32(-3)` then `ReadInt32` on a fresh buffer of capacity 8,
little-endian host. -/
theorem fixed_width_integers_witness :
    (create 8).Inv ∧
    (create 8).WriteInt32 true (-3)
      = some { buffer_ := [255, 255, 255, 253, 0, 0, 0, 0], reader_index_ := 0,
               writer_index_ := 4 } ∧
    ∃ b1 b2, (create 8).WriteInt32 true (-3) = some b1 ∧ b1.ReadInt32 true = some (-3, b2) ∧
      b2.ReadableBytes = 0 :=
  ⟨by decide, by decide,
    (fixed_width_integers true (create 8) (by decide)).2.2 (by decide) |>.2.2.1 (-3)
      (by decide) (by decide)⟩

end ByteBuffer
end raner

/-! ## Lemmas about the length-header codec -/

namespace raner
namespace LengthHeaderCodec
open ByteBuffer

/-- The header length `OnMessage` reads is the big-endian value of the first four readable
bytes, whatever the byte order of the host. -/
theorem header_eq (le : Bool) (b : ByteBuffer) (hb : b.Inv) (h4 : 4 ≤ b.ReadableBytes) :
    gntohl le (objectValue le (b.peekBytes 4)) = fromBE (b.readable.take 4) := by
  obtain ⟨hp, hl⟩ := peekBytes_eq b 4 hb h4
  rw [hp]
  unfold gntohl
  exact swap_objectValue le 4 _ hl

theorem fromBE_header (L : Nat) (hL : L ≤ 65536) (tl : List Byte) :
    fromBE ((toBE 4 L ++ tl).take 4) = L := by
  have h : (toBE 4 L ++ tl).take 4 = toBE 4 L := by
    rw [List.take_append_of_le_length (by rw [toBE_length])]
    exact List.take_of_length_le (by rw [toBE_length])
  rw [h, fromBE_toBE]
  exact Nat.mod_eq_of_lt (by norm_num; omega)

/-- One iteration of the loop on a buffer that starts with a complete frame. -/
theorem loop_step (le : Bool) (fuel : Nat) (st : CodecState) (m rest : List Byte)
    (hb : st.buf.Inv) (hr : st.buf.readable = frame m ++ rest) (hm : m.length ≤ 65536) :
    ∃ b2, b2.Inv ∧ b2.readable = rest ∧
      OnMessageLoop le (fuel + 1) st
        = OnMessageLoop le fuel
            { buf := b2, delivered := st.delivered ++ [m], shutdowns := st.shutdowns } := by
  have hlen : st.buf.ReadableBytes = 4 + m.length + rest.length := by
    rw [← readable_length _ hb, hr]; simp [frame, toBE_length]; omega
  have h4 : 4 ≤ st.buf.ReadableBytes := by omega
  have hL : fromBE (st.buf.readable.take 4) = m.length := by
    rw [hr, frame, List.append_assoc]; exact fromBE_header _ hm _
  obtain ⟨b1, hs1, hi1, hr1⟩ := SkipReadBytes_readable st.buf 4 hb h4
  have hr1' : b1.readable = m ++ rest := by
    rw [hr1, hr, frame, List.append_assoc]
    exact List.drop_left' (toBE_length 4 _)
  have hlen1 : b1.ReadableBytes = m.length + rest.length := by
    rw [← readable_length _ hi1, hr1']; simp
  obtain ⟨hp, -⟩ := peekBytes_eq b1 m.length hi1 (by omega)
  have hmsg : b1.peekBytes m.length = m := by
    rw [hp, hr1']; simp
  obtain ⟨b2, hs2, hi2, hr2⟩ := SkipReadBytes_readable b1 m.length hi1 (by omega)
  refine ⟨b2, hi2, by rw [hr2, hr1']; simp, ?_⟩
  rw [OnMessageLoop]
  simp only [kHeaderLen, if_pos h4, header_eq le _ hb h4, hL,
    if_neg (Nat.not_lt.mpr hm), if_pos (show m.length + 4 ≤ st.buf.ReadableBytes by omega),
    hs1, hmsg, hs2]

/-- The loop stops, consuming nothing, on a buffer that does not start with a complete
valid frame; it asks for shutdown exactly when the header length exceeds 65536. -/
theorem loop_stop (le : Bool) (fuel : Nat) (st : CodecState) (hb : st.buf.Inv)
    (hstop : st.buf.ReadableBytes < 4 ∨ 65536 < fromBE (st.buf.readable.take 4) ∨
      st.buf.ReadableBytes < fromBE (st.buf.readable.take 4) + 4) :
    OnMessageLoop le (fuel + 1) st
      = some { st with shutdowns := st.shutdowns +
          (if 4 ≤ st.buf.ReadableBytes ∧ 65536 < fromBE (st.buf.readable.take 4)
            then 1 else 0) } := by
  rw [OnMessageLoop]
  by_cases h4 : 4 ≤ st.buf.ReadableBytes
  · simp only [kHeaderLen, if_pos h4, header_eq le _ hb h4]
    by_cases hbig : 65536 < fromBE (st.buf.readable.take 4)
    · rw [if_pos hbig, if_pos ⟨h4, hbig⟩]
    · rcases hstop with h | h | h
      · omega
      · exact absurd h hbig
      · rw [if_neg hbig, if_neg (Nat.not_le.mpr h), if_neg (fun hh => hbig hh.2)]
        rfl
  · rw [if_neg (by simpa [kHeaderLen] using h4), if_neg (fun hh => h4 hh.1)]
    rfl

theorem loop_frames (le : Bool) (ms : List (List Byte)) :
    ∀ (fuel : Nat) (st : CodecState) (rest : List Byte), st.buf.Inv →
      (∀ m ∈ ms, m.length ≤ 65536) →
      st.buf.readable = (ms.map frame).flatten ++ rest → ms.length < fuel →
      (rest.length < 4 ∨ 65536 < fromBE (rest.take 4) ∨
        rest.length < fromBE (rest.take 4) + 4) →
      ∃ b', OnMessageLoop le fuel st
          = some { buf := b', delivered := st.delivered ++ ms,
                   shutdowns := st.shutdowns +
                     (if 4 ≤ rest.length ∧ 65536 < fromBE (rest.take 4) then 1 else 0) } ∧
        b'.Inv ∧ b'.readable = rest ∧ (ms = [] → b' = st.buf) := by
  induction ms with
  | nil =>
    intro fuel st rest hb _ hr hf hstop
    simp only [List.map_nil, List.flatten_nil, List.nil_append] at hr
    have hlen : st.buf.ReadableBytes = rest.length := by rw [← readable_length _ hb, hr]
    obtain ⟨fuel', rfl⟩ : ∃ f, fuel = f + 1 := ⟨fuel - 1, by simp at hf; omega⟩
    refine ⟨st.buf, ?_, hb, hr, fun _ => rfl⟩
    rw [loop_stop le fuel' st hb (by rw [hlen, hr]; exact hstop), hlen, hr]
    simp
  | cons m ms ih =>
    intro fuel st rest hb hms hr hf hstop
    obtain ⟨fuel', rfl⟩ : ∃ f, fuel = f + 1 := ⟨fuel - 1, by simp at hf; omega⟩
    have hr' : st.buf.readable = frame m ++ ((ms.map frame).flatten ++ rest) := by
      rw [hr]; simp
    obtain ⟨b2, hi2, hr2, hstep⟩ := loop_step le fuel' st m _ hb hr'
      (hms m (List.mem_cons_self _ _))
    obtain ⟨b', hrun, hi', hrd, -⟩ := ih fuel'
      { buf := b2, delivered := st.delivered ++ [m], shutdowns := st.shutdowns } rest hi2
      (fun x hx => hms x (List.mem_cons_of_mem _ hx)) hr2 (by simp at hf ⊢; omega) hstop
    refine ⟨b', ?_, hi', hrd, fun h => by cases h⟩
    rw [hstep, hrun]
    simp

theorem frames_length (ms : List (List Byte)) : ms.length ≤ ((ms.map frame).flatten).length := by
  induction ms with
  | nil => simp
  | cons m ms ih => simp [frame, toBE_length] at ih ⊢; omega

/-- The function `OnMessage` on a buffer holding complete frames followed by bytes `rest`
that do not start with a complete valid frame. -/
theorem OnMessage_frames (le : Bool) (ms : List (List Byte)) (st : CodecState)
    (rest : List Byte) (hb : st.buf.Inv) (hms : ∀ m ∈ ms, m.length ≤ 65536)
    (hr : st.buf.readable = (ms.map frame).flatten ++ rest)
    (hstop : rest.length < 4 ∨ 65536 < fromBE (rest.take 4) ∨
      rest.length < fromBE (rest.take 4) + 4) :
    ∃ b', OnMessage le st
        = some { buf := b', delivered := st.delivered ++ ms,
                 shutdowns := st.shutdowns +
                   (if 4 ≤ rest.length ∧ 65536 < fromBE (rest.take 4) then 1 else 0) } ∧
      b'.Inv ∧ b'.readable = rest ∧ (ms = [] → b' = st.buf) := by
  unfold OnMessage
  refine loop_frames le ms _ st rest hb hms hr ?_ hstop
  have h1 := frames_length ms
  have h2 : st.buf.ReadableBytes = ((ms.map frame).flatten).length + rest.length := by
    rw [← readable_length _ hb, hr]; simp
  omega

theorem Send_frame (le : Bool) (m : List Byte) (hm : m.length ≤ 65536) :
    ∃ fb, Send le m = some fb ∧ fb.Inv ∧ fb.readable = frame m := by
  have hmod : m.length % 2 ^ 32 = m.length := Nat.mod_eq_of_lt (by norm_num; omega)
  have hhdr : objectBytes le 4 (ghtonl le (m.length % 2 ^ 32)) = toBE 4 m.length := by
    rw [hmod]; unfold ghtonl; exact objectBytes_swap le 4 _
  obtain ⟨b1, hw1, hi1, hr1⟩ := Write_inv (create kInitialSize) (toBE 4 m.length)
    (create_Inv _)
  obtain ⟨b2, hw2, hi2, hr2⟩ := Write_inv b1 m hi1
  refine ⟨b2, ?_, hi2, ?_⟩
  · unfold Send
    simp only [hhdr, hw1, hw2]
  · rw [hr2, hr1]
    simp [frame, create, readable, ReadableBytes]

theorem stop_of_piece (m : List Byte) (hm : m.length ≤ 65536) (p : Nat)
    (hp : p < (frame m).length) :
    ((frame m).take p).length < 4 ∨ 65536 < fromBE (((frame m).take p).take 4) ∨
      ((frame m).take p).length < fromBE (((frame m).take p).take 4) + 4 := by
  have hfl : (frame m).length = 4 + m.length := by simp [frame, toBE_length]
  have hl : ((frame m).take p).length = p := by simp; omega
  by_cases h4 : p < 4
  · left; omega
  · right; right
    have ht : ((frame m).take p).take 4 = (frame m).take 4 := by
      rw [List.take_take]; congr 1; omega
    rw [ht, hl]
    have hh : fromBE ((frame m).take 4) = m.length := by
      rw [frame]; exact fromBE_header _ hm _
    rw [hh]
    omega

theorem count_zero_of_piece (m : List Byte) (hm : m.length ≤ 65536) (p : Nat) :
    (if 4 ≤ ((frame m).take p).length ∧ 65536 < fromBE (((frame m).take p).take 4)
      then 1 else 0) = 0 := by
  rw [if_neg]
  rintro ⟨h4, hbig⟩
  have hl : 4 ≤ p := by
    have := List.length_take_le p (frame m)
    omega
  have ht : ((frame m).take p).take 4 = (frame m).take 4 := by
    rw [List.take_take]; congr 1; omega
  rw [ht, frame, fromBE_header _ hm] at hbig
  omega

theorem count_zero_nil :
    (if 4 ≤ ([] : List Byte).length ∧ 65536 < fromBE (([] : List Byte).take 4)
      then 1 else 0) = 0 := by
  simp

theorem stop_nil : ([] : List Byte).length < 4 ∨ 65536 < fromBE (([] : List Byte).take 4) ∨
    ([] : List Byte).length < fromBE (([] : List Byte).take 4) + 4 := by
  left; simp

/-- The frame of `m` delivered in two pieces split at `p`, `OnMessage` run after each. -/
theorem two_pieces (le : Bool) (m : List Byte) (hm : m.length ≤ 65536) (b0 : ByteBuffer)
    (p : Nat) (hb : b0.Inv) (h0 : b0.ReadableBytes = 0) (hp : p ≤ (frame m).length) :
    ∃ b1 s1 b2 s2, b0.Write ((frame m).take p) = some b1 ∧
      OnMessage le { buf := b1, delivered := [], shutdowns := 0 } = some s1 ∧
      s1.buf.Write ((frame m).drop p) = some b2 ∧
      OnMessage le { s1 with buf := b2 } = some s2 ∧
      s2.delivered = [m] ∧ s2.shutdowns = 0 ∧ s2.buf.ReadableBytes = 0 ∧
      (p < (frame m).length → s1.delivered = [] ∧ s1.buf = b1) ∧
      (p = (frame m).length → s1.delivered = [m] ∧ s1.buf.ReadableBytes = 0) := by
  have he : b0.readable = [] :=
    List.eq_nil_of_length_eq_zero (by rw [readable_length b0 hb, h0])
  obtain ⟨b1, hw1, hi1, hr1⟩ := Write_inv b0 ((frame m).take p) hb
  rw [he, List.nil_append] at hr1
  by_cases hlt : p < (frame m).length
  · obtain ⟨b1', hrun1, -, -, hsame⟩ := OnMessage_frames le []
      { buf := b1, delivered := [], shutdowns := 0 } ((frame m).take p) hi1
      (fun _ h => by cases h) (by simpa using hr1) (stop_of_piece m hm p hlt)
    have hb1 : b1' = b1 := hsame rfl
    subst hb1
    rw [count_zero_of_piece m hm p] at hrun1
    obtain ⟨b2, hw2, hi2, hr2⟩ := Write_inv b1' ((frame m).drop p) hi1
    rw [hr1, List.take_append_drop] at hr2
    obtain ⟨b3, hrun2, hi3, hr3, -⟩ := OnMessage_frames le [m]
      { buf := b2, delivered := [], shutdowns := 0 } [] hi2
      (fun x hx => by simp at hx; subst hx; exact hm) (by simpa using hr2) stop_nil
    rw [count_zero_nil] at hrun2
    exact ⟨b1', _, b2, _, hw1, hrun1, hw2, hrun2, rfl, rfl,
      ReadableBytes_of_readable_nil b3 hi3 hr3, fun _ => ⟨rfl, rfl⟩,
      fun h => absurd h (by omega)⟩
  · have hpe : p = (frame m).length := by omega
    subst hpe
    rw [List.take_length] at hr1
    obtain ⟨b1', hrun1, hi1', hr1', -⟩ := OnMessage_frames le [m]
      { buf := b1, delivered := [], shutdowns := 0 } [] hi1
      (fun x hx => by simp at hx; subst hx; exact hm) (by simpa using hr1) stop_nil
    rw [count_zero_nil] at hrun1
    obtain ⟨b2, hw2, hi2, hr2⟩ := Write_inv b1' ((frame m).drop (frame m).length) hi1'
    rw [hr1', List.drop_length, List.append_nil] at hr2
    obtain ⟨b3, hrun2, hi3, hr3, -⟩ := OnMessage_frames le []
      { buf := b2, delivered := [] ++ [m], shutdowns := 0 + 0 } [] hi2
      (fun _ h => by cases h) (by simpa using hr2) stop_nil
    rw [count_zero_nil] at hrun2
    exact ⟨b1, _, b2, _, hw1, hrun1, hw2, hrun2, rfl, rfl,
      ReadableBytes_of_readable_nil b3 hi3 hr3, fun h => absurd h hlt,
      fun _ => ⟨rfl, ReadableBytes_of_readable_nil b1' hi1' hr1'⟩⟩

/-! ## Claims C8 and C9: length-header framing -/

/-- C8: length-header framing round trip under chunked delivery. For every payload `m` with
`|m| ≤ 65536`, `Send` produces the frame of `m` (its length as four big-endian bytes, then
`m`); when that frame is appended to a buffer with nothing readable in two consecutive
pieces split at any position `p`, with `OnMessage` run after each piece, the message
callback is invoked exactly once in total, with argument `m`, no shutdown is requested, the
first run consumes nothing and delivers nothing unless the first piece is the whole frame,
and nothing is readable after the second run. More generally a buffer holding the
concatenation of several frames yields exactly their payloads in order and is drained. -/
theorem framing_round_trip (little_endian : Bool) (m : List Byte) (hm : m.length ≤ 65536) :
    (∃ fb, Send little_endian m = some fb ∧ fb.readable = frame m) ∧
    (∀ (b0 : ByteBuffer) (p : Nat), b0.Inv → b0.ReadableBytes = 0 → p ≤ (frame m).length →
      ∃ b1 s1 b2 s2, b0.Write ((frame m).take p) = some b1 ∧
        OnMessage little_endian { buf := b1, delivered := [], shutdowns := 0 } = some s1 ∧
        s1.buf.Write ((frame m).drop p) = some b2 ∧
        OnMessage little_endian { s1 with buf := b2 } = some s2 ∧
        s2.delivered = [m] ∧ s2.shutdowns = 0 ∧ s2.buf.ReadableBytes = 0 ∧
        (p < (frame m).length → s1.delivered = [] ∧ s1.buf = b1) ∧
        (p = (frame m).length → s1.delivered = [m] ∧ s1.buf.ReadableBytes = 0)) ∧
    (∀ (ms : List (List Byte)) (st : CodecState), (∀ x ∈ ms, x.length ≤ 65536) →
      st.buf.Inv → st.buf.readable = (ms.map frame).flatten →
      ∃ s, OnMessage little_endian st = some s ∧ s.delivered = st.delivered ++ ms ∧
        s.shutdowns = st.shutdowns ∧ s.buf.ReadableBytes = 0) := by
  refine ⟨?_, ?_, ?_⟩
  · obtain ⟨fb, hs, -, hr⟩ := Send_frame little_endian m hm
    exact ⟨fb, hs, hr⟩
  · intro b0 p hb h0 hp
    exact two_pieces little_endian m hm b0 p hb h0 hp
  · intro ms st hms hb hr
    obtain ⟨b', hrun, hi', hr', -⟩ := OnMessage_frames little_endian ms st [] hb hms
      (by simpa using hr) stop_nil
    rw [count_zero_nil] at hrun
    exact ⟨_, hrun, rfl, rfl, ReadableBytes_of_readable_nil b' hi' hr'⟩

/-- Witness of C8: the payload of five bytes whose header and payload arrive separately. -/
theorem framing_round_trip_witness :
    ([1, 2, 3, 4, 5] : List Byte).length ≤ 65536 ∧
    ∃ b1 s1 b2 s2, (create 16).Write ((frame [1, 2, 3, 4, 5]).take 4) = some b1 ∧
      OnMessage true { buf := b1, delivered := [], shutdowns := 0 } = some s1 ∧
      s1.buf.Write ((frame [1, 2, 3, 4, 5]).drop 4) = some b2 ∧
      OnMessage true { s1 with buf := b2 } = some s2 ∧
      s2.delivered = [[1, 2, 3, 4, 5]] ∧ s2.shutdowns = 0 ∧ s2.buf.ReadableBytes = 0 ∧
      (4 < (frame [1, 2, 3, 4, 5]).length → s1.delivered = [] ∧ s1.buf = b1) ∧
      (4 = (frame [1, 2, 3, 4, 5]).length →
        s1.delivered = [[1, 2, 3, 4, 5]] ∧ s1.buf.ReadableBytes = 0) :=
  ⟨by decide, (framing_round_trip true [1, 2, 3, 4, 5] (by decide)).2.1 (create 16) 4
    (by decide) (by decide) (by decide)⟩

/-- C9: the decoder consumes only complete valid frames. With `L` the big-endian value of
the first four readable bytes: if fewer than 4 bytes are readable, or `L ≤ 65536` but fewer
than `4 + L` bytes are readable, `OnMessage` returns with the state unchanged (no callback,
buffer untouched, no shutdown); if `L > 65536` it invokes no callback, leaves the buffer
untouched and requests shutdown once. A frame whose header length is exactly 65536 is
accepted: its payload is delivered and no shutdown is requested. -/
theorem decoder_partial_frames (little_endian : Bool) (st : CodecState) (hb : st.buf.Inv) :
    (st.buf.ReadableBytes < 4 → OnMessage little_endian st = some st) ∧
    (4 ≤ st.buf.ReadableBytes → fromBE (st.buf.readable.take 4) ≤ 65536 →
      st.buf.ReadableBytes < 4 + fromBE (st.buf.readable.take 4) →
      OnMessage little_endian st = some st) ∧
    (4 ≤ st.buf.ReadableBytes → 65536 < fromBE (st.buf.readable.take 4) →
      OnMessage little_endian st = some { st with shutdowns := st.shutdowns + 1 }) ∧
    (∀ m : List Byte, m.length = 65536 → st.buf.readable = frame m →
      ∃ s, OnMessage little_endian st = some s ∧ s.delivered = st.delivered ++ [m] ∧
        s.shutdowns = st.shutdowns ∧ s.buf.ReadableBytes = 0) := by
  refine ⟨?_, ?_, ?_, ?_⟩
  · intro h
    unfold OnMessage
    rw [loop_stop little_endian _ st hb (Or.inl h), if_neg (fun hh => by omega)]
    rfl
  · intro h4 hL hlt
    unfold OnMessage
    rw [loop_stop little_endian _ st hb (Or.inr (Or.inr (by omega))),
      if_neg (fun hh => by omega)]
    rfl
  · intro h4 hL
    unfold OnMessage
    rw [loop_stop little_endian _ st hb (Or.inr (Or.inl hL)), if_pos ⟨h4, hL⟩]
  · intro m hm hr
    obtain ⟨b', hrun, hi', hr', -⟩ := OnMessage_frames little_endian [m] st [] hb
      (fun x hx => by simp at hx; subst hx; omega) (by simpa using hr) stop_nil
    rw [count_zero_nil] at hrun
    exact ⟨_, hrun, rfl, rfl, ReadableBytes_of_readable_nil b' hi' hr'⟩

/-- Witness of C9: a header announcing 65537 bytes, and a header announcing 2 bytes with
one byte of payload. -/
theorem decoder_partial_frames_witness :
    ByteBuffer.Inv { buffer_ := [0, 1, 0, 1, 7, 8], reader_index_ := 0, writer_index_ := 6 } ∧
    OnMessage true { buf := { buffer_ := [0, 1, 0, 1, 7, 8], reader_index_ := 0,
                              writer_index_ := 6 }, delivered := [], shutdowns := 0 }
      = some { buf := { buffer_ := [0, 1, 0, 1, 7, 8], reader_index_ := 0, writer_index_ := 6 },
               delivered := [], shutdowns := 0 + 1 } ∧
    OnMessage true { buf := { buffer_ := [0, 0, 0, 2, 7], reader_index_ := 0,
                              writer_index_ := 5 }, delivered := [], shutdowns := 0 }
      = some { buf := { buffer_ := [0, 0, 0, 2, 7], reader_index_ := 0, writer_index_ := 5 },
               delivered := [], shutdowns := 0 } :=
  ⟨by decide,
    (decoder_partial_frames true
      { buf := { buffer_ := [0, 1, 0, 1, 7, 8], reader_index_ := 0, writer_index_ := 6 },
        delivered := [], shutdowns := 0 } (by decide)).2.2.1 (by decide) (by decide),
    (decoder_partial_frames true
      { buf := { buffer_ := [0, 0, 0, 2, 7], reader_index_ := 0, writer_index_ := 5 },
        delivered := [], shutdowns := 0 } (by decide)).2.1 (by decide) (by decide)
      (by decide)⟩

end LengthHeaderCodec
end raner

/-! ## Lemmas about the send path -/

namespace raner
namespace TCPConnection
open ByteBuffer

theorem HasRegisterWrite_StartWrite (c : TCPConnection) : c.StartWrite.HasRegisterWrite = true := by
  unfold StartWrite HasRegisterWrite EpollServer.HasRegisterWrite EpollServer.StartWrite
  by_cases h : c.socket_.fd_ ∈ c.loop_.epoll_server_.write_fds
  · simp [h]
  · simp [h]

theorem HasRegisterWrite_StopWrite (c : TCPConnection) : c.StopWrite.HasRegisterWrite = false := by
  unfold StopWrite HasRegisterWrite EpollServer.HasRegisterWrite EpollServer.StopWrite
  simp

/-- The queueing block when there is something to queue. -/
theorem queueRemaining_queues (l : SendLocals) (data : List Byte)
    (hinv : l.conn.output_buffer_.Inv) (hlen : l.nwrote + l.remaining = data.length)
    (hf : l.fault_error = false) (hr : 0 < l.remaining) :
    ∃ c', queueRemaining l data = some c' ∧ c'.output_buffer_.Inv ∧
      c'.output_buffer_.readable = l.conn.output_buffer_.readable ++ data.drop l.nwrote ∧
      c'.loop_.pending_functors_ = l.conn.loop_.pending_functors_ ++
        (if l.conn.high_water_mark_ ≤ l.conn.output_buffer_.ReadableBytes + l.remaining ∧
            l.conn.output_buffer_.ReadableBytes < l.conn.high_water_mark_ ∧
            l.conn.high_water_mark_callback_ = true
          then [PendingFunctor.high_water_mark
            (l.conn.output_buffer_.ReadableBytes + l.remaining)] else []) ∧
      c'.HasRegisterWrite = true ∧ c'.state_ = l.conn.state_ ∧
      c'.high_water_mark_ = l.conn.high_water_mark_ ∧
      c'.high_water_mark_callback_ = l.conn.high_water_mark_callback_ ∧
      c'.write_complete_callback_ = l.conn.write_complete_callback_ ∧
      c'.socket_ = l.conn.socket_ := by
  have htake : (data.drop l.nwrote).take l.remaining = data.drop l.nwrote :=
    List.take_of_length_le (by simp; omega)
  obtain ⟨ob, hw, hi, hrd⟩ := Write_inv l.conn.output_buffer_ (data.drop l.nwrote) hinv
  unfold queueRemaining
  rw [if_pos (by simp [hf, hr]), htake]
  by_cases hc : l.conn.high_water_mark_ ≤ l.conn.output_buffer_.ReadableBytes + l.remaining ∧
      l.conn.output_buffer_.ReadableBytes < l.conn.high_water_mark_ ∧
      l.conn.high_water_mark_callback_ = true
  · simp only [if_pos hc, QueueInLoop, EventLoop.QueueInLoop, hw]
    split
    · exact ⟨_, rfl, hi, hrd, rfl, HasRegisterWrite_StartWrite _, rfl, rfl, rfl, rfl, rfl⟩
    · rename_i hreg
      exact ⟨_, rfl, hi, hrd, rfl, by simpa using hreg, rfl, rfl, rfl, rfl, rfl⟩
  · simp only [if_neg hc, hw]
    split
    · exact ⟨_, rfl, hi, hrd, by simp [StartWrite], HasRegisterWrite_StartWrite _, rfl, rfl,
        rfl, rfl, rfl⟩
    · rename_i hreg
      exact ⟨_, rfl, hi, hrd, by simp, by simpa using hreg, rfl, rfl, rfl, rfl, rfl⟩

theorem queueRemaining_skips (l : SendLocals) (data : List Byte)
    (h : l.fault_error = true ∨ l.remaining = 0) : queueRemaining l data = some l.conn := by
  unfold queueRemaining
  rw [if_neg]
  rintro ⟨h1, h2⟩
  rcases h with h | h
  · simp [h] at h1
  · omega

/-- What the direct-write block leaves: the output buffer and the configuration are
untouched, the locals split the message, and only a write-complete functor may be queued,
and only when nothing remains. -/
theorem directWrite_locals (c : TCPConnection) (data : List Byte) (res : SendResult)
    (l : SendLocals) (h : directWrite c data res = some l) :
    l.conn.output_buffer_ = c.output_buffer_ ∧ l.conn.state_ = c.state_ ∧
    l.conn.high_water_mark_ = c.high_water_mark_ ∧
    l.conn.high_water_mark_callback_ = c.high_water_mark_callback_ ∧
    l.conn.write_complete_callback_ = c.write_complete_callback_ ∧
    l.nwrote + l.remaining = data.length ∧
    (0 < l.remaining → l.conn.loop_.pending_functors_ = c.loop_.pending_functors_) ∧
    (l.conn.loop_.pending_functors_ = c.loop_.pending_functors_ ∨
      l.conn.loop_.pending_functors_
        = c.loop_.pending_functors_ ++ [PendingFunctor.write_complete]) := by
  unfold directWrite at h
  rcases hsw : c.socket_.Write c.errno data res with ⟨sock, ret, errno⟩
  rw [hsw] at h
  simp only at h
  by_cases h0 : 0 ≤ ret
  · rw [if_pos h0] at h
    by_cases h1 : ret.toNat ≤ data.length
    · rw [if_pos h1] at h
      by_cases h2 : data.length - ret.toNat = 0 ∧ c.write_complete_callback_ = true
      · rw [if_pos h2] at h
        cases h
        refine ⟨rfl, rfl, rfl, rfl, rfl, ?_, ?_, Or.inr rfl⟩
        · show ret.toNat + (data.length - ret.toNat) = data.length
          omega
        · intro hpos
          have hpos' : 0 < data.length - ret.toNat := hpos
          omega
      · rw [if_neg h2] at h
        cases h
        refine ⟨rfl, rfl, rfl, rfl, rfl, ?_, fun _ => rfl, Or.inl rfl⟩
        show ret.toNat + (data.length - ret.toNat) = data.length
        omega
    · rw [if_neg h1] at h
      cases h
  · rw [if_neg h0] at h
    cases h
    exact ⟨rfl, rfl, rfl, rfl, rfl, by simp, fun _ => rfl, Or.inl rfl⟩

/-- What one call of `sendInLoop` does to the amount of queued output and to the pending
functors: with `r` the number of bytes it queues, either `r = 0` and at most a
write-complete functor is queued, or `r > 0` and exactly the high-water-mark functor is
queued when the threshold is crossed. -/
theorem sendInLoop_effect (c c' : TCPConnection) (data : List Byte) (res : SendResult)
    (hinv : c.output_buffer_.Inv) (h : c.sendInLoop data res = some c') :
    ∃ r, c'.output_buffer_.ReadableBytes = c.output_buffer_.ReadableBytes + r ∧
      ((r = 0 ∧ (c'.loop_.pending_functors_ = c.loop_.pending_functors_ ∨
          c'.loop_.pending_functors_
            = c.loop_.pending_functors_ ++ [PendingFunctor.write_complete])) ∨
       (0 < r ∧ c'.loop_.pending_functors_ = c.loop_.pending_functors_ ++
          (if c.high_water_mark_ ≤ c.output_buffer_.ReadableBytes + r ∧
              c.output_buffer_.ReadableBytes < c.high_water_mark_ ∧
              c.high_water_mark_callback_ = true
            then [PendingFunctor.high_water_mark (c.output_buffer_.ReadableBytes + r)]
            else []))) := by
  unfold sendInLoop at h
  by_cases hd : c.state_ = ConnState.kDisconnected
  · rw [if_pos hd] at h
    cases h
    exact ⟨0, rfl, Or.inl ⟨rfl, Or.inl rfl⟩⟩
  · rw [if_neg hd] at h
    simp only at h
    -- the locals after the direct-write block, in both branches
    have key : ∀ l : SendLocals, l.conn.output_buffer_ = c.output_buffer_ →
        l.conn.high_water_mark_ = c.high_water_mark_ →
        l.conn.high_water_mark_callback_ = c.high_water_mark_callback_ →
        l.nwrote + l.remaining = data.length →
        (0 < l.remaining → l.conn.loop_.pending_functors_ = c.loop_.pending_functors_) →
        (l.conn.loop_.pending_functors_ = c.loop_.pending_functors_ ∨
          l.conn.loop_.pending_functors_
            = c.loop_.pending_functors_ ++ [PendingFunctor.write_complete]) →
        queueRemaining l data = some c' →
        ∃ r, c'.output_buffer_.ReadableBytes = c.output_buffer_.ReadableBytes + r ∧
          ((r = 0 ∧ (c'.loop_.pending_functors_ = c.loop_.pending_functors_ ∨
              c'.loop_.pending_functors_
                = c.loop_.pending_functors_ ++ [PendingFunctor.write_complete])) ∨
           (0 < r ∧ c'.loop_.pending_functors_ = c.loop_.pending_functors_ ++
              (if c.high_water_mark_ ≤ c.output_buffer_.ReadableBytes + r ∧
                  c.output_buffer_.ReadableBytes < c.high_water_mark_ ∧
                  c.high_water_mark_callback_ = true
                then [PendingFunctor.high_water_mark (c.output_buffer_.ReadableBytes + r)]
                else []))) := by
      intro l hob hhw hcb hlen hpend hpend' hq
      by_cases hskip : l.fault_error = true ∨ l.remaining = 0
      · rw [queueRemaining_skips l data hskip] at hq
        cases hq
        exact ⟨0, by rw [hob]; rfl, Or.inl ⟨rfl, hpend'⟩⟩
      · have hf : l.fault_error = false := by
          cases hfe : l.fault_error with
          | false => rfl
          | true => exact absurd (Or.inl hfe) hskip
        have hr : 0 < l.remaining := by
          rcases Nat.eq_zero_or_pos l.remaining with h0 | h0
          · exact absurd (Or.inr h0) hskip
          · exact h0
        obtain ⟨c'', hq', hi, hrd, hp, -⟩ :=
          queueRemaining_queues l data (by rw [hob]; exact hinv) hlen hf hr
        rw [hq'] at hq
        cases hq
        refine ⟨l.remaining, ?_, Or.inr ⟨hr, ?_⟩⟩
        · rw [← readable_length _ hi, hrd, hob, List.length_append, readable_length _ hinv]
          simp; omega
        · rw [hp, hpend hr, hob, hhw, hcb]
    by_cases hdir : (!c.HasRegisterWrite) = true ∧ c.output_buffer_.ReadableBytes = 0
    · rw [if_pos hdir] at h
      cases hdw : directWrite c data res with
      | none => rw [hdw] at h; cases h
      | some l =>
        rw [hdw] at h
        obtain ⟨h1, -, h3, h4, -, h6, h7, h8⟩ := directWrite_locals c data res l hdw
        exact key l h1 h3 h4 h6 h7 h8 h
    · rw [if_neg hdir] at h
      exact key _ rfl rfl rfl (by simp) (fun _ => rfl) (Or.inl rfl) h

/-- A send against a socket that accepts nothing queues the whole message. -/
theorem sendInLoop_refused (c : TCPConnection) (data : List Byte) (res : SendResult)
    (hres : res = SendResult.accepted 0 ∨ res = SendResult.failed EWOULDBLOCK)
    (hs : c.state_ ≠ ConnState.kDisconnected) (hinv : c.output_buffer_.Inv)
    (hd : 0 < data.length) :
    ∃ c', c.sendInLoop data res = some c' ∧ c'.output_buffer_.Inv ∧
      c'.output_buffer_.ReadableBytes = c.output_buffer_.ReadableBytes + data.length ∧
      c'.loop_.pending_functors_ = c.loop_.pending_functors_ ++
        (if c.high_water_mark_ ≤ c.output_buffer_.ReadableBytes + data.length ∧
            c.output_buffer_.ReadableBytes < c.high_water_mark_ ∧
            c.high_water_mark_callback_ = true
          then [PendingFunctor.high_water_mark (c.output_buffer_.ReadableBytes + data.length)]
          else []) ∧
      c'.HasRegisterWrite = true ∧ c'.state_ = c.state_ ∧
      c'.high_water_mark_ = c.high_water_mark_ ∧
      c'.high_water_mark_callback_ = c.high_water_mark_callback_ ∧
      c'.write_complete_callback_ = c.write_complete_callback_ := by
  have key : ∀ l : SendLocals, l.conn.output_buffer_ = c.output_buffer_ →
      l.conn.state_ = c.state_ → l.conn.high_water_mark_ = c.high_water_mark_ →
      l.conn.high_water_mark_callback_ = c.high_water_mark_callback_ →
      l.conn.write_complete_callback_ = c.write_complete_callback_ →
      l.conn.loop_.pending_functors_ = c.loop_.pending_functors_ →
      l.nwrote = 0 → l.remaining = data.length → l.fault_error = false →
      ∃ c', queueRemaining l data = some c' ∧ c'.output_buffer_.Inv ∧
        c'.output_buffer_.ReadableBytes = c.output_buffer_.ReadableBytes + data.length ∧
        c'.loop_.pending_functors_ = c.loop_.pending_functors_ ++
          (if c.high_water_mark_ ≤ c.output_buffer_.ReadableBytes + data.length ∧
              c.output_buffer_.ReadableBytes < c.high_water_mark_ ∧
              c.high_water_mark_callback_ = true
            then [PendingFunctor.high_water_mark
              (c.output_buffer_.ReadableBytes + data.length)]
            else []) ∧
        c'.HasRegisterWrite = true ∧ c'.state_ = c.state_ ∧
        c'.high_water_mark_ = c.high_water_mark_ ∧
        c'.high_water_mark_callback_ = c.high_water_mark_callback_ ∧
        c'.write_complete_callback_ = c.write_complete_callback_ := by
    intro l hob hst hhw hcb hwc hpend hn hrem hf
    obtain ⟨c', hq, hi, hrd, hp, hreg, hst', hhw', hcb', hwc', -⟩ :=
      queueRemaining_queues l data (by rw [hob]; exact hinv) (by omega) hf (by omega)
    refine ⟨c', hq, hi, ?_, ?_, hreg, by rw [hst', hst], by rw [hhw', hhw],
      by rw [hcb', hcb], by rw [hwc', hwc]⟩
    · rw [← readable_length _ hi, hrd, hob, List.length_append, readable_length _ hinv, hn]
      simp
    · rw [hp, hpend, hob, hhw, hcb, hrem]
  unfold sendInLoop
  rw [if_neg hs]
  simp only
  by_cases hdir : (!c.HasRegisterWrite) = true ∧ c.output_buffer_.ReadableBytes = 0
  · rw [if_pos hdir]
    have hdw : ∃ sock e, directWrite c data res
        = some ⟨{ c with socket_ := sock, errno := e }, 0, data.length, false⟩ := by
      rcases hres with rfl | rfl
      · have hsw : c.socket_.Write c.errno data (SendResult.accepted 0)
            = ({ c.socket_ with wire := c.socket_.wire ++ data.take 0 }, 0, c.errno) := by
          unfold Socket.Write
          simp only [show ByteBuffer.sizeToInt 0 = 0 by decide, lt_irrefl, if_false]
        refine ⟨{ c.socket_ with wire := c.socket_.wire ++ data.take 0 }, c.errno, ?_⟩
        unfold directWrite
        rw [hsw]
        simp only [le_refl, if_true, Int.toNat_zero, Nat.zero_le, Nat.sub_zero]
        rw [if_neg (by omega)]
      · have hsw : c.socket_.Write c.errno data (SendResult.failed EWOULDBLOCK)
            = (c.socket_.setSocketError, -1, EWOULDBLOCK) := rfl
        refine ⟨c.socket_.setSocketError, EWOULDBLOCK, ?_⟩
        unfold directWrite
        rw [hsw]
        simp only [show ¬ ((0 : Int) ≤ -1) by decide, if_false]
        simp
    obtain ⟨sock, e, hl⟩ := hdw
    rw [hl]
    exact key _ rfl rfl rfl rfl rfl rfl rfl rfl rfl
  · rw [if_neg hdir]
    exact key _ rfl rfl rfl rfl rfl rfl rfl rfl rfl

theorem sizeToInt_toNat_le (k : Nat) : (ByteBuffer.sizeToInt k).toNat ≤ k := by
  unfold ByteBuffer.sizeToInt
  have h := Nat.mod_le k (2 ^ 32)
  split <;> omega

theorem sizeToInt_small (k : Nat) (h : k < 2 ^ 31) : ByteBuffer.sizeToInt k = (k : Int) := by
  unfold ByteBuffer.sizeToInt
  have h1 : k % 2 ^ 32 = k := Nat.mod_eq_of_lt (by omega)
  rw [h1, if_pos h]

theorem directWrite_total (c : TCPConnection) (data : List Byte) (res : SendResult)
    (hres : ∀ k, res = SendResult.accepted k → k ≤ data.length) :
    ∃ l, directWrite c data res = some l := by
  unfold directWrite
  rcases hsw : c.socket_.Write c.errno data res with ⟨sock, ret, errno⟩
  simp only
  by_cases h0 : 0 ≤ ret
  · rw [if_pos h0]
    have hle : ret.toNat ≤ data.length := by
      cases res with
      | accepted k =>
        have hk := hres k rfl
        have hr : ret = ByteBuffer.sizeToInt k := by
          unfold Socket.Write at hsw
          simp only at hsw
          split at hsw <;> (cases hsw; rfl)
        rw [hr]
        exact le_trans (sizeToInt_toNat_le k) hk
      | failed e =>
        have hr : ret = -1 := by
          unfold Socket.Write at hsw
          cases hsw; rfl
        omega
    rw [if_pos hle]
    exact ⟨_, rfl⟩
  · rw [if_neg h0]
    exact ⟨_, rfl⟩

theorem queueRemaining_total (l : SendLocals) (data : List Byte)
    (hinv : l.conn.output_buffer_.Inv) (hlen : l.nwrote + l.remaining = data.length) :
    ∃ c', queueRemaining l data = some c' := by
  by_cases hskip : l.fault_error = true ∨ l.remaining = 0
  · exact ⟨_, queueRemaining_skips l data hskip⟩
  · have hf : l.fault_error = false := by
      cases hfe : l.fault_error with
      | false => rfl
      | true => exact absurd (Or.inl hfe) hskip
    have hr : 0 < l.remaining := by
      rcases Nat.eq_zero_or_pos l.remaining with h0 | h0
      · exact absurd (Or.inr h0) hskip
      · exact h0
    obtain ⟨c', hq, -⟩ := queueRemaining_queues l data hinv hlen hf hr
    exact ⟨c', hq⟩

/-- With a socket outcome that respects the contract of `send` (at most `len` bytes
accepted) `sendInLoop` runs to its end. -/
theorem sendInLoop_total (c : TCPConnection) (data : List Byte) (res : SendResult)
    (hinv : c.output_buffer_.Inv)
    (hres : ∀ k, res = SendResult.accepted k → k ≤ data.length) :
    ∃ c', c.sendInLoop data res = some c' := by
  unfold sendInLoop
  by_cases hd : c.state_ = ConnState.kDisconnected
  · rw [if_pos hd]; exact ⟨_, rfl⟩
  · rw [if_neg hd]
    simp only
    by_cases hdir : (!c.HasRegisterWrite) = true ∧ c.output_buffer_.ReadableBytes = 0
    · rw [if_pos hdir]
      obtain ⟨l, hl⟩ := directWrite_total c data res hres
      obtain ⟨h1, -, -, -, -, h6, -⟩ := directWrite_locals c data res l hl
      rw [hl]
      exact queueRemaining_total l data (by rw [h1]; exact hinv) h6
    · rw [if_neg hdir]
      exact queueRemaining_total _ data hinv (by simp)

/-- Write-ready handling on a socket that accepts the whole output buffer. -/
theorem handleWrite_drains (c : TCPConnection)
    (hreg : c.HasRegisterWrite = true) (hpos : 0 < c.output_buffer_.ReadableBytes)
    (hlt : c.output_buffer_.ReadableBytes < 2 ^ 31) :
    ∃ c', c.handleWrite (SendResult.accepted c.output_buffer_.ReadableBytes) = some c' ∧
      c'.output_buffer_.Inv ∧ c'.output_buffer_.ReadableBytes = 0 ∧
      c'.loop_.pending_functors_ = c.loop_.pending_functors_ ++
        (if c.write_complete_callback_ = true then [PendingFunctor.write_complete] else []) ∧
      c'.state_ = c.state_ ∧ c'.high_water_mark_ = c.high_water_mark_ ∧
      c'.high_water_mark_callback_ = c.high_water_mark_callback_ ∧
      c'.write_complete_callback_ = c.write_complete_callback_ := by
  have hsw : c.socket_.Write c.errno c.output_buffer_.readable
      (SendResult.accepted c.output_buffer_.ReadableBytes)
      = ({ c.socket_ with wire := c.socket_.wire ++
            c.output_buffer_.readable.take c.output_buffer_.ReadableBytes },
          (c.output_buffer_.ReadableBytes : Int), c.errno) := by
    unfold Socket.Write
    simp only [sizeToInt_small _ hlt]
    rw [if_neg (by omega)]
  have hskip : c.output_buffer_.SkipReadBytes c.output_buffer_.ReadableBytes
      = some c.output_buffer_.SkipAll := by
    unfold SkipReadBytes
    rw [if_pos (le_refl _), if_neg (lt_irrefl _)]
  have h0 : c.output_buffer_.SkipAll.ReadableBytes = 0 := by
    simp [SkipAll, ReadableBytes]
  have hi : c.output_buffer_.SkipAll.Inv := by
    simp [SkipAll, ByteBuffer.Inv]
  have hsd : ∀ d : TCPConnection, d.shutdownInLoop.output_buffer_ = d.output_buffer_ ∧
      d.shutdownInLoop.loop_ = d.loop_ ∧ d.shutdownInLoop.state_ = d.state_ ∧
      d.shutdownInLoop.high_water_mark_ = d.high_water_mark_ ∧
      d.shutdownInLoop.high_water_mark_callback_ = d.high_water_mark_callback_ ∧
      d.shutdownInLoop.write_complete_callback_ = d.write_complete_callback_ := by
    intro d
    unfold shutdownInLoop
    split <;> exact ⟨rfl, rfl, rfl, rfl, rfl, rfl⟩
  unfold handleWrite
  rw [if_pos hreg, hsw]
  simp only [Int.toNat_ofNat, hskip, h0, if_true]
  rw [if_pos (by omega)]
  by_cases hwc : c.write_complete_callback_ = true
  · simp only [StopWrite, hwc, if_true, QueueInLoop, EventLoop.QueueInLoop]
    split
    · refine ⟨_, rfl, ?_, ?_, ?_, ?_, ?_, ?_, ?_⟩
      · rw [(hsd _).1]; exact hi
      · rw [(hsd _).1]; exact h0
      · rw [(hsd _).2.1]
      · rw [(hsd _).2.2.1]
      · rw [(hsd _).2.2.2.1]
      · rw [(hsd _).2.2.2.2.1]
      · rw [(hsd _).2.2.2.2.2]
    · exact ⟨_, rfl, hi, h0, rfl, rfl, rfl, rfl, rfl⟩
  · have hwc' : c.write_complete_callback_ = false := by simpa using hwc
    simp only [StopWrite, hwc', Bool.false_eq_true, if_false]
    split
    · refine ⟨_, rfl, ?_, ?_, ?_, ?_, ?_, ?_, ?_⟩
      · rw [(hsd _).1]; exact hi
      · rw [(hsd _).1]; exact h0
      · rw [(hsd _).2.1]; simp
      · rw [(hsd _).2.2.1]
      · rw [(hsd _).2.2.2.1]
      · rw [(hsd _).2.2.2.2.1]
      · rw [(hsd _).2.2.2.2.2]
    · exact ⟨_, rfl, hi, h0, by simp, rfl, rfl, rfl, rfl⟩

/-! ## Claim C10: the high-water-mark callback -/

/-- C10: the high-water-mark callback is edge-triggered. For a connection whose output
buffer satisfies the index invariant: `sendInLoop` runs to its end whenever the socket
accepts at most `len` bytes; a call that queues `r > 0` bytes onto an output buffer holding
`q` bytes appends to the pending functors exactly the high-water-mark callback with argument
`q + r` when `q < threshold ≤ q + r` and a callback is installed, and nothing otherwise; a
call made while `q ≥ threshold` never queues it. With threshold 100, a callback installed,
an empty output buffer and a socket that accepts nothing (`send` returns 0 or fails with
`EWOULDBLOCK`): sending 150 bytes queues it once with 150, sending 10 more queues nothing,
and after `handleWrite` has drained the 160 bytes, sending 150 queues it once more. -/
theorem high_water_mark_edge_triggered (c : TCPConnection) (hinv : c.output_buffer_.Inv) :
    (∀ (data : List Byte) (res : SendResult),
      (∀ k, res = SendResult.accepted k → k ≤ data.length) →
      ∃ c', c.sendInLoop data res = some c') ∧
    (∀ (data : List Byte) (res : SendResult) (c' : TCPConnection),
      c.sendInLoop data res = some c' →
      c.output_buffer_.ReadableBytes < c'.output_buffer_.ReadableBytes →
      c'.loop_.pending_functors_ = c.loop_.pending_functors_ ++
        (if c.output_buffer_.ReadableBytes < c.high_water_mark_ ∧
            c.high_water_mark_ ≤ c'.output_buffer_.ReadableBytes ∧
            c.high_water_mark_callback_ = true
          then [PendingFunctor.high_water_mark c'.output_buffer_.ReadableBytes] else [])) ∧
    (∀ (data : List Byte) (res : SendResult) (c' : TCPConnection),
      c.sendInLoop data res = some c' →
      c.high_water_mark_ ≤ c.output_buffer_.ReadableBytes →
      ∃ extra, c'.loop_.pending_functors_ = c.loop_.pending_functors_ ++ extra ∧
        ∀ n, PendingFunctor.high_water_mark n ∉ extra) ∧
    (c.state_ ≠ ConnState.kDisconnected → c.high_water_mark_ = 100 →
      c.high_water_mark_callback_ = true → c.output_buffer_.ReadableBytes = 0 →
      ∀ (refuse : SendResult) (d1 d2 d3 : List Byte),
        refuse = SendResult.accepted 0 ∨ refuse = SendResult.failed EWOULDBLOCK →
        d1.length = 150 → d2.length = 10 → d3.length = 150 →
        ∃ c1 c2 c3 c4, c.sendInLoop d1 refuse = some c1 ∧
          c1.loop_.pending_functors_
            = c.loop_.pending_functors_ ++ [PendingFunctor.high_water_mark 150] ∧
          c1.sendInLoop d2 refuse = some c2 ∧
          c2.loop_.pending_functors_ = c1.loop_.pending_functors_ ∧
          c2.handleWrite (SendResult.accepted 160) = some c3 ∧
          c3.output_buffer_.ReadableBytes = 0 ∧
          c3.sendInLoop d3 refuse = some c4 ∧
          c4.loop_.pending_functors_
            = c3.loop_.pending_functors_ ++ [PendingFunctor.high_water_mark 150]) := by
  refine ⟨fun data res hres => sendInLoop_total c data res hinv hres, ?_, ?_, ?_⟩
  · intro data res c' h hq
    obtain ⟨r, hr, hcase⟩ := sendInLoop_effect c c' data res hinv h
    rcases hcase with ⟨h0, -⟩ | ⟨hpos, hp⟩
    · omega
    · rw [hp, hr]
      by_cases hc : c.high_water_mark_ ≤ c.output_buffer_.ReadableBytes + r ∧
          c.output_buffer_.ReadableBytes < c.high_water_mark_ ∧
          c.high_water_mark_callback_ = true
      · rw [if_pos hc, if_pos ⟨hc.2.1, hc.1, hc.2.2⟩]
      · rw [if_neg hc, if_neg (fun hh => hc ⟨hh.2.1, hh.1, hh.2.2⟩)]
  · intro data res c' h hq
    obtain ⟨r, hr, hcase⟩ := sendInLoop_effect c c' data res hinv h
    rcases hcase with ⟨-, hp | hp⟩ | ⟨hpos, hp⟩
    · exact ⟨[], by rw [hp]; simp, fun n hn => by cases hn⟩
    · exact ⟨_, hp, fun n hn => by simp at hn⟩
    · refine ⟨[], ?_, fun n hn => by cases hn⟩
      rw [hp, if_neg (fun hh => by omega)]
  · intro hs hhw hcb hq0 refuse d1 d2 d3 href h1 h2 h3
    obtain ⟨c1, hs1, hi1, hq1, hp1, hreg1, hst1, hhw1, hcb1, -⟩ :=
      sendInLoop_refused c d1 refuse href hs hinv (by omega)
    obtain ⟨c2, hs2, hi2, hq2, hp2, hreg2, hst2, hhw2, hcb2, -⟩ :=
      sendInLoop_refused c1 d2 refuse href (by rw [hst1]; exact hs) hi1 (by omega)
    have hq2' : c2.output_buffer_.ReadableBytes = 160 := by omega
    obtain ⟨c3, hs3, hi3, hq3, -, hst3, hhw3, hcb3, -⟩ :=
      handleWrite_drains c2 hreg2 (by omega) (by rw [hq2']; norm_num)
    rw [hq2'] at hs3
    obtain ⟨c4, hs4, -, -, hp4, -⟩ :=
      sendInLoop_refused c3 d3 refuse href (by rw [hst3, hst2, hst1]; exact hs) hi3 (by omega)
    refine ⟨c1, c2, c3, c4, hs1, ?_, hs2, ?_, hs3, hq3, hs4, ?_⟩
    · rw [hp1, hq0, h1, hhw, hcb]; simp
    · rw [hp2, hq1, hq0, h1, h2, hhw1, hhw]; simp
    · rw [hp4, hq3, h3, hhw3, hhw2, hhw1, hhw, hcb3, hcb2, hcb1, hcb]; simp

/-- Witness of C10: the scenario on a connected sample connection with threshold 100 whose
socket fails every `send` with `EWOULDBLOCK`. -/
theorem high_water_mark_edge_triggered_witness :
    blocked.output_buffer_.Inv ∧
    ∃ c1 c2 c3 c4,
      blocked.sendInLoop (List.replicate 150 1) (SendResult.failed EWOULDBLOCK) = some c1 ∧
      c1.loop_.pending_functors_
        = blocked.loop_.pending_functors_ ++ [PendingFunctor.high_water_mark 150] ∧
      c1.sendInLoop (List.replicate 10 2) (SendResult.failed EWOULDBLOCK) = some c2 ∧
      c2.loop_.pending_functors_ = c1.loop_.pending_functors_ ∧
      c2.handleWrite (SendResult.accepted 160) = some c3 ∧
      c3.output_buffer_.ReadableBytes = 0 ∧
      c3.sendInLoop (List.replicate 150 3) (SendResult.failed EWOULDBLOCK) = some c4 ∧
      c4.loop_.pending_functors_
        = c3.loop_.pending_functors_ ++ [PendingFunctor.high_water_mark 150] :=
  ⟨by decide,
    (high_water_mark_edge_triggered blocked (by decide)).2.2.2 (by decide) rfl rfl rfl
      (SendResult.failed EWOULDBLOCK) (List.replicate 150 1) (List.replicate 10 2)
      (List.replicate 150 3) (Or.inr rfl) (List.length_replicate _ _)
      (List.length_replicate _ _) (List.length_replicate _ _)⟩

end TCPConnection
end raner

namespace raner
namespace Socket

/-- C20: what `Socket::Write` does when `send` fails with `EWOULDBLOCK`/`EAGAIN`. On an open
socket it returns `-1`, as the claim says, but through `setSocketError()` it sets the error
flag and closes the descriptor: afterwards `has_error()` is true, `fd_` is `-1` and
`IsClosed()` is true, the opposite of what the claim states. -/
theorem Write_would_block_closes (s : Socket) (errno : Int) (buffer : List Byte)
    (hopen : s.IsClosed = false) :
    ∃ s', s.Write errno buffer (SendResult.failed EWOULDBLOCK) = (s', -1, EWOULDBLOCK) ∧
      s'.socket_error_ = true ∧ s'.fd_ = -1 ∧ s'.fd_ ≠ s.fd_ ∧ s'.IsClosed = true ∧
      s'.wire = s.wire := by
  have hfd : ¬ s.fd_ < 0 := by simpa [IsClosed] using hopen
  refine ⟨s.setSocketError, rfl, ?_, ?_, ?_, ?_, ?_⟩ <;>
    simp [setSocketError, Close, IsClosed, hfd]
  omega

/-- Witness of C20: an open socket with descriptor 5 and a clear error flag. -/
theorem Write_would_block_closes_witness :
    (⟨5, false, [], 0⟩ : Socket).IsClosed = false ∧
    ∃ s', (⟨5, false, [], 0⟩ : Socket).Write 0 [1, 2, 3] (SendResult.failed EWOULDBLOCK)
        = (s', -1, EWOULDBLOCK) ∧
      s'.socket_error_ = true ∧ s'.fd_ = -1 ∧ s'.fd_ ≠ (⟨5, false, [], 0⟩ : Socket).fd_ ∧
      s'.IsClosed = true ∧ s'.wire = (⟨5, false, [], 0⟩ : Socket).wire :=
  ⟨by decide, Write_would_block_closes ⟨5, false, [], 0⟩ 0 [1, 2, 3] (by decide)⟩

end Socket
end raner

namespace raner
namespace TCPConnection

/-! ## Lemmas about the life cycle of a connection -/

/-- The close sequence spelled out. -/
theorem handleClose_eq (c : TCPConnection)
    (hs : c.state_ = ConnState.kConnected ∨ c.state_ = ConnState.kDisconnecting) :
    c.handleClose = some
      { c with state_ := ConnState.kDisconnected,
               loop_ := { c.loop_ with
                 epoll_server_ := c.loop_.epoll_server_.UnregisterFD c.socket_.fd_ },
               calls := c.calls ++ [UserCall.connection false, UserCall.close] } := by
  unfold handleClose
  rw [if_pos hs]
  simp [setState, UnregisterFD, connection_callback_, close_callback_, Connected]

theorem UnregisterFD_not_registered (e : EpollServer) (fd : Int) :
    (e.UnregisterFD fd).IsRegistered fd = false ∧
    (e.UnregisterFD fd).HasRegisterWrite fd = false := by
  simp [EpollServer.UnregisterFD, EpollServer.IsRegistered, EpollServer.HasRegisterWrite]

/-- A read of zero bytes leaves the buffer as it is and returns 0. -/
theorem ReadFD_zero (b : ByteBuffer) (hinv : b.Inv) (save_errno : Int) :
    b.ReadFD (ByteBuffer.ReadvResult.data []) save_errno
      = some { buf := b, ret := 0, save_errno := save_errno } := by
  obtain ⟨pre, mid, post, rfl⟩ := ByteBuffer.exists_layout b hinv
  obtain ⟨pre', post', h, hp⟩ :=
    ByteBuffer.ReadFD_layout pre mid post [] save_errno (Nat.zero_le _)
  obtain ⟨rfl, rfl⟩ := hp (Nat.zero_le _)
  rw [h]
  simp

/-- The close sequence in terms of `socket_->fd()`. On a connection in state Connected or
Disconnecting, whatever fd its socket holds,
`handleClose` returns (its assertion holds) with the state Disconnected, the fd no longer
registered with the multiplexer (and without write interest), and exactly two more callback
calls than before, in this order: the connection callback, during which `Connected()` is
false, and last the close callback; nothing else of the connection changes. A read that
returns 0 (`handleRead`, with an input buffer satisfying the index invariant) and a forced
close run in the loop (`forceCloseInLoop`) do exactly this. -/
theorem close_sequence (c : TCPConnection)
    (hs : c.state_ = ConnState.kConnected ∨ c.state_ = ConnState.kDisconnecting) :
    ∃ c', c.handleClose = some c' ∧
      c'.state_ = ConnState.kDisconnected ∧
      c'.loop_.epoll_server_.IsRegistered c.socket_.fd_ = false ∧
      c'.HasRegisterWrite = false ∧
      c'.calls = c.calls ++ [UserCall.connection false, UserCall.close] ∧
      c'.socket_ = c.socket_ ∧ c'.output_buffer_ = c.output_buffer_ ∧
      c'.input_buffer_ = c.input_buffer_ ∧
      c'.loop_.pending_functors_ = c.loop_.pending_functors_ ∧
      c'.half_closes = c.half_closes ∧
      c.forceCloseInLoop = some c' ∧
      (c.input_buffer_.Inv → c.handleRead (ByteBuffer.ReadvResult.data []) = some c') := by
  refine ⟨_, handleClose_eq c hs, rfl, (UnregisterFD_not_registered _ _).1,
    (UnregisterFD_not_registered _ _).2, rfl, rfl, rfl, rfl, rfl, rfl, ?_, ?_⟩
  · unfold forceCloseInLoop
    rw [if_pos hs]
    exact handleClose_eq c hs
  · intro hinv
    unfold handleRead
    simp only [ReadFD_zero _ hinv]
    simp only [lt_self_iff_false, if_false, if_true]
    exact handleClose_eq c hs

/-- The close sequence on the sample connection, which is Connected on an open socket. -/
theorem close_sequence_witness :
    (blocked.state_ = ConnState.kConnected ∨ blocked.state_ = ConnState.kDisconnecting) ∧
    ∃ c', blocked.handleClose = some c' ∧
      c'.state_ = ConnState.kDisconnected ∧
      c'.loop_.epoll_server_.IsRegistered blocked.socket_.fd_ = false ∧
      c'.HasRegisterWrite = false ∧
      c'.calls = blocked.calls ++ [UserCall.connection false, UserCall.close] ∧
      c'.socket_ = blocked.socket_ ∧ c'.output_buffer_ = blocked.output_buffer_ ∧
      c'.input_buffer_ = blocked.input_buffer_ ∧
      c'.loop_.pending_functors_ = blocked.loop_.pending_functors_ ∧
      c'.half_closes = blocked.half_closes ∧
      blocked.forceCloseInLoop = some c' ∧
      (blocked.input_buffer_.Inv →
        blocked.handleRead (ByteBuffer.ReadvResult.data []) = some c') :=
  ⟨Or.inl rfl, close_sequence blocked (Or.inl rfl)⟩

/-- The cases of `ConnectDestroyed`, in terms of `socket_->fd()`: it acts only in state
Connected. In state Connected it sets the
state to Disconnected, unregisters the fd and calls the connection callback exactly once
(which sees the connection as not connected), and changes nothing else; in every other
state it returns the connection unchanged, so no callback runs. Hence it is idempotent, and
after `handleClose` a later `ConnectDestroyed` changes nothing: the calls stay those of the
close sequence. -/
theorem ConnectDestroyed_only_when_connected (c : TCPConnection) :
    (c.state_ = ConnState.kConnected →
      c.ConnectDestroyed.state_ = ConnState.kDisconnected ∧
      c.ConnectDestroyed.loop_.epoll_server_.IsRegistered c.socket_.fd_ = false ∧
      c.ConnectDestroyed.calls = c.calls ++ [UserCall.connection false] ∧
      c.ConnectDestroyed =
        { c with state_ := ConnState.kDisconnected,
                 loop_ := { c.loop_ with
                   epoll_server_ := c.loop_.epoll_server_.UnregisterFD c.socket_.fd_ },
                 calls := c.calls ++ [UserCall.connection false] }) ∧
    (c.state_ ≠ ConnState.kConnected → c.ConnectDestroyed = c) ∧
    c.ConnectDestroyed.ConnectDestroyed = c.ConnectDestroyed ∧
    (∀ c', c.handleClose = some c' →
      c'.ConnectDestroyed = c' ∧
      c'.ConnectDestroyed.calls = c.calls ++ [UserCall.connection false, UserCall.close]) := by
  have hne : ∀ d : TCPConnection, d.state_ ≠ ConnState.kConnected → d.ConnectDestroyed = d := by
    intro d hd
    unfold ConnectDestroyed
    rw [if_neg hd]
  have hcon : c.state_ = ConnState.kConnected → c.ConnectDestroyed =
      { c with state_ := ConnState.kDisconnected,
               loop_ := { c.loop_ with
                 epoll_server_ := c.loop_.epoll_server_.UnregisterFD c.socket_.fd_ },
               calls := c.calls ++ [UserCall.connection false] } := by
    intro hs
    unfold ConnectDestroyed
    rw [if_pos hs]
    simp [setState, UnregisterFD, connection_callback_, Connected]
  refine ⟨fun hs => ?_, hne c, ?_, ?_⟩
  · rw [hcon hs]
    exact ⟨rfl, (UnregisterFD_not_registered _ _).1, rfl, rfl⟩
  · by_cases hs : c.state_ = ConnState.kConnected
    · apply hne
      rw [hcon hs]
      simp
    · rw [hne c hs, hne c hs]
  · intro c' h
    have hs : c.state_ = ConnState.kConnected ∨ c.state_ = ConnState.kDisconnecting := by
      unfold handleClose at h
      by_contra hn
      rw [if_neg hn] at h
      cases h
    rw [handleClose_eq c hs] at h
    cases h
    exact ⟨hne _ (by simp), by rw [hne _ (by simp)]⟩

end TCPConnection
end raner

namespace raner
namespace TCPConnection
open ByteBuffer

/-! ## The direct write of `sendInLoop`, outcome by outcome -/

theorem Write_accepted (s : Socket) (errno : Int) (buffer : List Byte) (k : Nat)
    (hk : k < 2 ^ 31) :
    s.Write errno buffer (SendResult.accepted k)
      = ({ s with wire := s.wire ++ buffer.take k }, (k : Int), errno) := by
  unfold Socket.Write
  simp only [sizeToInt_small k hk]
  rw [if_neg (by omega)]

/-- The direct write when the socket accepts `k` bytes of the message. -/
theorem directWrite_accepted (c : TCPConnection) (data : List Byte) (k : Nat)
    (hk : k < 2 ^ 31) (hle : k ≤ data.length) :
    directWrite c data (SendResult.accepted k) = some
      { conn :=
          if data.length - k = 0 ∧ c.write_complete_callback_ = true then
            ({ c with socket_ := { c.socket_ with wire := c.socket_.wire ++ data.take k } }
              : TCPConnection).QueueInLoop PendingFunctor.write_complete
          else { c with socket_ := { c.socket_ with wire := c.socket_.wire ++ data.take k } },
        nwrote := k, remaining := data.length - k, fault_error := false } := by
  unfold directWrite
  simp only [Write_accepted _ _ _ k hk]
  rw [if_pos (by omega), if_pos (by simpa using hle)]
  simp

/-- The direct write when `send` fails with `errno = e`. -/
theorem directWrite_failed (c : TCPConnection) (data : List Byte) (e : Int) :
    directWrite c data (SendResult.failed e) = some
      { conn := { c with socket_ := c.socket_.setSocketError, errno := e },
        nwrote := 0, remaining := data.length,
        fault_error := if e ≠ EWOULDBLOCK then
            if e = EPIPE ∨ e = ECONNRESET then true else false
          else false } := by
  unfold directWrite
  simp [Socket.Write]

/-- `sendInLoop` on a connection that is not Disconnected, has no write interest and an
empty output buffer: the direct write followed by the queueing block. -/
theorem sendInLoop_direct (c : TCPConnection) (data : List Byte) (res : SendResult)
    (hs : c.state_ ≠ ConnState.kDisconnected) (hreg : c.HasRegisterWrite = false)
    (hempty : c.output_buffer_.ReadableBytes = 0) :
    c.sendInLoop data res =
      match directWrite c data res with
      | some l => queueRemaining l data
      | none => none := by
  unfold sendInLoop
  simp only [if_neg hs]
  rw [if_pos ⟨by simp [hreg], hempty⟩]

/-- `sendInLoop` when a write is pending or the output buffer holds data: the whole message
goes through the queueing block. -/
theorem sendInLoop_queued (c : TCPConnection) (data : List Byte) (res : SendResult)
    (hs : c.state_ ≠ ConnState.kDisconnected)
    (h : ¬ (c.HasRegisterWrite = false ∧ c.output_buffer_.ReadableBytes = 0)) :
    c.sendInLoop data res =
      queueRemaining { conn := c, nwrote := 0, remaining := data.length, fault_error := false }
        data := by
  unfold sendInLoop
  simp only [if_neg hs]
  rw [if_neg (by simpa using h)]

theorem readable_nil_of_empty (b : ByteBuffer) (hb : b.Inv) (h : b.ReadableBytes = 0) :
    b.readable = [] := by
  have := readable_length b hb
  rw [h] at this
  exact List.length_eq_zero.mp this

end TCPConnection
end raner

namespace raner
namespace TCPConnection
open ByteBuffer

theorem setSocketError_closed (s : Socket) :
    s.setSocketError.socket_error_ = true ∧ s.setSocketError.IsClosed = true ∧
    s.setSocketError.wire = s.wire ∧ s.setSocketError.wr_shutdowns = s.wr_shutdowns := by
  unfold Socket.setSocketError Socket.Close
  by_cases h : s.fd_ < 0
  · simp [Socket.IsClosed, h]
  · simp [Socket.IsClosed, h]

/-- Queueing a functor touches only the pending functors. -/
theorem QueueInLoop_frame (d : TCPConnection) (cb : PendingFunctor) :
    (d.QueueInLoop cb).output_buffer_ = d.output_buffer_ ∧
    (d.QueueInLoop cb).loop_.epoll_server_ = d.loop_.epoll_server_ ∧
    (d.QueueInLoop cb).state_ = d.state_ ∧ (d.QueueInLoop cb).calls = d.calls ∧
    (d.QueueInLoop cb).socket_ = d.socket_ ∧
    (d.QueueInLoop cb).half_closes = d.half_closes ∧
    (d.QueueInLoop cb).HasRegisterWrite = d.HasRegisterWrite ∧
    (d.QueueInLoop cb).loop_.pending_functors_ = d.loop_.pending_functors_ ++ [cb] :=
  ⟨rfl, rfl, rfl, rfl, rfl, rfl, rfl, rfl⟩

/-- The queueing block leaves the state, the socket and the ghost fields alone. -/
theorem queueRemaining_frame (l : SendLocals) (data : List Byte) (c' : TCPConnection)
    (h : queueRemaining l data = some c') :
    c'.state_ = l.conn.state_ ∧ c'.calls = l.conn.calls ∧ c'.socket_ = l.conn.socket_ ∧
    c'.half_closes = l.conn.half_closes ∧ c'.input_buffer_ = l.conn.input_buffer_ := by
  unfold queueRemaining at h
  by_cases h1 : (!l.fault_error) = true ∧ 0 < l.remaining
  · rw [if_pos h1] at h
    by_cases hc : l.conn.high_water_mark_ ≤ l.conn.output_buffer_.ReadableBytes + l.remaining ∧
        l.conn.output_buffer_.ReadableBytes < l.conn.high_water_mark_ ∧
        l.conn.high_water_mark_callback_ = true
    · simp only [if_pos hc] at h
      split at h
      · split at h <;> (cases h; exact ⟨rfl, rfl, rfl, rfl, rfl⟩)
      · cases h
    · simp only [if_neg hc] at h
      split at h
      · split at h <;> (cases h; exact ⟨rfl, rfl, rfl, rfl, rfl⟩)
      · cases h
  · rw [if_neg h1] at h
    cases h
    exact ⟨rfl, rfl, rfl, rfl, rfl⟩

/-- The send fast path, outcome by outcome. Let `sendInLoop(data, len)` run on a connection
that is not
Disconnected, has no write interest registered and an empty output buffer (satisfying the
index invariant), and let the socket accept `k ≤ len` bytes (`k < 2^31`, the most one `send`
transfers), or let `send` fail with `EWOULDBLOCK`/`EAGAIN`, taken as `k = 0`. Then the call
returns, the output buffer holds exactly `data[k..len)`, write interest is registered when
`k < len` (`HasRegisterWrite(socket_->fd())` holds afterwards) and the multiplexer is left
untouched when `k = len`, the connection state is unchanged and no callback is called. The
socket has taken `data[0..k)`; after an accepted write its fd and error flag are unchanged,
after `EWOULDBLOCK` it is the socket `Socket::Write` leaves behind. -/
theorem send_fast_path (c : TCPConnection) (data : List Byte) (res : SendResult) (k : Nat)
    (hs : c.state_ ≠ ConnState.kDisconnected) (hreg : c.HasRegisterWrite = false)
    (hempty : c.output_buffer_.ReadableBytes = 0) (hinv : c.output_buffer_.Inv)
    (hres : (res = SendResult.accepted k ∧ k ≤ data.length ∧ k < 2 ^ 31) ∨
            (res = SendResult.failed EWOULDBLOCK ∧ k = 0)) :
    ∃ c', c.sendInLoop data res = some c' ∧
      c'.output_buffer_.Inv ∧ c'.output_buffer_.readable = data.drop k ∧
      (k < data.length → c'.HasRegisterWrite = true) ∧
      (¬ k < data.length → c'.loop_.epoll_server_ = c.loop_.epoll_server_) ∧
      (res = SendResult.accepted k → (c'.HasRegisterWrite = true ↔ k < data.length)) ∧
      c'.state_ = c.state_ ∧ c'.calls = c.calls ∧
      c'.socket_.wire = c.socket_.wire ++ data.take k ∧
      (res = SendResult.accepted k → c'.socket_.fd_ = c.socket_.fd_ ∧
        c'.socket_.socket_error_ = c.socket_.socket_error_) ∧
      (res = SendResult.failed EWOULDBLOCK → c'.socket_ = c.socket_.setSocketError) := by
  have hrd := readable_nil_of_empty _ hinv hempty
  rw [sendInLoop_direct c data res hs hreg hempty]
  rcases hres with ⟨rfl, hle, hk⟩ | ⟨rfl, rfl⟩
  · rw [directWrite_accepted c data k hk hle]
    simp only
    by_cases hlt : k < data.length
    · have h0 : ¬ (data.length - k = 0 ∧ c.write_complete_callback_ = true) := by omega
      rw [if_neg h0]
      obtain ⟨c', hq, hi, hr, -, hw, -⟩ :=
        queueRemaining_queues
          { conn := { c with socket_ := { c.socket_ with wire := c.socket_.wire ++ data.take k } },
            nwrote := k, remaining := data.length - k, fault_error := false } data
          hinv (by simp; omega) rfl (by simp; omega)
      obtain ⟨hst, hcalls, hsock, -⟩ := queueRemaining_frame _ _ _ hq
      refine ⟨c', hq, hi, ?_, fun _ => hw, fun h => absurd hlt h,
        fun _ => ⟨fun _ => hlt, fun _ => hw⟩, hst, hcalls, ?_, fun _ => ?_,
        fun h => by cases h⟩
      · rw [hr]; simp [hrd]
      · rw [hsock]
      · rw [hsock]; exact ⟨rfl, rfl⟩
    · have hkl : k = data.length := by omega
      rw [queueRemaining_skips _ _ (Or.inr (by simp; omega))]
      refine ⟨_, rfl, ?_⟩
      split
      · refine ⟨hinv, ?_, fun h => absurd h hlt, fun _ => rfl, fun _ => ?_, rfl, rfl, rfl,
          fun _ => ⟨rfl, rfl⟩, fun h => by cases h⟩
        · show c.output_buffer_.readable = _
          rw [hrd, hkl]; simp
        · show c.HasRegisterWrite = true ↔ _
          rw [hreg]; simp [hlt]
      · refine ⟨hinv, ?_, fun h => absurd h hlt, fun _ => rfl, fun _ => ?_, rfl, rfl, rfl,
          fun _ => ⟨rfl, rfl⟩, fun h => by cases h⟩
        · show c.output_buffer_.readable = _
          rw [hrd, hkl]; simp
        · show c.HasRegisterWrite = true ↔ _
          rw [hreg]; simp [hlt]
  · rw [directWrite_failed c data EWOULDBLOCK]
    simp only [ne_eq, not_true_eq_false, if_false]
    by_cases hlt : 0 < data.length
    · obtain ⟨c', hq, hi, hr, -, hw, -⟩ :=
        queueRemaining_queues
          { conn := { c with socket_ := c.socket_.setSocketError, errno := EWOULDBLOCK },
            nwrote := 0, remaining := data.length, fault_error := false } data
          hinv (by simp) rfl hlt
      obtain ⟨hst, hcalls, hsock, -⟩ := queueRemaining_frame _ _ _ hq
      refine ⟨c', hq, hi, ?_, fun _ => hw, fun h => absurd hlt h,
        (fun h => by cases h), hst, hcalls, ?_, (fun h => by cases h), fun _ => hsock⟩
      · rw [hr]; simp [hrd]
      · rw [hsock]; simp [(setSocketError_closed c.socket_).2.2.1]
    · rw [queueRemaining_skips _ _ (Or.inr (by simpa using hlt))]
      refine ⟨_, rfl, hinv, ?_, fun h => absurd h hlt, fun _ => rfl, (fun h => by cases h),
        rfl, rfl, ?_, (fun h => by cases h), fun _ => rfl⟩
      · show c.output_buffer_.readable = _
        rw [hrd]; simp at hlt; simp [hlt]
      · simp [(setSocketError_closed c.socket_).2.2.1]

/-- The send fast path on the sample connection: three bytes, of which the socket accepts
two. -/
theorem send_fast_path_witness :
    blocked.state_ ≠ ConnState.kDisconnected ∧ blocked.HasRegisterWrite = false ∧
    blocked.output_buffer_.ReadableBytes = 0 ∧ blocked.output_buffer_.Inv ∧
    ∃ c', blocked.sendInLoop [1, 2, 3] (SendResult.accepted 2) = some c' ∧
      c'.output_buffer_.readable = [3] ∧ c'.HasRegisterWrite = true ∧
      c'.state_ = ConnState.kConnected ∧ c'.socket_.wire = [1, 2] :=
  ⟨by decide, rfl, rfl, by decide,
    match send_fast_path blocked [1, 2, 3] (SendResult.accepted 2) 2 (by decide) rfl rfl
      (by decide) (Or.inl ⟨rfl, by decide, by norm_num⟩) with
    | ⟨c', h1, _, h2, h3, _, _, h4, _, h5, _⟩ => ⟨c', h1, h2, h3 (by decide), h4, h5⟩⟩

/-- Counterexample to C12: the sample connection, Connected with an empty output buffer and
no write interest, sends three bytes and `send` fails with `EPIPE`. After `sendInLoop` the
state is still Connected, no callback has been called (the calls are those made before) and
no functor is queued. -/
theorem fatal_write_error_stays_connected :
    ∃ c', blocked.sendInLoop [1, 2, 3] (SendResult.failed EPIPE) = some c' ∧
      c'.state_ = ConnState.kConnected ∧ c'.state_ ≠ ConnState.kDisconnected ∧
      c'.calls = blocked.calls ∧ UserCall.close ∉ c'.calls ∧
      UserCall.connection false ∉ c'.calls ∧ c'.loop_.pending_functors_ = [] :=
  ⟨_, rfl, rfl, by decide, rfl, by decide, by decide, rfl⟩

/-- C12 (amended): a fatal write error in the direct write of `sendInLoop`. When the
connection is not Disconnected, has no write interest and an empty output buffer, and
`send` fails with `EPIPE` or `ECONNRESET`, the call returns with nothing queued (the output
buffer is unchanged, hence empty), with the loop untouched (no write interest registered, no
functor queued), and it does not close the connection: the state is unchanged and no
callback is called. Only the socket changes: `Socket::Write` has set its error flag and
closed its fd. -/
theorem fatal_write_error_not_queued (c : TCPConnection) (data : List Byte) (e : Int)
    (hs : c.state_ ≠ ConnState.kDisconnected) (hreg : c.HasRegisterWrite = false)
    (hempty : c.output_buffer_.ReadableBytes = 0) (he : e = EPIPE ∨ e = ECONNRESET) :
    ∃ c', c.sendInLoop data (SendResult.failed e) = some c' ∧
      c'.output_buffer_ = c.output_buffer_ ∧ c'.output_buffer_.ReadableBytes = 0 ∧
      c'.loop_ = c.loop_ ∧ c'.state_ = c.state_ ∧ c'.calls = c.calls ∧
      c'.socket_ = c.socket_.setSocketError ∧ c'.socket_.socket_error_ = true ∧
      c'.socket_.IsClosed = true ∧ c'.errno = e := by
  have hfe : (if e ≠ EWOULDBLOCK then if e = EPIPE ∨ e = ECONNRESET then true else false
      else false) = true := by
    have hne : e ≠ EWOULDBLOCK := by
      rcases he with rfl | rfl <;> decide
    rw [if_pos hne, if_pos he]
  rw [sendInLoop_direct c data _ hs hreg hempty, directWrite_failed c data e]
  simp only
  rw [queueRemaining_skips _ _ (Or.inl hfe)]
  exact ⟨_, rfl, rfl, hempty, rfl, rfl, rfl, rfl, (setSocketError_closed _).1,
    (setSocketError_closed _).2.1, rfl⟩

/-- Witness of C12 (amended): the sample connection and `ECONNRESET`. -/
theorem fatal_write_error_not_queued_witness :
    blocked.state_ ≠ ConnState.kDisconnected ∧ blocked.HasRegisterWrite = false ∧
    blocked.output_buffer_.ReadableBytes = 0 ∧
    ∃ c', blocked.sendInLoop [1, 2, 3] (SendResult.failed ECONNRESET) = some c' ∧
      c'.output_buffer_ = blocked.output_buffer_ ∧ c'.output_buffer_.ReadableBytes = 0 ∧
      c'.loop_ = blocked.loop_ ∧ c'.state_ = blocked.state_ ∧ c'.calls = blocked.calls ∧
      c'.socket_ = blocked.socket_.setSocketError ∧ c'.socket_.socket_error_ = true ∧
      c'.socket_.IsClosed = true ∧ c'.errno = ECONNRESET :=
  ⟨by decide, rfl, rfl,
    fatal_write_error_not_queued blocked [1, 2, 3] ECONNRESET (by decide) rfl rfl
      (Or.inr rfl)⟩

end TCPConnection
end raner

namespace raner
namespace TCPConnection
open ByteBuffer

/-- `shutdownInLoop` touches only the socket and the record of half-closes. -/
theorem shutdownInLoop_frame (d : TCPConnection) :
    d.shutdownInLoop.output_buffer_ = d.output_buffer_ ∧
    d.shutdownInLoop.loop_ = d.loop_ ∧ d.shutdownInLoop.state_ = d.state_ ∧
    d.shutdownInLoop.calls = d.calls ∧
    d.shutdownInLoop.socket_.fd_ = d.socket_.fd_ ∧
    d.shutdownInLoop.input_buffer_ = d.input_buffer_ := by
  unfold shutdownInLoop
  split
  · refine ⟨rfl, rfl, rfl, rfl, ?_, rfl⟩
    simp only [Socket.ShutdownWrite]
    split <;> rfl
  · exact ⟨rfl, rfl, rfl, rfl, rfl, rfl⟩

/-- What `handleWrite` queues: the write-complete functor, exactly when a callback is
installed and the call empties a non-empty output buffer. -/
theorem handleWrite_pending (c c' : TCPConnection) (res : SendResult)
    (h : c.handleWrite res = some c') :
    c'.loop_.pending_functors_ = c.loop_.pending_functors_ ++
      (if c.write_complete_callback_ = true ∧ 0 < c.output_buffer_.ReadableBytes ∧
          c'.output_buffer_.ReadableBytes = 0
        then [PendingFunctor.write_complete] else []) := by
  have hfin : ∀ d c' : TCPConnection,
      (if d.state_ = ConnState.kDisconnecting then some d.shutdownInLoop else some d)
        = some c' →
      c'.loop_ = d.loop_ ∧ c'.output_buffer_ = d.output_buffer_ := by
    intro d c' hd
    split at hd
    · cases hd
      exact ⟨(shutdownInLoop_frame d).2.1, (shutdownInLoop_frame d).1⟩
    · cases hd
      exact ⟨rfl, rfl⟩
  have hq : ∀ d : TCPConnection,
      (if d.write_complete_callback_ = true then d.QueueInLoop PendingFunctor.write_complete
        else d).loop_.pending_functors_ = d.loop_.pending_functors_ ++
          (if d.write_complete_callback_ = true then [PendingFunctor.write_complete] else []) ∧
      (if d.write_complete_callback_ = true then d.QueueInLoop PendingFunctor.write_complete
        else d).output_buffer_ = d.output_buffer_ := by
    intro d
    split
    · exact ⟨rfl, rfl⟩
    · exact ⟨by simp, rfl⟩
  unfold handleWrite at h
  by_cases hreg : c.HasRegisterWrite = true
  · rw [if_pos hreg] at h
    rcases hsw : c.socket_.Write c.errno c.output_buffer_.readable res with ⟨sock, n, errno⟩
    rw [hsw] at h
    simp only at h
    by_cases hn : 0 < n
    · rw [if_pos hn] at h
      cases hskip : c.output_buffer_.SkipReadBytes n.toNat with
      | none => rw [hskip] at h; cases h
      | some ob =>
        rw [hskip] at h
        simp only at h
        have hle : n.toNat ≤ c.output_buffer_.ReadableBytes := by
          unfold SkipReadBytes at hskip
          by_contra hc
          rw [if_neg hc] at hskip
          cases hskip
        have hpos : 0 < c.output_buffer_.ReadableBytes := by omega
        by_cases h0 : ob.ReadableBytes = 0
        · rw [if_pos h0] at h
          obtain ⟨hl, hob⟩ := hfin _ _ h
          obtain ⟨hp, hob2⟩ :=
            hq (StopWrite { c with socket_ := sock, errno := errno, output_buffer_ := ob })
          rw [hl, hob, hp, hob2]
          show c.loop_.pending_functors_ ++
            (if c.write_complete_callback_ = true then [PendingFunctor.write_complete] else [])
            = _
          by_cases hwc : c.write_complete_callback_ = true
          · rw [if_pos hwc, if_pos ⟨hwc, hpos, h0⟩]
          · rw [if_neg hwc, if_neg (fun hh => hwc hh.1)]
        · rw [if_neg h0] at h
          cases h
          rw [if_neg (fun hh => h0 hh.2.2)]
          simp
    · rw [if_neg hn] at h
      cases h
      rw [if_neg (fun hh => by have := hh.2; simp only at this; omega)]
      simp
  · rw [if_neg hreg] at h
    cases h
    rw [if_neg (fun hh => by omega)]
    simp

/-- With a socket outcome that respects the contract of `send` (at most the offered bytes
accepted) `handleWrite` runs to its end. -/
theorem handleWrite_total (c : TCPConnection) (res : SendResult)
    (hres : ∀ k, res = SendResult.accepted k → k ≤ c.output_buffer_.ReadableBytes) :
    ∃ c', c.handleWrite res = some c' := by
  unfold handleWrite
  by_cases hreg : c.HasRegisterWrite = true
  · rw [if_pos hreg]
    rcases hsw : c.socket_.Write c.errno c.output_buffer_.readable res with ⟨sock, n, errno⟩
    simp only
    by_cases hn : 0 < n
    · rw [if_pos hn]
      have hle : n.toNat ≤ c.output_buffer_.ReadableBytes := by
        cases res with
        | accepted k =>
          have hr : n = ByteBuffer.sizeToInt k := by
            unfold Socket.Write at hsw
            simp only at hsw
            split at hsw <;> (cases hsw; rfl)
          rw [hr]
          exact le_trans (sizeToInt_toNat_le k) (hres k rfl)
        | failed e =>
          have hr : n = -1 := by
            unfold Socket.Write at hsw
            cases hsw; rfl
          omega
      have hsk : ∃ ob, c.output_buffer_.SkipReadBytes n.toNat = some ob := by
        unfold SkipReadBytes
        rw [if_pos hle]
        split <;> exact ⟨_, rfl⟩
      obtain ⟨ob, hob⟩ := hsk
      simp only [hob]
      split <;> (try split) <;> (try split) <;> exact ⟨_, rfl⟩
    · rw [if_neg hn]
      exact ⟨_, rfl⟩
  · rw [if_neg hreg]
    exact ⟨_, rfl⟩

theorem count_high_water_mark (p : Prop) [Decidable p] (n : Nat) :
    (if p then [PendingFunctor.high_water_mark n] else []).count
      PendingFunctor.write_complete = 0 ∧
    PendingFunctor.write_complete ∉ (if p then [PendingFunctor.high_water_mark n] else []) := by
  split <;> simp

/-- What `sendInLoop` queues of the write-complete functor: one, exactly when the direct
write is attempted, the socket accepts the whole message and a callback is installed; the
output buffer is then empty before and after. -/
theorem sendInLoop_write_complete (c c' : TCPConnection) (data : List Byte)
    (res : SendResult) (hinv : c.output_buffer_.Inv)
    (hres : ∀ k, res = SendResult.accepted k → k < 2 ^ 31)
    (h : c.sendInLoop data res = some c') :
    ∃ extra, c'.loop_.pending_functors_ = c.loop_.pending_functors_ ++ extra ∧
      extra.count PendingFunctor.write_complete =
        (if c.state_ ≠ ConnState.kDisconnected ∧ c.HasRegisterWrite = false ∧
            c.output_buffer_.ReadableBytes = 0 ∧ res = SendResult.accepted data.length ∧
            c.write_complete_callback_ = true then 1 else 0) ∧
      (PendingFunctor.write_complete ∈ extra →
        c.output_buffer_.ReadableBytes = 0 ∧ c'.output_buffer_.ReadableBytes = 0) := by
  by_cases hs : c.state_ = ConnState.kDisconnected
  · unfold sendInLoop at h
    simp only [if_pos hs] at h
    cases h
    exact ⟨[], by simp, by rw [if_neg (fun hh => hh.1 hs)]; rfl, fun hm => by cases hm⟩
  -- the queueing block, when the direct write has queued nothing
  have key : ∀ l : SendLocals, l.conn.output_buffer_ = c.output_buffer_ →
      l.conn.loop_.pending_functors_ = c.loop_.pending_functors_ →
      l.nwrote + l.remaining = data.length →
      queueRemaining l data = some c' →
      ∃ extra, c'.loop_.pending_functors_ = c.loop_.pending_functors_ ++ extra ∧
        extra.count PendingFunctor.write_complete = 0 ∧
        PendingFunctor.write_complete ∉ extra := by
    intro l hob hpend hlen hq
    by_cases hskip : l.fault_error = true ∨ l.remaining = 0
    · rw [queueRemaining_skips l data hskip] at hq
      cases hq
      exact ⟨[], by rw [hpend]; simp, rfl, fun hm => by cases hm⟩
    · have hf : l.fault_error = false := by
        cases hfe : l.fault_error with
        | false => rfl
        | true => exact absurd (Or.inl hfe) hskip
      have hr : 0 < l.remaining := by
        rcases Nat.eq_zero_or_pos l.remaining with h0 | h0
        · exact absurd (Or.inr h0) hskip
        · exact h0
      obtain ⟨c'', hq', -, -, hp, -⟩ :=
        queueRemaining_queues l data (by rw [hob]; exact hinv) hlen hf hr
      rw [hq'] at hq
      cases hq
      exact ⟨_, by rw [hp, hpend], (count_high_water_mark _ _).1, (count_high_water_mark _ _).2⟩
  have fin : (∃ extra, c'.loop_.pending_functors_ = c.loop_.pending_functors_ ++ extra ∧
        extra.count PendingFunctor.write_complete = 0 ∧
        PendingFunctor.write_complete ∉ extra) →
      ¬ (c.state_ ≠ ConnState.kDisconnected ∧ c.HasRegisterWrite = false ∧
            c.output_buffer_.ReadableBytes = 0 ∧ res = SendResult.accepted data.length ∧
            c.write_complete_callback_ = true) →
      ∃ extra, c'.loop_.pending_functors_ = c.loop_.pending_functors_ ++ extra ∧
      extra.count PendingFunctor.write_complete =
        (if c.state_ ≠ ConnState.kDisconnected ∧ c.HasRegisterWrite = false ∧
            c.output_buffer_.ReadableBytes = 0 ∧ res = SendResult.accepted data.length ∧
            c.write_complete_callback_ = true then 1 else 0) ∧
      (PendingFunctor.write_complete ∈ extra →
        c.output_buffer_.ReadableBytes = 0 ∧ c'.output_buffer_.ReadableBytes = 0) := by
    rintro ⟨extra, hp, hc, hm⟩ hn
    exact ⟨extra, hp, by rw [if_neg hn]; exact hc, fun hh => absurd hh hm⟩
  by_cases hdir : c.HasRegisterWrite = false ∧ c.output_buffer_.ReadableBytes = 0
  · rw [sendInLoop_direct c data res hs hdir.1 hdir.2] at h
    cases res with
    | accepted k =>
      have hk := hres k rfl
      by_cases hle : k ≤ data.length
      · rw [directWrite_accepted c data k hk hle] at h
        simp only at h
        by_cases hlt : k < data.length
        · have h0 : ¬ (data.length - k = 0 ∧ c.write_complete_callback_ = true) := by omega
          rw [if_neg h0] at h
          refine fin (key _ rfl rfl (by simp; omega) h) (fun hh => ?_)
          have := hh.2.2.2.1
          cases this
          omega
        · have hkl : k = data.length := by omega
          subst hkl
          rw [queueRemaining_skips _ _ (Or.inr (by simp))] at h
          cases h
          by_cases hwc : c.write_complete_callback_ = true
          · rw [if_pos ⟨by simp, hwc⟩, if_pos ⟨hs, hdir.1, hdir.2, rfl, hwc⟩]
            exact ⟨[PendingFunctor.write_complete], rfl, by simp, fun _ => ⟨hdir.2, hdir.2⟩⟩
          · rw [if_neg (fun hh => hwc hh.2), if_neg (fun hh => hwc hh.2.2.2.2)]
            exact ⟨[], by simp, rfl, fun hm => by cases hm⟩
      · exfalso
        unfold directWrite at h
        simp only [Write_accepted _ _ _ k hk] at h
        rw [if_pos (by omega), if_neg (by simpa using hle)] at h
        cases h
    | failed e =>
      rw [directWrite_failed c data e] at h
      simp only at h
      exact fin (key _ rfl rfl (by simp) h) (fun hh => by have := hh.2.2.2.1; cases this)
  · rw [sendInLoop_queued c data res hs hdir] at h
    exact fin (key _ rfl rfl (by simp) h) (fun hh => hdir ⟨hh.2.1, hh.2.2.1⟩)

end TCPConnection
end raner

namespace raner
namespace TCPConnection
open ByteBuffer

/-- Counterexample to C15: the sample connection, with a write-complete callback installed,
an empty output buffer and no write interest, sends three bytes and the socket accepts all
three. The output buffer is empty before and after the call (it never held data), yet
`sendInLoop` schedules the write-complete callback. -/
theorem write_complete_after_direct_write :
    blocked.output_buffer_.ReadableBytes = 0 ∧ blocked.loop_.pending_functors_ = [] ∧
    ∃ c', blocked.sendInLoop [1, 2, 3] (SendResult.accepted 3) = some c' ∧
      c'.output_buffer_ = blocked.output_buffer_ ∧ c'.output_buffer_.ReadableBytes = 0 ∧
      c'.loop_.pending_functors_ = [PendingFunctor.write_complete] :=
  ⟨rfl, rfl, _, rfl, rfl, rfl, rfl⟩

/-- C15 (amended): when the write-complete callback is scheduled. For a connection whose
output buffer satisfies the index invariant:
(a) `handleWrite` returns whenever the socket accepts at most the queued bytes, and it
schedules the callback exactly once if a callback is installed and the call empties an
output buffer that was non-empty, and not at all otherwise;
(b) `sendInLoop` returns whenever the socket accepts at most `len` bytes (fewer than
`2^31`), and it schedules the callback exactly once if the direct write is attempted (state
not Disconnected, no write interest, empty output buffer), the socket accepts the whole
message and a callback is installed, and not at all otherwise; when it schedules it, the
output buffer is empty before and after the call, so it never held data for that send. -/
theorem write_complete_scheduling (c : TCPConnection) (hinv : c.output_buffer_.Inv) :
    (∀ res : SendResult,
      (∀ k, res = SendResult.accepted k → k ≤ c.output_buffer_.ReadableBytes) →
      ∃ c', c.handleWrite res = some c' ∧
        c'.loop_.pending_functors_ = c.loop_.pending_functors_ ++
          (if c.write_complete_callback_ = true ∧ 0 < c.output_buffer_.ReadableBytes ∧
              c'.output_buffer_.ReadableBytes = 0
            then [PendingFunctor.write_complete] else [])) ∧
    (∀ (data : List Byte) (res : SendResult),
      (∀ k, res = SendResult.accepted k → k ≤ data.length ∧ k < 2 ^ 31) →
      ∃ c' extra, c.sendInLoop data res = some c' ∧
        c'.loop_.pending_functors_ = c.loop_.pending_functors_ ++ extra ∧
        extra.count PendingFunctor.write_complete =
          (if c.state_ ≠ ConnState.kDisconnected ∧ c.HasRegisterWrite = false ∧
              c.output_buffer_.ReadableBytes = 0 ∧ res = SendResult.accepted data.length ∧
              c.write_complete_callback_ = true then 1 else 0) ∧
        (PendingFunctor.write_complete ∈ extra →
          c.output_buffer_.ReadableBytes = 0 ∧ c'.output_buffer_.ReadableBytes = 0)) := by
  refine ⟨fun res hres => ?_, fun data res hres => ?_⟩
  · obtain ⟨c', h⟩ := handleWrite_total c res hres
    exact ⟨c', h, handleWrite_pending c c' res h⟩
  · obtain ⟨c', h⟩ := sendInLoop_total c data res hinv (fun k hk => (hres k hk).1)
    obtain ⟨extra, h1, h2, h3⟩ :=
      sendInLoop_write_complete c c' data res hinv (fun k hk => (hres k hk).2) h
    exact ⟨c', extra, h, h1, h2, h3⟩

/-- Witness of C15 (amended): the sample connection sends three bytes which the socket
accepts; the write-complete callback is scheduled once. -/
theorem write_complete_scheduling_witness :
    blocked.output_buffer_.Inv ∧
    ∃ c' extra, blocked.sendInLoop [1, 2, 3] (SendResult.accepted 3) = some c' ∧
      c'.loop_.pending_functors_ = blocked.loop_.pending_functors_ ++ extra ∧
      extra.count PendingFunctor.write_complete = 1 :=
  ⟨by decide,
    match (write_complete_scheduling blocked (by decide)).2 [1, 2, 3] (SendResult.accepted 3)
      (fun k hk => by cases hk; exact ⟨by decide, by norm_num⟩) with
    | ⟨c', extra, h, h1, h2, _⟩ =>
      ⟨c', extra, h, h1, h2.trans (if_pos ⟨by decide, rfl, rfl, rfl, rfl⟩)⟩⟩

end TCPConnection
end raner

namespace raner
namespace TCPConnection
open ByteBuffer

/-! ## The invariant of the graceful shutdown -/

theorem HasRegisterWrite_congr (c d : TCPConnection)
    (hl : d.loop_.epoll_server_ = c.loop_.epoll_server_) (hf : d.socket_.fd_ = c.socket_.fd_) :
    d.HasRegisterWrite = c.HasRegisterWrite := by
  unfold HasRegisterWrite
  rw [hl, hf]

end TCPConnection
end raner

namespace raner
namespace TCPConnection
open ByteBuffer

end TCPConnection
end raner

namespace raner
namespace TCPConnection
open ByteBuffer

/-- What `shutdownInLoop` does to the count of half-closes: one more exactly when no write
interest is registered and the socket is open. -/
theorem shutdownInLoop_count (d : TCPConnection) :
    d.shutdownInLoop.socket_.wr_shutdowns = d.socket_.wr_shutdowns +
      (if d.HasRegisterWrite = false ∧ d.socket_.IsClosed = false then 1 else 0) := by
  unfold shutdownInLoop
  by_cases hreg : d.HasRegisterWrite = true
  · rw [if_neg (by simp [hreg]), if_neg (fun hh => by rw [hreg] at hh; cases hh.1)]
    rfl
  · have hreg' : d.HasRegisterWrite = false := by simpa using hreg
    rw [if_pos (by simp [hreg'])]
    simp only [Socket.ShutdownWrite]
    by_cases hcl : d.socket_.IsClosed = true
    · rw [if_neg (by simp [hcl]), if_neg (fun hh => by rw [hcl] at hh; cases hh.2)]
      rfl
    · have hop : d.socket_.IsClosed = false := by simpa using hcl
      rw [if_pos (by simp [hop]), if_pos ⟨hreg', hop⟩]

end TCPConnection
end raner

namespace raner
namespace TCPConnection
open ByteBuffer

end TCPConnection
end raner

namespace raner
namespace TCPClient

/-! ## Lemmas about the reconnect timer and the client -/

theorem int32_small (x : Int) (h0 : 0 ≤ x) (h1 : x < 2 ^ 31) : int32 x = x := by
  unfold int32
  exact toSigned_toUnsigned 32 x (Or.inr (Or.inr (Or.inl rfl))) (by norm_num; omega)
    (by norm_num at h1 ⊢; omega)

/-- `Update` with an initialized time sets the deadline and registers the alarm for it. -/
theorem Update_initialized (t : EpollTimer) (d : Int) (hd : d ≠ 0) :
    t.Update d = { deadline_ := d, timer_cb_ := t.timer_cb_, registered := some d } := by
  unfold EpollTimer.Update
  rw [if_neg hd]
  simp only
  split <;> rfl

/-- The timer is armed for the deadline `d`: set, registered as an alarm, with its
callback. -/
theorem retry_some (c : TCPClient) (s : Socket) (now : Int) (hs : c.socket_ = some s) :
    c.retry now = some
      (if c.connect_ = true then
        { c with socket_ := some s.Close, state_ := ClientState.kDisconnected,
                 reconnect_timer_ := some
                   ((match c.reconnect_timer_ with
                     | none => EpollTimer.CreateTimer
                     | some t => t).Update (now + int32 (c.retry_interval_ms_ * 1000))),
                 retry_interval_ms_ :=
                   min (int32 (c.retry_interval_ms_ * 2)) kMaxRetryIntervalMs }
      else { c with socket_ := some s.Close, state_ := ClientState.kDisconnected }) := by
  unfold retry
  rw [hs]
  simp only
  split <;> rfl

/-- A retry with the desired-connect flag set, within the bounds of the interval. -/
theorem retry_armed (c : TCPClient) (s : Socket) (now : Int) (hs : c.socket_ = some s)
    (hc : c.connect_ = true) (hlo : 500 ≤ c.retry_interval_ms_)
    (hhi : c.retry_interval_ms_ ≤ 30000) (hnow : 0 ≤ now)
    (hcb : ∀ t, c.reconnect_timer_ = some t → t.timer_cb_ = true) :
    c.retry now = some
      { c with socket_ := some s.Close, state_ := ClientState.kDisconnected,
               reconnect_timer_ := some
                 { deadline_ := now + c.retry_interval_ms_ * 1000, timer_cb_ := true,
                   registered := some (now + c.retry_interval_ms_ * 1000) },
               retry_interval_ms_ := min (c.retry_interval_ms_ * 2) 30000 } := by
  rw [retry_some c s now hs, if_pos hc]
  rw [int32_small _ (by omega) (by norm_num; omega), int32_small _ (by omega) (by norm_num; omega)]
  rw [Update_initialized _ _ (by omega)]
  have hcb' : (match c.reconnect_timer_ with
      | none => EpollTimer.CreateTimer
      | some t => t).timer_cb_ = true := by
    cases ht : c.reconnect_timer_ with
    | none => rfl
    | some t => exact hcb t ht
  rw [hcb']
  rfl

end TCPClient
end raner

namespace raner
namespace TCPClient

/-- An attempt that fails at once, on a client that wants to connect. -/
theorem startInLoop_failed (c : TCPClient) (se : Bool) (now : Int)
    (hs : c.state_ = ClientState.kDisconnected) (hc : c.connect_ = true)
    (hlo : 500 ≤ c.retry_interval_ms_) (hhi : c.retry_interval_ms_ ≤ 30000) (hnow : 0 ≤ now)
    (hcb : ∀ t, c.reconnect_timer_ = some t → t.timer_cb_ = true) :
    ∃ c', c.startInLoop (ConnectOutcome.failed se) now = some c' ∧
      Retrying (min (c.retry_interval_ms_ * 2) 30000) (c.attempts + 1)
        (now + c.retry_interval_ms_ * 1000) c' := by
  unfold startInLoop
  rw [if_pos hs, if_pos hc]
  unfold connect
  simp only [Socket.Connect, Bool.not_false, if_true]
  refine ⟨_, retry_armed _ _ now rfl ?_ ?_ ?_ hnow ?_, ?_⟩
  · exact hc
  · exact hlo
  · exact hhi
  · exact hcb
  · exact ⟨rfl, hc, rfl, rfl, rfl⟩

/-- An attempt that is in progress and then found to have failed by `handleWrite` or
`handleError`. -/
theorem startInLoop_started (c : TCPClient) (fd err now : Int)
    (hs : c.state_ = ClientState.kDisconnected) (hc : c.connect_ = true)
    (hlo : 500 ≤ c.retry_interval_ms_) (hhi : c.retry_interval_ms_ ≤ 30000) (hnow : 0 ≤ now)
    (herr : err ≠ 0)
    (hcb : ∀ t, c.reconnect_timer_ = some t → t.timer_cb_ = true) :
    ∃ c1, c.startInLoop (ConnectOutcome.started fd) now = some c1 ∧
      (∃ c', c1.handleWrite err now = some c' ∧
        Retrying (min (c.retry_interval_ms_ * 2) 30000) (c.attempts + 1)
          (now + c.retry_interval_ms_ * 1000) c') ∧
      (∃ c', c1.handleError err now = some c' ∧
        Retrying (min (c.retry_interval_ms_ * 2) 30000) (c.attempts + 1)
          (now + c.retry_interval_ms_ * 1000) c') := by
  unfold startInLoop
  rw [if_pos hs, if_pos hc]
  unfold connect
  simp only [Socket.Connect, Bool.not_true, Bool.false_eq_true, if_false, connecting]
  refine ⟨_, rfl, ?_, ?_⟩
  · unfold handleWrite
    simp only [if_true, if_pos herr]
    refine ⟨_, retry_armed _ _ now rfl ?_ ?_ ?_ hnow ?_, ?_⟩
    · exact hc
    · exact hlo
    · exact hhi
    · exact hcb
    · exact ⟨rfl, hc, rfl, rfl, rfl⟩
  · unfold handleError
    simp only [if_true, if_pos herr]
    refine ⟨_, retry_armed _ _ now rfl ?_ ?_ ?_ hnow ?_, ?_⟩
    · exact hc
    · exact hlo
    · exact hhi
    · exact hcb
    · exact ⟨rfl, hc, rfl, rfl, rfl⟩

end TCPClient
end raner

namespace raner
namespace TCPClient

theorem run_append (xs ys : List ClientEvent) :
    ∀ c c1 : TCPClient, c.run xs = some c1 → c.run (xs ++ ys) = c1.run ys := by
  induction xs with
  | nil =>
    intro c c1 h
    simp only [run] at h
    cases h
    rfl
  | cons e es ih =>
    intro c c1 h
    simp only [run, List.cons_append] at h ⊢
    cases hs : c.step e with
    | none => rw [hs] at h; cases h
    | some c2 =>
      rw [hs] at h
      exact ih c2 c1 h

/-- The first attempt, started by the user, fails. -/
theorem first_attempt (c : TCPClient) (a : FailedAttempt) (hok : a.ok = true)
    (hs : c.state_ = ClientState.kDisconnected)
    (hlo : 500 ≤ c.retry_interval_ms_) (hhi : c.retry_interval_ms_ ≤ 30000)
    (hcb : ∀ t, c.reconnect_timer_ = some t → t.timer_cb_ = true) :
    ∃ c', c.run (a.events true) = some c' ∧
      Retrying (min (c.retry_interval_ms_ * 2) 30000) (c.attempts + 1)
        (a.now + c.retry_interval_ms_ * 1000) c' := by
  cases a with
  | immediate se now =>
    have hnow : 0 ≤ now := by simpa [FailedAttempt.ok] using hok
    obtain ⟨c', h, hr⟩ := startInLoop_failed { c with connect_ := true } se now hs rfl hlo hhi
      hnow hcb
    exact ⟨c', by simp only [FailedAttempt.events, if_true, run, step, Connect, h], hr⟩
  | refused fd err now =>
    have hh : err ≠ 0 ∧ 0 ≤ now := by simpa [FailedAttempt.ok] using hok
    obtain ⟨c1, h1, ⟨c', h, hr⟩, -⟩ :=
      startInLoop_started { c with connect_ := true } fd err now hs rfl hlo hhi hh.2 hh.1 hcb
    exact ⟨c', by simp only [FailedAttempt.events, if_true, run, step, Connect, h1, h], hr⟩
  | errored fd err now =>
    have hh : err ≠ 0 ∧ 0 ≤ now := by simpa [FailedAttempt.ok] using hok
    obtain ⟨c1, h1, -, ⟨c', h, hr⟩⟩ :=
      startInLoop_started { c with connect_ := true } fd err now hs rfl hlo hhi hh.2 hh.1 hcb
    exact ⟨c', by simp only [FailedAttempt.events, if_true, run, step, Connect, h1, h], hr⟩

/-- The alarm of an armed reconnect timer calls `Connect()`. -/
theorem onAlarm_armed (c : TCPClient) (d : Int) (out : ConnectOutcome) (now : Int)
    (ht : c.reconnect_timer_
      = some { deadline_ := d, timer_cb_ := true, registered := some d }) (hd : d ≠ 0) :
    c.onAlarm out now =
      ({ c with reconnect_timer_ := some { deadline_ := 0, timer_cb_ := true, registered := none },
                connect_ := true } : TCPClient).startInLoop out now := by
  unfold onAlarm
  rw [ht]
  simp [EpollTimer.OnAlarm, EpollTimer.fire, EpollTimer.IsSet, hd, Connect]

/-- A later attempt, started by the alarm of the reconnect timer, fails. -/
theorem next_attempt (c : TCPClient) (a : FailedAttempt) (i : Int) (n : Nat) (d : Int)
    (hok : a.ok = true) (hr : Retrying i n d c) (hd : d ≠ 0)
    (hlo : 500 ≤ i) (hhi : i ≤ 30000) :
    ∃ c', c.run (a.events false) = some c' ∧
      Retrying (min (i * 2) 30000) (n + 1) (a.now + i * 1000) c' := by
  obtain ⟨hs, hc, rfl, rfl, ht⟩ := hr
  have hcb : ∀ t, (some { deadline_ := 0, timer_cb_ := true, registered := none }
      : Option EpollTimer) = some t → t.timer_cb_ = true := by
    intro t h
    cases h
    rfl
  cases a with
  | immediate se now =>
    have hnow : 0 ≤ now := by simpa [FailedAttempt.ok] using hok
    obtain ⟨c', h, hr⟩ := startInLoop_failed
      { c with reconnect_timer_ := some { deadline_ := 0, timer_cb_ := true, registered := none },
               connect_ := true } se now hs rfl hlo hhi hnow hcb
    refine ⟨c', ?_, hr⟩
    simp only [FailedAttempt.events, Bool.false_eq_true, if_false, run, step]
    rw [onAlarm_armed c d _ now ht hd, h]
  | refused fd err now =>
    have hh : err ≠ 0 ∧ 0 ≤ now := by simpa [FailedAttempt.ok] using hok
    obtain ⟨c1, h1, ⟨c', h, hr⟩, -⟩ := startInLoop_started
      { c with reconnect_timer_ := some { deadline_ := 0, timer_cb_ := true, registered := none },
               connect_ := true } fd err now hs rfl hlo hhi hh.2 hh.1 hcb
    refine ⟨c', ?_, hr⟩
    simp only [FailedAttempt.events, Bool.false_eq_true, if_false, run, step]
    rw [onAlarm_armed c d _ now ht hd, h1]
    simp only [h]
  | errored fd err now =>
    have hh : err ≠ 0 ∧ 0 ≤ now := by simpa [FailedAttempt.ok] using hok
    obtain ⟨c1, h1, -, ⟨c', h, hr⟩⟩ := startInLoop_started
      { c with reconnect_timer_ := some { deadline_ := 0, timer_cb_ := true, registered := none },
               connect_ := true } fd err now hs rfl hlo hhi hh.2 hh.1 hcb
    refine ⟨c', ?_, hr⟩
    simp only [FailedAttempt.events, Bool.false_eq_true, if_false, run, step]
    rw [onAlarm_armed c d _ now ht hd, h1]
    simp only [h]

theorem failedHistory_snoc (b : FailedAttempt) (bs : List FailedAttempt) (a : FailedAttempt) :
    failedHistory (b :: bs ++ [a]) = failedHistory (b :: bs) ++ a.events false := by
  simp [failedHistory, List.flatMap_append]

theorem backoff_arith (k : Nat) :
    min (min ((500 : Int) * 2 ^ k) 30000 * 2) 30000 = min (500 * 2 ^ (k + 1)) 30000 := by
  have h : (500 : Int) * 2 ^ (k + 1) = 500 * 2 ^ k * 2 := by ring
  have hp : (0 : Int) < 500 * 2 ^ k := by positivity
  rw [h]
  generalize (500 : Int) * 2 ^ k = x at hp ⊢
  omega

/-- The state of a fresh client after a history of failed attempts. -/
theorem failedHistory_state (loop : EventLoop) (errno : Int) (as : List FailedAttempt) :
    ∀ a : FailedAttempt, (∀ x ∈ as ++ [a], x.ok = true) →
    ∃ c', (create loop errno).run (failedHistory (as ++ [a])) = some c' ∧
      Retrying (min (500 * 2 ^ (as.length + 1)) 30000) (as.length + 1)
        (a.now + min (500 * 2 ^ as.length) 30000 * 1000) c' := by
  induction as using List.reverseRecOn with
  | nil =>
    intro a hok
    obtain ⟨c', h, hr⟩ := first_attempt (create loop errno) a (hok a (by simp)) rfl
      (by norm_num [create, kInitRetryIntervalMs]) (by norm_num [create, kInitRetryIntervalMs])
      (fun t ht => by cases ht)
    refine ⟨c', ?_, ?_⟩
    · simpa [failedHistory] using h
    · simpa [create, kInitRetryIntervalMs] using hr
  | append_singleton bs b ih =>
    intro a hok
    obtain ⟨c1, h1, hr1⟩ := ih b (fun x hx => hok x (by simp at hx ⊢; tauto))
    have hb : b.ok = true := hok b (by simp)
    have hbnow : 0 ≤ b.now := by
      cases b <;> simp [FailedAttempt.ok] at hb <;> simp [FailedAttempt.now] <;> omega
    have hpos : (0 : Int) < 500 * 2 ^ bs.length := by positivity
    have hlo : (500 : Int) ≤ min (500 * 2 ^ (bs.length + 1)) 30000 := by
      have h : (500 : Int) * 2 ^ (bs.length + 1) = 500 * 2 ^ bs.length * 2 := by ring
      have hy : (0 : Int) < 2 ^ bs.length := by positivity
      rw [h]
      generalize (2 : Int) ^ bs.length = y at hy ⊢
      omega
    obtain ⟨c', h, hr⟩ := next_attempt c1 a _ _ _ (hok a (by simp)) hr1
      (by
        generalize (500 : Int) * 2 ^ bs.length = x at hpos
        omega) hlo (min_le_right _ _)
    refine ⟨c', ?_, ?_⟩
    · have hne : bs ++ [b] ≠ [] := by simp
      cases hl : bs ++ [b] with
      | nil => exact absurd hl hne
      | cons y ys =>
        rw [hl] at h1
        rw [failedHistory_snoc, run_append _ _ _ _ h1]
        exact h
    · rw [backoff_arith] at hr
      simpa using hr

end TCPClient
end raner

namespace raner
namespace TCPClient

/-! ## How the retry interval moves -/

/-- What `retry()` does to the interval: nothing, or the doubling with the cap. -/
theorem retry_interval (c c' : TCPClient) (now : Int) (h : c.retry now = some c')
    (hi : IntervalInv c) :
    c'.retry_interval_ms_ = c.retry_interval_ms_ ∨
    c'.retry_interval_ms_ = min (c.retry_interval_ms_ * 2) 30000 := by
  obtain ⟨hlo, hhi⟩ := hi
  cases hs : c.socket_ with
  | none =>
    unfold retry at h
    rw [hs] at h
    cases h
  | some s =>
    rw [retry_some c s now hs] at h
    cases h
    split
    · right
      show min (int32 (c.retry_interval_ms_ * 2)) kMaxRetryIntervalMs = _
      rw [int32_small _ (by omega) (by norm_num; omega)]
      rfl
    · left
      rfl

theorem newConnection_interval (c c' : TCPClient) (h : c.newConnection = some c') :
    c'.retry_interval_ms_ = c.retry_interval_ms_ := by
  unfold newConnection at h
  split at h
  · cases h
  · simp only at h
    split at h <;> first
      | (cases h; done)
      | (cases h; rfl)

theorem startInLoop_interval (c c' : TCPClient) (out : ConnectOutcome) (now : Int)
    (h : c.startInLoop out now = some c') (hi : IntervalInv c) :
    c'.retry_interval_ms_ = c.retry_interval_ms_ ∨
    c'.retry_interval_ms_ = min (c.retry_interval_ms_ * 2) 30000 := by
  unfold startInLoop at h
  split at h
  · split at h
    · unfold connect at h
      cases out with
      | failed se =>
        simp only [Socket.Connect, Bool.not_false, if_true] at h
        have := retry_interval _ c' now h hi
        exact this
      | started fd =>
        simp only [Socket.Connect, Bool.not_true, Bool.false_eq_true, if_false,
          connecting] at h
        cases h
        exact Or.inl rfl
    · cases h
      exact Or.inl rfl
  · cases h

/-- Every event but the close of the connection leaves the interval or doubles it (with
the cap); the close of the connection leaves it unless auto-retry is enabled and the
desired-connect flag is set, in which case the interval is reset and the new attempt may
double it once. -/
theorem step_interval (c c' : TCPClient) (e : ClientEvent) (hi : IntervalInv c)
    (h : c.step e = some c') :
    c'.retry_interval_ms_ = c.retry_interval_ms_ ∨
    c'.retry_interval_ms_ = min (c.retry_interval_ms_ * 2) 30000 ∨
    ((∃ out now, e = ClientEvent.connection_closed out now) ∧ c.retry_ = true ∧
      c.connect_ = true ∧ (c'.retry_interval_ms_ = 500 ∨ c'.retry_interval_ms_ = 1000)) := by
  have lift : ∀ {d : TCPClient}, (c'.retry_interval_ms_ = d.retry_interval_ms_ ∨
      c'.retry_interval_ms_ = min (d.retry_interval_ms_ * 2) 30000) →
      d.retry_interval_ms_ = c.retry_interval_ms_ →
      c'.retry_interval_ms_ = c.retry_interval_ms_ ∨
      c'.retry_interval_ms_ = min (c.retry_interval_ms_ * 2) 30000 ∨
      ((∃ out now, e = ClientEvent.connection_closed out now) ∧ c.retry_ = true ∧
        c.connect_ = true ∧
        (c'.retry_interval_ms_ = 500 ∨ c'.retry_interval_ms_ = 1000)) := by
    intro d hd he
    rw [he] at hd
    rcases hd with hd | hd
    · exact Or.inl hd
    · exact Or.inr (Or.inl hd)
  cases e with
  | connect out now =>
    simp only [step, Connect] at h
    exact lift (startInLoop_interval _ c' out now h hi) rfl
  | stop =>
    simp only [step, Stop] at h
    cases h
    exact Or.inl rfl
  | stop_in_loop now =>
    simp only [step, stopInLoop] at h
    split at h
    · split at h
      · cases h
      · exact lift (retry_interval _ c' now h hi) rfl
    · cases h
      exact Or.inl rfl
  | disconnect =>
    simp only [step, Disconnect] at h
    cases h
    split <;> exact Or.inl rfl
  | enable_retry =>
    simp only [step, EnableRetry] at h
    cases h
    exact Or.inl rfl
  | alarm out now =>
    simp only [step, onAlarm] at h
    split at h
    · cases h
      exact Or.inl rfl
    · split at h
      · split at h
        · simp only [Connect] at h
          exact lift (startInLoop_interval _ c' out now h hi) rfl
        · cases h
          exact Or.inl rfl
      · cases h
        exact Or.inl rfl
  | writable err now =>
    simp only [step, handleWrite] at h
    split at h
    · split at h
      · cases h
      · split at h
        · exact lift (retry_interval _ c' now h hi) rfl
        · split at h
          · have := newConnection_interval _ c' h
            exact Or.inl this
          · cases h
            exact Or.inl rfl
    · split at h
      · cases h
        exact Or.inl rfl
      · cases h
  | error err now =>
    simp only [step, handleError] at h
    split at h
    · split at h
      · cases h
      · split at h
        · exact lift (retry_interval _ c' now h hi) rfl
        · cases h
          exact Or.inl rfl
    · cases h
      exact Or.inl rfl
  | connection_closed out now =>
    simp only [step, connectionClosed] at h
    split at h
    · cases h
      exact Or.inl rfl
    · split at h
      · unfold removeConnection at h
        simp only at h
        split at h
        · rename_i hrc
          unfold restart at h
          have := startInLoop_interval _ c' out now h
            (by constructor <;> simp [kInitRetryIntervalMs])
          refine Or.inr (Or.inr ⟨⟨out, now, rfl⟩, ?_, ?_, ?_⟩)
          · simpa using hrc.1
          · simpa using hrc.2
          · simpa [kInitRetryIntervalMs] using this
        · cases h
          exact Or.inl rfl
      · cases h

/-- Every event keeps the interval within its bounds. -/
theorem step_IntervalInv (c c' : TCPClient) (e : ClientEvent) (hi : IntervalInv c)
    (h : c.step e = some c') : IntervalInv c' := by
  have hb := hi
  obtain ⟨hlo, hhi⟩ := hb
  unfold IntervalInv
  rcases step_interval c c' e hi h with h1 | h1 | ⟨-, -, -, h1 | h1⟩ <;> rw [h1] <;> omega

theorem run_IntervalInv (es : List ClientEvent) :
    ∀ c c' : TCPClient, IntervalInv c → c.run es = some c' → IntervalInv c' := by
  induction es with
  | nil =>
    intro c c' h hr
    simp only [run] at hr
    cases hr
    exact h
  | cons e es ih =>
    intro c c' h hr
    simp only [run] at hr
    cases hs : c.step e with
    | none => rw [hs] at hr; cases hr
    | some c1 =>
      rw [hs] at hr
      exact ih c1 c' (step_IntervalInv c c1 e h hs) hr

end TCPClient
end raner

namespace raner
namespace TCPClient

/-- C17: the back-off sequence of the client. Take a freshly constructed client and a
history in which the user calls `Connect()` and every connect attempt fails (at once, or
after being in progress, found by `handleWrite` or `handleError`), each next attempt being
started by the alarm of the reconnect timer; let `as` be the attempts before the last one
`a`, so that `a` is the `k`-th failed attempt with `k = as.length` (from `k = 0`). The
history runs to its end, and after it the reconnect timer is set and registered for the
time of the failure plus `min(500 * 2^k, 30000)` milliseconds (in microseconds, the unit of
`Time`), the stored interval is `min(500 * 2^(k+1), 30000)` and `k + 1` attempts have been
started. Moreover in every state the client reaches from construction, by any events, the
stored retry interval is within `[500, 30000]`. -/
theorem backoff_sequence (loop : EventLoop) (errno : Int) (as : List FailedAttempt)
    (a : FailedAttempt) (hok : ∀ x ∈ as ++ [a], x.ok = true) :
    (∃ c t, (create loop errno).run (failedHistory (as ++ [a])) = some c ∧
      c.reconnect_timer_ = some t ∧ t.IsSet = true ∧ t.registered = some t.deadline_ ∧
      t.deadline_ = a.now + min (500 * 2 ^ as.length) 30000 * 1000 ∧
      c.retry_interval_ms_ = min (500 * 2 ^ (as.length + 1)) 30000 ∧
      c.attempts = as.length + 1 ∧ c.state_ = ClientState.kDisconnected) ∧
    (∀ (events : List ClientEvent) (c : TCPClient),
      (create loop errno).run events = some c →
      500 ≤ c.retry_interval_ms_ ∧ c.retry_interval_ms_ ≤ 30000) := by
  constructor
  · obtain ⟨c, hrun, hs, -, hi, hn, ht⟩ := failedHistory_state loop errno as a hok
    have hnow : 0 ≤ a.now := by
      have := hok a (by simp)
      cases a <;> simp [FailedAttempt.ok] at this <;> simp [FailedAttempt.now] <;> omega
    have hy : (0 : Int) < 2 ^ as.length := by positivity
    have hd : a.now + min (500 * 2 ^ as.length) 30000 * 1000 ≠ 0 := by
      generalize (2 : Int) ^ as.length = y at hy ⊢
      omega
    exact ⟨c, _, hrun, ht, by simp [EpollTimer.IsSet, hd], rfl, rfl, hi, hn, hs⟩
  · intro events c hrun
    exact run_IntervalInv events _ c (by constructor <;> simp [create, kInitRetryIntervalMs])
      hrun

/-- Witness of C17: three failed attempts, the last of them the attempt `k = 2`, at one
second after the epoch: the timer is set for 2000 ms later and the interval becomes 4000. -/
theorem backoff_sequence_witness :
    (∀ x ∈ [FailedAttempt.immediate false 0, FailedAttempt.refused 7 111 600000]
        ++ [FailedAttempt.errored 8 111 1000000], x.ok = true) ∧
    ∃ c t, (create ⟨⟨[], []⟩, []⟩ 0).run
        (failedHistory ([FailedAttempt.immediate false 0, FailedAttempt.refused 7 111 600000]
          ++ [FailedAttempt.errored 8 111 1000000])) = some c ∧
      c.reconnect_timer_ = some t ∧ t.deadline_ = 1000000 + 2000 * 1000 ∧
      c.retry_interval_ms_ = 4000 ∧ c.attempts = 3 :=
  ⟨by decide,
    match (backoff_sequence ⟨⟨[], []⟩, []⟩ 0
      [FailedAttempt.immediate false 0, FailedAttempt.refused 7 111 600000]
      (FailedAttempt.errored 8 111 1000000) (by decide)).1 with
    | ⟨c, t, h1, h2, _, _, h5, h6, h7, _⟩ =>
      ⟨c, t, h1, h2, h5.trans (by decide), h6.trans (by decide), h7⟩⟩

end TCPClient
end raner

namespace raner
namespace TCPClient

/-- With auto-retry enabled and the desired-connect flag set, `removeConnection` is a
connect attempt on the client reset by `restart()`. -/
theorem removeConnection_restart (c : TCPClient) (out : ConnectOutcome) (now : Int)
    (hconn : c.connection_.isSome = true) (hr : c.retry_ = true) (hc : c.connect_ = true) :
    c.removeConnection out now =
      ({ c with connection_ := none,
                loop_ := c.loop_.QueueInLoop PendingFunctor.connect_destroyed,
                state_ := ClientState.kDisconnected,
                retry_interval_ms_ := kInitRetryIntervalMs, connect_ := true }
        : TCPClient).connect out now := by
  unfold removeConnection
  cases hcn : c.connection_ with
  | none => rw [hcn] at hconn; cases hconn
  | some conn =>
    simp only
    rw [if_pos ⟨hr, hc⟩]
    unfold restart startInLoop
    simp only [if_true]

/-- Otherwise `removeConnection` only releases the connection and queues its
`ConnectDestroyed`. -/
theorem removeConnection_plain (c : TCPClient) (out : ConnectOutcome) (now : Int)
    (hconn : c.connection_.isSome = true) (h : ¬ (c.retry_ = true ∧ c.connect_ = true)) :
    c.removeConnection out now =
      some { c with connection_ := none,
                    loop_ := c.loop_.QueueInLoop PendingFunctor.connect_destroyed } := by
  unfold removeConnection
  cases hcn : c.connection_ with
  | none => rw [hcn] at hconn; cases hconn
  | some conn =>
    simp only
    rw [if_neg h]

/-- C18: restart after an established connection drops. Let `removeConnection` run on a
client that holds a connection, at a time `now` not before the epoch.
If auto-retry is enabled and the desired-connect flag is set, it returns having released
the connection and started exactly one connect attempt from the state Disconnected with the
interval reset to 500: when the attempt is in progress the state is Connecting and the
interval is 500; when the attempt fails at once the reconnect timer is set for `now` plus
500 ms, and the interval has been doubled to 1000 by that failure.
Otherwise it starts no attempt and leaves the interval and the state as they were.
No other event resets the interval: every event but the close of the connection leaves the
interval or increases it, and a successful connect (`handleWrite` finding no socket error)
leaves it unchanged. -/
theorem restart_after_drop (c : TCPClient) (out : ConnectOutcome) (now : Int)
    (hconn : c.connection_.isSome = true) (hnow : 0 ≤ now) :
    (c.retry_ = true ∧ c.connect_ = true →
      ∃ c', c.removeConnection out now = some c' ∧ c'.attempts = c.attempts + 1 ∧
        c'.connection_ = none ∧ c'.connect_ = true ∧
        (∀ fd, out = ConnectOutcome.started fd →
          c'.state_ = ClientState.kConnecting ∧ c'.retry_interval_ms_ = 500 ∧
          c'.socket_ = some { Socket.fresh with fd_ := fd }) ∧
        (∀ se, out = ConnectOutcome.failed se →
          c'.state_ = ClientState.kDisconnected ∧ c'.retry_interval_ms_ = 1000 ∧
          ∃ t, c'.reconnect_timer_ = some t ∧ t.deadline_ = now + 500 * 1000 ∧
            t.registered = some (now + 500 * 1000))) ∧
    (¬ (c.retry_ = true ∧ c.connect_ = true) →
      ∃ c', c.removeConnection out now = some c' ∧ c'.attempts = c.attempts ∧
        c'.retry_interval_ms_ = c.retry_interval_ms_ ∧ c'.state_ = c.state_ ∧
        c'.connection_ = none ∧ c'.socket_ = c.socket_ ∧
        c'.reconnect_timer_ = c.reconnect_timer_) ∧
    (∀ (d d' : TCPClient) (e : ClientEvent),
      500 ≤ d.retry_interval_ms_ → d.retry_interval_ms_ ≤ 30000 →
      (∀ o n, e ≠ ClientEvent.connection_closed o n) → d.step e = some d' →
      d.retry_interval_ms_ ≤ d'.retry_interval_ms_) ∧
    (∀ (d d' : TCPClient) (n : Int), d.handleWrite 0 n = some d' →
      d'.retry_interval_ms_ = d.retry_interval_ms_) := by
  refine ⟨fun ⟨hr, hc⟩ => ?_, fun h => ?_, fun d d' e hlo hhi hne hstep => ?_,
    fun d d' n h => ?_⟩
  · rw [removeConnection_restart c out now hconn hr hc]
    cases out with
    | started fd =>
      refine ⟨_, rfl, rfl, rfl, rfl, fun fd' h => ?_, fun se h => by cases h⟩
      cases h
      exact ⟨rfl, rfl, rfl⟩
    | failed se =>
      unfold connect
      simp only [Socket.Connect, Bool.not_false, if_true]
      rw [retry_some _ _ now rfl]
      simp only [if_true]
      refine ⟨_, rfl, rfl, rfl, rfl, (fun fd h => by cases h), fun se' _ => ⟨rfl, ?_, ?_⟩⟩
      · show min (int32 (kInitRetryIntervalMs * 2)) kMaxRetryIntervalMs = 1000
        decide
      · have e : int32 (kInitRetryIntervalMs * 1000) = 500 * 1000 := by decide
        refine ⟨_, rfl, ?_⟩
        simp only [e]
        rw [Update_initialized _ _ (by omega)]
        exact ⟨rfl, rfl⟩
  · rw [removeConnection_plain c out now hconn h]
    exact ⟨_, rfl, rfl, rfl, rfl, rfl, rfl, rfl⟩
  · rcases step_interval d d' e ⟨hlo, hhi⟩ hstep with h1 | h1 | ⟨⟨o, n, he⟩, -⟩
    · omega
    · rw [h1]; omega
    · exact absurd he (hne o n)
  · unfold handleWrite at h
    split at h
    · split at h
      · cases h
      · rw [if_neg (by simp)] at h
        simp only at h
        split at h
        · have := newConnection_interval _ d' h
          exact this
        · cases h
          rfl
    · split at h
      · cases h
        rfl
      · cases h

end TCPClient
end raner

namespace raner
namespace TCPClient

/-- Witness of C18: the sample client, connected with auto-retry enabled, loses its
connection; a new attempt is started with the interval back at 500. -/
theorem restart_after_drop_witness :
    connected.connection_.isSome = true ∧ (0 : Int) ≤ 5000000 ∧
    connected.retry_ = true ∧ connected.connect_ = true ∧
    ∃ c', connected.removeConnection (ConnectOutcome.started 6) 5000000 = some c' ∧
      c'.attempts = connected.attempts + 1 ∧ c'.state_ = ClientState.kConnecting ∧
      c'.retry_interval_ms_ = 500 :=
  ⟨rfl, by decide, rfl, rfl,
    match (restart_after_drop connected (ConnectOutcome.started 6) 5000000 rfl
      (by decide)).1 ⟨rfl, rfl⟩ with
    | ⟨c', h1, h2, _, _, h3, _⟩ => ⟨c', h1, h2, (h3 6 rfl).1, (h3 6 rfl).2.1⟩⟩

/-- C19: the reconnect timer overrides a cleared desired-connect flag. Let the client be
right after a failed attempt: Disconnected, with the reconnect timer set and registered.
`Disconnect()` clears the desired-connect flag and leaves the timer as it is; when the
alarm then goes off, the timer callback `Connect()` sets the flag again and a new connect
attempt is started, although the user has not called `Connect()`. The same happens after
`Stop()` and the run of the `stopInLoop` it queued. -/
theorem retry_timer_overrides_cleared_flag (c : TCPClient) (i : Int) (n : Nat) (d : Int)
    (out : ConnectOutcome) (now : Int) (hr : Retrying i n d c) (hd : d ≠ 0) :
    (c.Disconnect.connect_ = false ∧ c.Disconnect.attempts = n ∧
      ∃ c', c.Disconnect.step (ClientEvent.alarm out now) = some c' ∧
        c'.attempts = n + 1 ∧ c'.connect_ = true) ∧
    (c.Stop.connect_ = false ∧
      ∃ c1 c', c.Stop.step (ClientEvent.stop_in_loop now) = some c1 ∧
        c1.connect_ = false ∧ c1.attempts = n ∧
        c1.step (ClientEvent.alarm out now) = some c' ∧
        c'.attempts = n + 1 ∧ c'.connect_ = true) := by
  obtain ⟨hs, hc, rfl, rfl, ht⟩ := hr
  -- the alarm on a Disconnected client whose timer is armed
  have key : ∀ e : TCPClient, e.state_ = ClientState.kDisconnected →
      e.reconnect_timer_ = some { deadline_ := d, timer_cb_ := true, registered := some d } →
      ∃ c', e.step (ClientEvent.alarm out now) = some c' ∧
        c'.attempts = e.attempts + 1 ∧ c'.connect_ = true := by
    intro e hes het
    simp only [step]
    rw [onAlarm_armed e d out now het hd]
    unfold startInLoop
    rw [if_pos hes, if_pos rfl]
    unfold connect
    cases out with
    | started fd => exact ⟨_, rfl, rfl, rfl⟩
    | failed se =>
      simp only [Socket.Connect, Bool.not_false, if_true]
      rw [retry_some _ _ now rfl]
      exact ⟨_, rfl, rfl, rfl⟩
  constructor
  · have hD : c.Disconnect.connect_ = false ∧ c.Disconnect.attempts = c.attempts ∧
        c.Disconnect.state_ = c.state_ ∧
        c.Disconnect.reconnect_timer_ = c.reconnect_timer_ := by
      unfold Disconnect
      split <;> exact ⟨rfl, rfl, rfl, rfl⟩
    obtain ⟨c', h1, h2, h3⟩ := key c.Disconnect (by rw [hD.2.2.1]; exact hs)
      (by rw [hD.2.2.2]; exact ht)
    exact ⟨hD.1, hD.2.1, c', h1, by rw [h2, hD.2.1], h3⟩
  · have hS : c.Stop.step (ClientEvent.stop_in_loop now) = some c.Stop := by
      simp only [step, stopInLoop]
      rw [if_neg (by show ¬ c.state_ = ClientState.kConnecting; rw [hs]; decide)]
    obtain ⟨c', h1, h2, h3⟩ := key c.Stop hs ht
    exact ⟨rfl, c.Stop, c', hS, rfl, rfl, h1, h2, h3⟩

/-- Witness of C19: the sample client whose first attempt failed at one second after the
epoch; the user disconnects and the alarm goes off half a second later. -/
theorem retry_timer_overrides_cleared_flag_witness :
    Retrying 1000 1 1500000 retrying ∧ (1500000 : Int) ≠ 0 ∧
    retrying.Disconnect.connect_ = false ∧ retrying.Disconnect.attempts = 1 ∧
    ∃ c', retrying.Disconnect.step (ClientEvent.alarm (ConnectOutcome.started 7) 1500000)
        = some c' ∧ c'.attempts = 2 ∧ c'.connect_ = true :=
  ⟨⟨rfl, rfl, rfl, rfl, rfl⟩, by decide,
    (retry_timer_overrides_cleared_flag retrying 1000 1 1500000 (ConnectOutcome.started 7)
      1500000 ⟨rfl, rfl, rfl, rfl, rfl⟩ (by decide)).1⟩

end TCPClient
end raner

namespace raner
namespace TCPConnection

/-- The cases of `ConnectDestroyed` on the sample connection, which is Connected: one down
notification,
then nothing more. -/
theorem ConnectDestroyed_only_when_connected_witness :
    blocked.state_ = ConnState.kConnected ∧
    blocked.ConnectDestroyed.state_ = ConnState.kDisconnected ∧
    blocked.ConnectDestroyed.calls = blocked.calls ++ [UserCall.connection false] ∧
    blocked.ConnectDestroyed.ConnectDestroyed = blocked.ConnectDestroyed :=
  ⟨rfl, ((ConnectDestroyed_only_when_connected blocked).1 rfl).1,
    ((ConnectDestroyed_only_when_connected blocked).1 rfl).2.2.1,
    (ConnectDestroyed_only_when_connected blocked).2.2.1⟩

end TCPConnection
end raner

namespace raner
namespace TCPConnection
open ByteBuffer

/-- The queueing block either leaves the multiplexer alone or starts write interest for the
fd of the socket. -/
theorem queueRemaining_epoll (l : SendLocals) (data : List Byte) (c' : TCPConnection)
    (h : queueRemaining l data = some c') :
    c'.loop_.epoll_server_ = l.conn.loop_.epoll_server_ ∨
    c'.loop_.epoll_server_ = l.conn.loop_.epoll_server_.StartWrite l.conn.socket_.fd_ := by
  unfold queueRemaining at h
  by_cases h1 : (!l.fault_error) = true ∧ 0 < l.remaining
  · rw [if_pos h1] at h
    by_cases hc : l.conn.high_water_mark_ ≤ l.conn.output_buffer_.ReadableBytes + l.remaining ∧
        l.conn.output_buffer_.ReadableBytes < l.conn.high_water_mark_ ∧
        l.conn.high_water_mark_callback_ = true
    · simp only [if_pos hc] at h
      split at h
      · split at h
        · cases h
          exact Or.inr rfl
        · cases h
          exact Or.inl rfl
      · cases h
    · simp only [if_neg hc] at h
      split at h
      · split at h
        · cases h
          exact Or.inr rfl
        · cases h
          exact Or.inl rfl
      · cases h
  · rw [if_neg h1] at h
    cases h
    exact Or.inl rfl

/-- What the multiplexer holds after a send on an open socket whose `send` fails with
`EWOULDBLOCK`: the message is queued and the state unchanged, the socket is the closed one
`Socket::Write` leaves behind, and the fd the connection was using has no write interest,
the interest having been started for the fd `-1`, if at all. -/
theorem sendInLoop_would_block (c : TCPConnection) (data : List Byte)
    (hs : c.state_ ≠ ConnState.kDisconnected) (hreg : c.HasRegisterWrite = false)
    (hempty : c.output_buffer_.ReadableBytes = 0) (hinv : c.output_buffer_.Inv)
    (hopen : c.socket_.IsClosed = false) :
    ∃ c', c.sendInLoop data (SendResult.failed EWOULDBLOCK) = some c' ∧
      c'.output_buffer_.readable = data ∧ c'.state_ = c.state_ ∧
      c'.socket_ = c.socket_.setSocketError ∧ c'.socket_.fd_ = -1 ∧
      c'.loop_.epoll_server_.HasRegisterWrite c.socket_.fd_ = false ∧
      (c'.loop_.epoll_server_ = c.loop_.epoll_server_ ∨
        c'.loop_.epoll_server_ = c.loop_.epoll_server_.StartWrite (-1)) := by
  have hrd0 := readable_nil_of_empty _ hinv hempty
  have hfd : ¬ c.socket_.fd_ < 0 := by simpa [Socket.IsClosed] using hopen
  have hfd1 : c.socket_.setSocketError.fd_ = -1 := by
    simp [Socket.setSocketError, Socket.Close, Socket.IsClosed, hfd]
  have hnot : decide (c.socket_.fd_ ∈ c.loop_.epoll_server_.write_fds) = false := hreg
  have hnot' : c.socket_.fd_ ∉ c.loop_.epoll_server_.write_fds := by simpa using hnot
  rw [sendInLoop_direct c data _ hs hreg hempty, directWrite_failed c data EWOULDBLOCK]
  simp only [ne_eq, not_true_eq_false, if_false]
  have hfin : ∀ c' : TCPConnection,
      (c'.loop_.epoll_server_ = c.loop_.epoll_server_ ∨
        c'.loop_.epoll_server_ = c.loop_.epoll_server_.StartWrite c.socket_.setSocketError.fd_) →
      c'.loop_.epoll_server_.HasRegisterWrite c.socket_.fd_ = false ∧
      (c'.loop_.epoll_server_ = c.loop_.epoll_server_ ∨
        c'.loop_.epoll_server_ = c.loop_.epoll_server_.StartWrite (-1)) := by
    intro c' hep
    rw [hfd1] at hep
    refine ⟨?_, hep⟩
    rcases hep with he | he
    · rw [he]; exact hreg
    · rw [he]
      unfold EpollServer.StartWrite EpollServer.HasRegisterWrite
      split
      · simpa using hnot'
      · simp only [List.mem_cons, decide_eq_false_iff_not, not_or]
        exact ⟨by omega, hnot'⟩
  by_cases hlt : 0 < data.length
  · obtain ⟨c', hq, -, hr, -⟩ :=
      queueRemaining_queues
        { conn := { c with socket_ := c.socket_.setSocketError, errno := EWOULDBLOCK },
          nwrote := 0, remaining := data.length, fault_error := false } data
        hinv (by simp) rfl hlt
    obtain ⟨hst, -, hsock, -⟩ := queueRemaining_frame _ _ _ hq
    obtain ⟨h1, h2⟩ := hfin c' (queueRemaining_epoll _ data c' hq)
    refine ⟨c', hq, ?_, hst, hsock, ?_, h1, h2⟩
    · rw [hr]; simp [hrd0]
    · rw [hsock]; exact hfd1
  · have hq := queueRemaining_skips
      { conn := { c with socket_ := c.socket_.setSocketError, errno := EWOULDBLOCK },
        nwrote := 0, remaining := data.length, fault_error := false } data
      (Or.inr (by simpa using hlt))
    obtain ⟨h1, h2⟩ := hfin _ (queueRemaining_epoll _ data _ hq)
    refine ⟨_, hq, ?_, rfl, rfl, hfd1, h1, h2⟩
    show c.output_buffer_.readable = data
    rw [hrd0]
    simp at hlt
    simp [hlt]

end TCPConnection
end raner

namespace raner
namespace EpollTimer

/-! ## The timer -/

theorem Cancel_IsSet (t : EpollTimer) : t.Cancel.IsSet = false := by
  unfold Cancel
  by_cases h : t.IsSet = true
  · rw [if_neg (by simp [h])]
    simp [cancelImpl, IsSet]
  · rw [if_pos (by simpa using h)]
    simpa using h

theorem fire_unset (t : EpollTimer) (h : t.IsSet = false) : t.fire = (t, false) := by
  unfold fire
  rw [if_pos (by simp [h])]

theorem fireWith_unset (t : EpollTimer) (h : t.IsSet = false)
    (cb : EpollTimer → EpollTimer) : t.fireWith cb = t := by
  unfold fireWith
  rw [if_pos (by simp [h])]

/-- C21: timer cancellation. For every timer state, `Update()` with the uninitialized time
(`Time::UnixEpoch()`, whose count is 0) gives exactly the state `Cancel()` gives; in that
state `IsSet()` is false, and a firing of the underlying alarm (`OnAlarm`, or `fire()`
itself, with any callback installed) does not call the callback and leaves the timer as
it is; `Cancel()` on a timer that is not set changes nothing, and `Cancel()` after
`Cancel()` changes nothing. -/
theorem cancel_and_update_unset (t : EpollTimer) :
    t.Update 0 = t.Cancel ∧ t.Cancel.IsSet = false ∧ (t.Update 0).IsSet = false ∧
    t.Cancel.fire = (t.Cancel, false) ∧ t.Cancel.OnAlarm.2 = false ∧
    t.Cancel.OnAlarm.1.deadline_ = 0 ∧
    (∀ cb : EpollTimer → EpollTimer, t.Cancel.fireWith cb = t.Cancel) ∧
    (t.IsSet = false → t.Cancel = t) ∧ t.Cancel.Cancel = t.Cancel := by
  have hu : t.Update 0 = t.Cancel := by
    unfold Update
    rw [if_pos rfl]
  have hc := Cancel_IsSet t
  have hd : t.Cancel.deadline_ = 0 := by simpa [IsSet] using hc
  have hn : ∀ u : EpollTimer, u.IsSet = false → u.Cancel = u := by
    intro u h
    unfold Cancel
    rw [if_pos (by simp [h])]
  have ha : ({ t.Cancel with registered := none } : EpollTimer).IsSet = false := hc
  refine ⟨hu, hc, by rw [hu]; exact hc, fire_unset _ hc, ?_, ?_,
    fun cb => fireWith_unset _ hc cb, hn t, hn _ hc⟩
  · unfold OnAlarm
    rw [fire_unset _ ha]
  · unfold OnAlarm
    rw [fire_unset _ ha]
    exact hd

/-- Witness of C21: a timer set for the time 7 is cancelled by `Update()` with the
uninitialized time, and the alarm registered for it then calls nothing. -/
theorem cancel_and_update_unset_witness :
    (⟨7, true, some 7⟩ : EpollTimer).Update 0 = ⟨0, true, none⟩ ∧
    (⟨7, true, some 7⟩ : EpollTimer).Cancel = ⟨0, true, none⟩ ∧
    ((⟨7, true, some 7⟩ : EpollTimer).Update 0).OnAlarm.2 = false :=
  ⟨(cancel_and_update_unset ⟨7, true, some 7⟩).1.trans rfl, rfl,
    by rw [(cancel_and_update_unset ⟨7, true, some 7⟩).1]
       exact (cancel_and_update_unset ⟨7, true, some 7⟩).2.2.2.2.1⟩

/-- C25: the order in `fire()`. When the alarm fires on a set timer, the deadline is
cleared and then the callback, if installed, is called: `fire()` returns the cleared timer
and the callback runs on the cleared timer, on which `IsSet()` is false, so that `Set()`
with an initialized time meets both its `DCHECK`s there and a callback that calls `Set(d)`
leaves the timer set for `d`. When the alarm fires on a timer that is not set, the
callback is not called and the timer is unchanged (`OnAlarm` only drops the registration
of the alarm). -/
theorem fire_clears_then_calls (t : EpollTimer) :
    (t.IsSet = true →
      t.fire = ({ t with deadline_ := 0 }, t.timer_cb_) ∧
      t.fire.1.IsSet = false ∧
      (t.timer_cb_ = true →
        ∀ cb : EpollTimer → EpollTimer, t.fireWith cb = cb { t with deadline_ := 0 }) ∧
      (∀ d : Int, d ≠ 0 →
        t.fire.1.SetChecked d = some (t.fire.1.Set d) ∧
        (t.timer_cb_ = true →
          (t.fireWith (fun x => x.Set d)).deadline_ = d ∧
          (t.fireWith (fun x => x.Set d)).IsSet = true ∧
          (t.fireWith (fun x => x.Set d)).registered = some d)) ∧
      t.OnAlarm = ({ t with deadline_ := 0, registered := none }, t.timer_cb_)) ∧
    (t.IsSet = false →
      t.fire = (t, false) ∧ (∀ cb : EpollTimer → EpollTimer, t.fireWith cb = t) ∧
      t.OnAlarm = ({ t with registered := none }, false)) := by
  constructor
  · intro hs
    have hf : t.fire = ({ t with deadline_ := 0 }, t.timer_cb_) := by
      unfold fire
      rw [if_neg (by simp [hs])]
    have hw : t.timer_cb_ = true →
        ∀ cb : EpollTimer → EpollTimer, t.fireWith cb = cb { t with deadline_ := 0 } := by
      intro hcb cb
      unfold fireWith
      rw [if_neg (by simp [hs])]
      simp only [hcb, if_true]
    refine ⟨hf, by rw [hf]; simp [IsSet], hw, fun d hd => ⟨?_, fun hcb => ?_⟩, ?_⟩
    · rw [hf]
      unfold SetChecked
      rw [if_pos (by simp [IsSet]), if_pos hd]
    · rw [hw hcb]
      simp [Set, setImpl, IsSet, hd]
    · unfold OnAlarm fire
      have hs' : ({ t with registered := none } : EpollTimer).IsSet = true := hs
      rw [if_neg (by simp [hs'])]
  · intro hs
    refine ⟨fire_unset t hs, fun cb => fireWith_unset t hs cb, ?_⟩
    unfold OnAlarm
    have hs' : ({ t with registered := none } : EpollTimer).IsSet = false := hs
    rw [fire_unset _ hs']

/-- Witness of C25: a timer set for the time 7 whose callback sets it again for 9. -/
theorem fire_clears_then_calls_witness :
    (⟨7, true, some 7⟩ : EpollTimer).IsSet = true ∧
    (⟨7, true, some 7⟩ : EpollTimer).fire = (⟨0, true, some 7⟩, true) ∧
    (⟨7, true, some 7⟩ : EpollTimer).fire.1.IsSet = false ∧
    (⟨7, true, some 7⟩ : EpollTimer).fireWith (fun x => x.Set 9) = ⟨9, true, some 9⟩ :=
  ⟨rfl, ((fire_clears_then_calls ⟨7, true, some 7⟩).1 rfl).1,
    ((fire_clears_then_calls ⟨7, true, some 7⟩).1 rfl).2.1,
    (((fire_clears_then_calls ⟨7, true, some 7⟩).1 rfl).2.2.1 rfl (fun x => x.Set 9)).trans rfl⟩

end EpollTimer

namespace Time

/-! ## Time conversions -/

/-- C30: what the conversions return. For a time of `u ≥ 0` microseconds since the epoch,
`ToMilliSeconds()` returns `u / 1000000`, the whole seconds, as `ToTimeT()` does, and
`ToSeconds()` returns `u / 1000000000`; so from one millisecond on `ToMilliSeconds()` is
not `u / 1000`, and from one second on `ToSeconds()` is neither `u / 1000000` nor
`ToTimeT()`; and `FromTimeT(s).ToSeconds()` is `s / 1000`, not `s`, for every
`1 ≤ s < 2^40`. -/
theorem ToMilliSeconds_returns_seconds (u : Int) (hu : 0 ≤ u) :
    (Time.mk u).ToMilliSeconds = u / 1000000 ∧ (Time.mk u).ToTimeT = u / 1000000 ∧
    (Time.mk u).ToSeconds = u / 1000000000 ∧
    (1000 ≤ u → (Time.mk u).ToMilliSeconds ≠ u / 1000) ∧
    (1000000 ≤ u → (Time.mk u).ToSeconds ≠ u / 1000000 ∧
      (Time.mk u).ToSeconds ≠ (Time.mk u).ToTimeT) ∧
    (∀ s : Int, 1 ≤ s → s < 2 ^ 40 →
      (FromTimeT s).ToSeconds = s / 1000 ∧ (FromTimeT s).ToSeconds ≠ s) := by
  have hms : ∀ v : Int, 0 ≤ v → (Time.mk v).ToMilliSeconds = v / 1000000 := by
    intro v hv
    unfold ToMilliSeconds kMicrosecondsPerSecond
    rw [Int.tdiv_eq_ediv hv (by norm_num)]
    norm_num
  have hs : ∀ v : Int, 0 ≤ v → (Time.mk v).ToSeconds = v / 1000000000 := by
    intro v hv
    unfold ToSeconds
    rw [hms v hv, Int.tdiv_eq_ediv (by omega) (by norm_num)]
    omega
  have ht : (Time.mk u).ToTimeT = u / 1000000 := by
    unfold ToTimeT kMicrosecondsPerSecond
    rw [Int.tdiv_eq_ediv hu (by norm_num)]
    norm_num
  refine ⟨hms u hu, ht, hs u hu, fun h => ?_, fun h => ⟨?_, ?_⟩, fun s h1 h2 => ?_⟩
  · rw [hms u hu]; omega
  · rw [hs u hu]; omega
  · rw [hs u hu, ht]; omega
  · have hr : FromTimeT s = Time.mk (s * 1000000) := by
      unfold FromTimeT int64 kMicrosecondsPerSecond
      rw [toSigned_toUnsigned 64 _ (Or.inr (Or.inr (Or.inr rfl))) (by norm_num; omega)
        (by norm_num at h2 ⊢; omega)]
      norm_num
    rw [hr, hs _ (by omega)]
    constructor <;> omega

/-- Witness of C30: five seconds after the epoch. -/
theorem ToMilliSeconds_returns_seconds_witness :
    (0 : Int) ≤ 5000000 ∧ (Time.mk 5000000).ToMilliSeconds = 5 ∧
    (Time.mk 5000000).ToTimeT = 5 ∧ (Time.mk 5000000).ToSeconds = 0 ∧
    (FromTimeT 5).ToSeconds = 0 :=
  ⟨by decide, (ToMilliSeconds_returns_seconds 5000000 (by decide)).1.trans (by decide),
    (ToMilliSeconds_returns_seconds 5000000 (by decide)).2.1.trans (by decide),
    (ToMilliSeconds_returns_seconds 5000000 (by decide)).2.2.1.trans (by decide),
    ((ToMilliSeconds_returns_seconds 5000000 (by decide)).2.2.2.2.2 5 (by decide)
      (by norm_num)).1.trans (by decide)⟩

end Time
end raner

namespace raner
namespace EventLoopThreadPool

/-! ## The pool of loops -/

theorem succ_mod_cursor (k N : Nat) (hN : 0 < N) :
    (k + 1) % N = if N ≤ k % N + 1 then 0 else k % N + 1 := by
  have hr : k % N < N := Nat.mod_lt k hN
  rw [← Nat.mod_add_mod k N 1]
  by_cases h : N ≤ k % N + 1
  · rw [if_pos h]
    have e : k % N + 1 = N := by omega
    rw [e, Nat.mod_self]
  · rw [if_neg h]
    exact Nat.mod_eq_of_lt (by omega)

theorem loops_getElem (L : Nat → Nat) (N i : Nat) (h : i < N) :
    ((List.range N).map L)[i]? = some (L i) := by
  simp [h]

theorem intToSize_small (i : Int) (h0 : 0 ≤ i) (h1 : i < 2 ^ 32) :
    ByteBuffer.intToSize i = i.toNat := by
  unfold ByteBuffer.intToSize
  norm_num at h1 ⊢
  omega

/-- The calls on a started pool with `N ≥ 1` loops whose cursor stands at `k mod N`. -/
theorem calls_started (L : Nat → Nat) (N : Nat) (hN : 0 < N) (hN2 : N < 2 ^ 31)
    (ops : List PoolCall) :
    ∀ (p : EventLoopThreadPool) (k : Nat), p.started_ = true →
      p.loops_ = (List.range N).map L → p.next_ = ((k % N : Nat) : Int) →
      ∃ p', p.calls ops = some (p', roundRobin L N k ops) ∧ p'.started_ = true ∧
        p'.loops_ = p.loops_ ∧ p'.next_ = (((k + nextCalls ops) % N : Nat) : Int) ∧
        p'.base_loop_ = p.base_loop_ := by
  induction ops with
  | nil =>
    intro p k hs hl hn
    exact ⟨p, rfl, hs, rfl, by simpa [nextCalls] using hn, rfl⟩
  | cons op rest ih =>
    intro p k hs hl hn
    have hr : k % N < N := Nat.mod_lt k hN
    have hlen : p.loops_.length = N := by rw [hl]; simp
    have hne : p.loops_.isEmpty = false := by
      cases hp : p.loops_ with
      | nil => rw [hp] at hlen; simp at hlen; omega
      | cons a b => rfl
    cases op with
    | next =>
      have hg : p.GetNextLoop = some ({ p with next_ := (((k + 1) % N : Nat) : Int) },
          L (k % N)) := by
        unfold GetNextLoop
        rw [if_pos hs, if_pos (by simp [hne])]
        have hi : ByteBuffer.intToSize p.next_ = k % N := by
          rw [intToSize_small _ (by omega) (by rw [hn]; norm_num; omega), hn]
          exact Int.toNat_ofNat _
        rw [hi, hl, loops_getElem L N _ hr]
        simp only
        have h32 : int32 (p.next_ + 1) = ((k % N + 1 : Nat) : Int) := by
          rw [TCPClient.int32_small _ (by omega) (by rw [hn]; norm_num; omega), hn]
          rfl
        rw [h32]
        have hi2 : ByteBuffer.intToSize ((k % N + 1 : Nat) : Int) = k % N + 1 := by
          rw [intToSize_small _ (by omega) (by norm_num; omega)]
          exact Int.toNat_ofNat _
        rw [hi2, List.length_map, List.length_range, succ_mod_cursor k N hN]
        by_cases hc : N ≤ k % N + 1
        · rw [if_pos hc, if_pos hc]
          rfl
        · rw [if_neg hc, if_neg hc]
      obtain ⟨p', hc, hs', hl', hn', hb'⟩ := ih { p with next_ := (((k + 1) % N : Nat) : Int) }
        (k + 1) hs hl rfl
      refine ⟨p', ?_, hs', hl', ?_, hb'⟩
      · simp only [calls, hg, hc, roundRobin]
      · rw [hn']
        simp only [nextCalls]
        rw [show k + 1 + nextCalls rest = k + (nextCalls rest + 1) by omega]
    | hash h =>
      have hg : p.GetLoopForHash h = some (L (h % N)) := by
        unfold GetLoopForHash
        rw [if_pos (by simp [hne]), hlen, hl]
        exact loops_getElem L N _ (Nat.mod_lt h hN)
      obtain ⟨p', hc, hs', hl', hn', hb'⟩ := ih p k hs hl hn
      refine ⟨p', ?_, hs', hl', ?_, hb'⟩
      · simp only [calls, hg, hc, roundRobin]
      · rw [hn']
        simp only [nextCalls]

/-- The calls on a started pool without loops: every call returns the base loop. -/
theorem calls_base (ops : List PoolCall) :
    ∀ p : EventLoopThreadPool, p.started_ = true → p.loops_ = [] →
      p.calls ops = some (p, List.replicate ops.length p.base_loop_) := by
  induction ops with
  | nil =>
    intro p _ _
    rfl
  | cons op rest ih =>
    intro p hs hl
    cases op with
    | next =>
      have hg : p.GetNextLoop = some (p, p.base_loop_) := by
        unfold GetNextLoop
        rw [if_pos hs, hl]
        rfl
      simp only [calls, hg, ih p hs hl, List.length_cons, List.replicate_succ]
    | hash h =>
      have hg : p.GetLoopForHash h = some p.base_loop_ := by
        unfold GetLoopForHash
        rw [hl]
        rfl
      simp only [calls, hg, ih p hs hl, List.length_cons, List.replicate_succ]

theorem roundRobin_next (L : Nat → Nat) (N : Nat) (m : Nat) :
    ∀ k, roundRobin L N k (List.replicate m PoolCall.next)
      = (List.range m).map (fun i => L ((k + i) % N)) := by
  induction m with
  | zero => intro k; rfl
  | succ m ih =>
    intro k
    rw [List.replicate_succ, roundRobin, ih (k + 1), List.range_succ_eq_map]
    simp only [List.map_cons, List.map_map, Nat.add_zero]
    congr 1
    apply List.map_congr_left
    intro i _
    simp only [Function.comp]
    rw [show k + 1 + i = k + (i + 1) by omega]

/-- C22: round-robin dispatch. A pool constructed on the base loop, given the thread number
`n` (an `int`) and started, holds the loops `L 0, ..., L (N - 1)` with `N = n` when
`n ≥ 1`, and no loop when `n ≤ 0`.
For `N ≥ 1` every sequence of `GetNextLoop` and `GetLoopForHash` calls runs (no assertion
fails, no index leaves the vector) and returns the loops of the round-robin dispatch: the
`k`-th call of `GetNextLoop` returns `L (k mod N)` whatever calls of `GetLoopForHash`
(which return `L (hashCode mod N)`) lie in between; afterwards the cursor `next_` is the
number of `GetNextLoop` calls modulo `N`, hence in `[0, N)`; in particular `m` calls of
`GetNextLoop` in a row return `L (0 mod N), ..., L ((m - 1) mod N)`.
For `N = 0` every call returns the base loop and the pool is unchanged. -/
theorem round_robin_dispatch (base : Nat) (n : Int) (L : Nat → Nat) (ops : List PoolCall)
    (hlo : -2 ^ 31 ≤ n) (hhi : n < 2 ^ 31) :
    ∃ p, ((create base).SetThreadNum n).Start L = some p ∧
      p.loops_ = (List.range n.toNat).map L ∧ p.next_ = 0 ∧
      (1 ≤ n →
        (∃ p', p.calls ops = some (p', roundRobin L n.toNat 0 ops) ∧
          p'.loops_ = p.loops_ ∧ 0 ≤ p'.next_ ∧ p'.next_ < n ∧
          p'.next_ = ((nextCalls ops % n.toNat : Nat) : Int)) ∧
        (∀ m : Nat, ∃ p', p.calls (List.replicate m PoolCall.next)
          = some (p', (List.range m).map (fun k => L (k % n.toNat))))) ∧
      (n ≤ 0 → p.calls ops = some (p, List.replicate ops.length base)) := by
  refine ⟨_, rfl, by simp [create, SetThreadNum], rfl, fun h1 => ?_, fun h0 => ?_⟩
  · have hN : 0 < n.toNat := by omega
    have hN2 : n.toNat < 2 ^ 31 := by norm_num at hhi ⊢; omega
    constructor
    · obtain ⟨p', hc, -, hl', hn', -⟩ := calls_started L n.toNat hN hN2 ops
        { base_loop_ := base, started_ := true, num_threads_ := n, next_ := 0,
          loops_ := [] ++ (List.range n.toNat).map L } 0 rfl (by simp) (by simp)
      have hlt := Nat.mod_lt (0 + nextCalls ops) hN
      refine ⟨p', hc, hl', by rw [hn']; omega, by rw [hn']; omega, ?_⟩
      rw [hn']
      simp
    · intro m
      obtain ⟨p', hc, -⟩ := calls_started L n.toNat hN hN2 (List.replicate m PoolCall.next)
        { base_loop_ := base, started_ := true, num_threads_ := n, next_ := 0,
          loops_ := [] ++ (List.range n.toNat).map L } 0 rfl (by simp) (by simp)
      refine ⟨p', ?_⟩
      rw [roundRobin_next] at hc
      simpa using hc
  · have hz : n.toNat = 0 := by omega
    have := calls_base ops
      { base_loop_ := base, started_ := true, num_threads_ := n, next_ := 0,
        loops_ := [] ++ (List.range n.toNat).map L } rfl (by simp [hz])
    exact this

/-- Witness of C22: three loops 10, 11, 12 and the base loop 1; four calls of
`GetNextLoop` with two calls of `GetLoopForHash` in between. -/
theorem round_robin_dispatch_witness :
    (-2 ^ 31 : Int) ≤ 3 ∧ (3 : Int) < 2 ^ 31 ∧
    ∃ p p', ((create 1).SetThreadNum 3).Start (fun i => 10 + i) = some p ∧
      p.calls [PoolCall.next, PoolCall.hash 5, PoolCall.next, PoolCall.next,
        PoolCall.hash 7, PoolCall.next] = some (p', [10, 12, 11, 12, 11, 10]) ∧
      p'.next_ = 1 :=
  ⟨by norm_num, by norm_num,
    match round_robin_dispatch 1 3 (fun i => 10 + i)
      [PoolCall.next, PoolCall.hash 5, PoolCall.next, PoolCall.next,
        PoolCall.hash 7, PoolCall.next] (by norm_num) (by norm_num) with
    | ⟨p, h1, _, _, h2, _⟩ =>
      match (h2 (by norm_num)).1 with
      | ⟨p', h3, _, _, _, h4⟩ => ⟨p, p', h1, h3, h4⟩⟩

end EventLoopThreadPool
end raner

namespace raner
namespace LoopState

/-! ## The loop: drain of the pending functors -/

/-- Functors queued from the loop thread while a drain runs: appended, one wake each. -/
theorem queue_during_drain (gs : List EventLoop.Functor) :
    ∀ s : LoopState, s.calling_pending_functors_ = true →
      gs.foldl (fun st g => st.QueueInLoop g true) s
        = { s with pending_functors_ := s.pending_functors_ ++ gs,
                   wakes := s.wakes + gs.length } := by
  induction gs with
  | nil => intro s _; simp
  | cons g gs ih =>
    intro s hs
    rw [List.foldl_cons]
    have h1 : s.QueueInLoop g true
        = { s with pending_functors_ := s.pending_functors_ ++ [g], wakes := s.wakes + 1 } := by
      unfold QueueInLoop
      simp [hs]
    rw [h1]
    refine (ih _ ?_).trans ?_
    · exact hs
    · simp [Nat.add_assoc, Nat.add_comm 1]

/-- One functor called during a drain. -/
theorem call_during_drain (s : LoopState) (f : EventLoop.Functor)
    (hs : s.calling_pending_functors_ = true) :
    s.call f = { s with executed := s.executed ++ [f.id],
                        quit_ := s.quit_ || f.quits,
                        pending_functors_ := s.pending_functors_ ++ f.queues,
                        wakes := s.wakes + f.queues.length } := by
  unfold call
  simp only
  by_cases hq : f.quits = true
  · rw [if_pos hq]
    refine (queue_during_drain _ _ ?_).trans ?_
    · simp [Quit, hs]
    · simp [Quit, hq]
  · rw [if_neg hq]
    refine (queue_during_drain _ _ ?_).trans ?_
    · exact hs
    · simp [hq]

/-- The functors of a drain called one after the other. -/
theorem calls_during_drain (fs : List EventLoop.Functor) :
    ∀ s : LoopState, s.calling_pending_functors_ = true →
      fs.foldl call s
        = { s with executed := s.executed ++ fs.map EventLoop.Functor.id,
                   quit_ := s.quit_ || fs.any EventLoop.Functor.quits,
                   pending_functors_ :=
                     s.pending_functors_ ++ fs.flatMap EventLoop.Functor.queues,
                   wakes := s.wakes + (fs.flatMap EventLoop.Functor.queues).length } := by
  induction fs with
  | nil => intro s _; simp
  | cons f fs ih =>
    intro s hs
    rw [List.foldl_cons, call_during_drain s f hs]
    refine (ih _ ?_).trans ?_
    · exact hs
    · simp [List.flatMap_cons, Nat.add_assoc, Bool.or_assoc]

/-- The drain spelled out. -/
theorem doPendingFunctors_eq (s : LoopState) :
    s.doPendingFunctors
      = { s with calling_pending_functors_ := false,
                 executed := s.executed ++ s.pending_functors_.map EventLoop.Functor.id,
                 quit_ := s.quit_ || s.pending_functors_.any EventLoop.Functor.quits,
                 pending_functors_ := s.pending_functors_.flatMap EventLoop.Functor.queues,
                 wakes := s.wakes
                   + (s.pending_functors_.flatMap EventLoop.Functor.queues).length } := by
  unfold doPendingFunctors
  simp only
  rw [calls_during_drain s.pending_functors_
    { s with calling_pending_functors_ := true, pending_functors_ := [] } rfl]
  simp

/-- C23: the drain of the pending functors is FIFO over a snapshot. One call of
`doPendingFunctors` on the loop thread executes exactly the functors that were pending when
it began, each once and in the order of the queue; the functors these pass to
`QueueInLoop` during the drain are not executed in it: they are the pending queue
afterwards, in the order queued, each has caused one wake of the multiplexer, and the next
drain executes exactly them. `calling_pending_functors_` is false again afterwards.
`QueueInLoop` always appends the functor, and wakes the multiplexer exactly when the caller
is on another thread or a drain is running. -/
theorem drain_fifo_snapshot (s : LoopState) :
    s.doPendingFunctors.executed
      = s.executed ++ s.pending_functors_.map EventLoop.Functor.id ∧
    s.doPendingFunctors.pending_functors_
      = s.pending_functors_.flatMap EventLoop.Functor.queues ∧
    s.doPendingFunctors.wakes
      = s.wakes + (s.pending_functors_.flatMap EventLoop.Functor.queues).length ∧
    s.doPendingFunctors.calling_pending_functors_ = false ∧
    s.doPendingFunctors.doPendingFunctors.executed
      = s.executed ++ s.pending_functors_.map EventLoop.Functor.id
        ++ (s.pending_functors_.flatMap EventLoop.Functor.queues).map EventLoop.Functor.id ∧
    (∀ (cb : EventLoop.Functor) (in_loop_thread : Bool),
      (s.QueueInLoop cb in_loop_thread).pending_functors_ = s.pending_functors_ ++ [cb] ∧
      (s.QueueInLoop cb in_loop_thread).executed = s.executed ∧
      (s.QueueInLoop cb in_loop_thread).wakes = s.wakes +
        (if in_loop_thread = false ∨ s.calling_pending_functors_ = true then 1 else 0)) := by
  refine ⟨by rw [doPendingFunctors_eq], by rw [doPendingFunctors_eq],
    by rw [doPendingFunctors_eq], by rw [doPendingFunctors_eq], ?_, fun cb b => ?_⟩
  · rw [doPendingFunctors_eq s.doPendingFunctors, doPendingFunctors_eq s]
  · unfold QueueInLoop
    simp only
    by_cases h : b = false ∨ s.calling_pending_functors_ = true
    · rw [if_pos h, if_pos (by rcases h with h | h <;> simp [h])]
      exact ⟨rfl, rfl, rfl⟩
    · rw [if_neg h, if_neg (by
        intro hh
        apply h
        rcases Bool.or_eq_true _ _ |>.mp hh with h1 | h1
        · left; simpa using h1
        · right; exact h1)]
      exact ⟨rfl, rfl, rfl⟩

/-- Witness of C23: the queue holds the functors 1 and 2; functor 1 queues the functors 3
and 4 when it runs. The drain runs 1 and 2, leaves 3 and 4 pending with two wakes, and the
next drain runs 3 and 4. -/
theorem drain_fifo_snapshot_witness :
    ({ create with pending_functors_ :=
        [EventLoop.Functor.mk 1 false
          [EventLoop.Functor.mk 3 false [], EventLoop.Functor.mk 4 false []],
         EventLoop.Functor.mk 2 false []] } : LoopState).doPendingFunctors.executed = [1, 2] ∧
    ({ create with pending_functors_ :=
        [EventLoop.Functor.mk 1 false
          [EventLoop.Functor.mk 3 false [], EventLoop.Functor.mk 4 false []],
         EventLoop.Functor.mk 2 false []] } : LoopState).doPendingFunctors.wakes = 2 ∧
    ({ create with pending_functors_ :=
        [EventLoop.Functor.mk 1 false
          [EventLoop.Functor.mk 3 false [], EventLoop.Functor.mk 4 false []],
         EventLoop.Functor.mk 2 false []] }
      : LoopState).doPendingFunctors.doPendingFunctors.executed = [1, 2, 3, 4] :=
  ⟨(drain_fifo_snapshot _).1.trans rfl, (drain_fifo_snapshot _).2.2.1.trans rfl,
    (drain_fifo_snapshot _).2.2.2.2.1.trans rfl⟩

end LoopState
end raner

namespace raner
namespace LoopState

/-! ## The loop: `Loop()` and `Quit()` -/

theorem whileLoop_quit (inputs : List Iteration) (σ : LoopState) (m : Nat)
    (h : σ.quit_ = true) : whileLoop inputs σ m = LoopResult.returned σ m := by
  cases inputs with
  | nil => simp [whileLoop, h]
  | cons a rest => simp [whileLoop, h]

theorem whileLoop_step (a : Iteration) (rest : List Iteration) (σ : LoopState) (m : Nat)
    (h : σ.quit_ = false) :
    whileLoop (a :: rest) σ m = whileLoop rest (σ.iterate a) (m + 1) := by
  simp [whileLoop, h]

/-- When the `while` loop returns: after the first iteration that leaves `quit_` set. -/
theorem whileLoop_returned (inputs : List Iteration) :
    ∀ (σ : LoopState) (m : Nat), σ.quit_ = false → ∀ (s' : LoopState) (n : Nat),
      (whileLoop inputs σ m = LoopResult.returned s' n ↔
        ∃ j, 1 ≤ j ∧ j ≤ inputs.length ∧ n = m + j ∧
          s' = (inputs.take j).foldl iterate σ ∧
          ((inputs.take j).foldl iterate σ).quit_ = true ∧
          ∀ i, i < j → ((inputs.take i).foldl iterate σ).quit_ = false) := by
  induction inputs with
  | nil =>
    intro σ m hq s' n
    constructor
    · intro h
      simp [whileLoop, hq] at h
    · rintro ⟨j, h1, h2, -⟩
      simp at h2
      omega
  | cons a rest ih =>
    intro σ m hq s' n
    rw [whileLoop_step a rest σ m hq]
    by_cases hq1 : (σ.iterate a).quit_ = true
    · rw [whileLoop_quit rest _ _ hq1]
      constructor
      · intro h
        rw [LoopResult.returned.injEq] at h
        obtain ⟨h1, h2⟩ := h
        refine ⟨1, le_refl _, by simp, h2.symm, by simpa using h1.symm, by simpa using hq1, ?_⟩
        intro i hi
        have : i = 0 := by omega
        subst this
        simpa using hq
      · rintro ⟨j, h1, h2, h3, h4, h5, h6⟩
        have hj : j = 1 := by
          by_contra hne
          have := h6 1 (by omega)
          simp at this
          rw [this] at hq1
          cases hq1
        subst hj
        rw [LoopResult.returned.injEq]
        exact ⟨by simpa using h4.symm, h3.symm⟩
    · have hq1' : (σ.iterate a).quit_ = false := by simpa using hq1
      rw [ih (σ.iterate a) (m + 1) hq1' s' n]
      constructor
      · rintro ⟨j, h1, h2, h3, h4, h5, h6⟩
        refine ⟨j + 1, by omega, by simp; omega, by omega, by simpa using h4,
          by simpa using h5, ?_⟩
        intro i hi
        cases i with
        | zero => simpa using hq
        | succ i => simpa using h6 i (by omega)
      · rintro ⟨j, h1, h2, h3, h4, h5, h6⟩
        cases j with
        | zero => omega
        | succ j =>
          have hj : 1 ≤ j := by
            by_contra hne
            have hj0 : j = 0 := by omega
            subst hj0
            simp at h5
            rw [h5] at hq1'
            cases hq1'
          refine ⟨j, hj, by simp at h2; omega, by omega, by simpa using h4,
            by simpa using h5, ?_⟩
          intro i hi
          simpa using h6 (i + 1) (by omega)

theorem whileLoop_waiting_or_returned (inputs : List Iteration) :
    ∀ (σ : LoopState) (m : Nat), ∃ s' n,
      whileLoop inputs σ m = LoopResult.returned s' n ∨
      whileLoop inputs σ m = LoopResult.waiting s' n := by
  induction inputs with
  | nil =>
    intro σ m
    by_cases h : σ.quit_ = true
    · exact ⟨σ, m, Or.inl (by simp [whileLoop, h])⟩
    · exact ⟨σ, m, Or.inr (by simp [whileLoop, h])⟩
  | cons a rest ih =>
    intro σ m
    by_cases h : σ.quit_ = true
    · exact ⟨σ, m, Or.inl (by simp [whileLoop, h])⟩
    · have h' : σ.quit_ = false := by simpa using h
      rw [whileLoop_step a rest σ m h']
      exact ih _ _

theorem Quit_quit (s : LoopState) (b : Bool) :
    (s.Quit b).quit_ = true ∧ (s.Quit b).executed = s.executed ∧
    (s.Quit b).pending_functors_ = s.pending_functors_ := by
  unfold Quit
  simp only
  split <;> exact ⟨rfl, rfl, rfl⟩

theorem QueueInLoop_quit (s : LoopState) (cb : EventLoop.Functor) (b : Bool) :
    (s.QueueInLoop cb b).quit_ = s.quit_ ∧ (s.QueueInLoop cb b).executed = s.executed := by
  unfold QueueInLoop
  simp only
  split <;> exact ⟨rfl, rfl⟩

theorem act_quit (s : LoopState) (a : Action) :
    (s.quit_ = true → (s.act a).quit_ = true) ∧ (s.act a).executed = s.executed ∧
    (∀ b, a = Action.quit b → (s.act a).quit_ = true) := by
  cases a with
  | queue cb b =>
    refine ⟨fun h => ?_, (QueueInLoop_quit s cb b).2, fun b' h => by cases h⟩
    simp only [act]
    rw [(QueueInLoop_quit s cb b).1]
    exact h
  | quit b =>
    exact ⟨fun _ => (Quit_quit s b).1, (Quit_quit s b).2.1, fun _ _ => (Quit_quit s b).1⟩

theorem acts_quit (as : List Action) :
    ∀ s : LoopState, ((as.foldl act s).executed = s.executed) ∧
      (s.quit_ = true → (as.foldl act s).quit_ = true) ∧
      ((∃ b, Action.quit b ∈ as) → (as.foldl act s).quit_ = true) := by
  induction as with
  | nil =>
    intro s
    exact ⟨rfl, fun h => h, fun ⟨b, hb⟩ => by cases hb⟩
  | cons a as ih =>
    intro s
    rw [List.foldl_cons]
    obtain ⟨h1, h2, h3⟩ := ih (s.act a)
    refine ⟨by rw [h1, (act_quit s a).2.1], fun h => h2 ((act_quit s a).1 h), ?_⟩
    rintro ⟨b, hb⟩
    rcases List.mem_cons.mp hb with hb | hb
    · exact h2 ((act_quit s a).2.2 b hb.symm)
    · exact h3 ⟨b, hb⟩

theorem late_quit (as : List Action) :
    ∀ s : LoopState,
      ((as.foldl (fun st a => match a with
          | Action.queue cb _ => st.QueueInLoop cb false
          | Action.quit _ => st.Quit false) s).executed = s.executed) ∧
      (s.quit_ = true → (as.foldl (fun st a => match a with
          | Action.queue cb _ => st.QueueInLoop cb false
          | Action.quit _ => st.Quit false) s).quit_ = true) ∧
      ((∃ b, Action.quit b ∈ as) → (as.foldl (fun st a => match a with
          | Action.queue cb _ => st.QueueInLoop cb false
          | Action.quit _ => st.Quit false) s).quit_ = true) := by
  induction as with
  | nil =>
    intro s
    exact ⟨rfl, fun h => h, fun ⟨b, hb⟩ => by cases hb⟩
  | cons a as ih =>
    intro s
    rw [List.foldl_cons]
    cases a with
    | queue cb b =>
      obtain ⟨h1, h2, h3⟩ := ih (s.QueueInLoop cb false)
      refine ⟨by rw [h1, (QueueInLoop_quit s cb false).2],
        fun h => h2 (by rw [(QueueInLoop_quit s cb false).1]; exact h), ?_⟩
      rintro ⟨b', hb⟩
      rcases List.mem_cons.mp hb with hb | hb
      · cases hb
      · exact h3 ⟨b', hb⟩
    | quit b =>
      obtain ⟨h1, h2, h3⟩ := ih (s.Quit false)
      exact ⟨by rw [h1, (Quit_quit s false).2.1], fun _ => h2 (Quit_quit s false).1,
        fun _ => h2 (Quit_quit s false).1⟩

/-- One iteration: the drain runs in full whatever happens to `quit_`, and a `Quit()`
issued during the wait, by a functor of the drain or during the drain leaves `quit_` set
at the end of the iteration. -/
theorem iterate_effect (σ : LoopState) (i : Iteration) :
    (σ.iterate i).executed = σ.executed ++
      (i.during_wait.foldl act σ).pending_functors_.map EventLoop.Functor.id ∧
    (((∃ b, Action.quit b ∈ i.during_wait) ∨
      (∃ f ∈ (i.during_wait.foldl act σ).pending_functors_, f.quits = true) ∨
      (∃ b, Action.quit b ∈ i.during_drain)) → (σ.iterate i).quit_ = true) := by
  obtain ⟨w1, w2, w3⟩ := acts_quit i.during_wait σ
  have hk := late_quit i.during_drain
  unfold iterate
  simp only
  constructor
  · refine ((hk _).1).trans ?_
    rw [doPendingFunctors_eq]
    simp only
    rw [w1]
  · rintro (h | ⟨f, hf, hq⟩ | h)
    · refine (hk _).2.1 ?_
      rw [doPendingFunctors_eq]
      simp only
      rw [w3 h]
      rfl
    · refine (hk _).2.1 ?_
      rw [doPendingFunctors_eq]
      simp only
      rw [Bool.or_eq_true]
      right
      exact List.any_eq_true.mpr ⟨f, hf, hq⟩
    · exact (hk _).2.2 h

theorem acts_quit_conv (as : List Action) :
    ∀ s : LoopState, (as.foldl act s).quit_ = true →
      s.quit_ = true ∨ ∃ b, Action.quit b ∈ as := by
  induction as with
  | nil =>
    intro s h
    exact Or.inl h
  | cons a as ih =>
    intro s h
    rw [List.foldl_cons] at h
    rcases ih _ h with h1 | ⟨b, hb⟩
    · cases a with
      | queue cb b =>
        left
        simp only [act] at h1
        rw [(QueueInLoop_quit s cb b).1] at h1
        exact h1
      | quit b => exact Or.inr ⟨b, List.mem_cons_self _ _⟩
    · exact Or.inr ⟨b, List.mem_cons_of_mem _ hb⟩

theorem late_quit_conv (as : List Action) :
    ∀ s : LoopState, (as.foldl (fun st a => match a with
          | Action.queue cb _ => st.QueueInLoop cb false
          | Action.quit _ => st.Quit false) s).quit_ = true →
      s.quit_ = true ∨ ∃ b, Action.quit b ∈ as := by
  induction as with
  | nil =>
    intro s h
    exact Or.inl h
  | cons a as ih =>
    intro s h
    rw [List.foldl_cons] at h
    rcases ih _ h with h1 | ⟨b, hb⟩
    · cases a with
      | queue cb b =>
        left
        simp only at h1
        rw [(QueueInLoop_quit s cb false).1] at h1
        exact h1
      | quit b => exact Or.inr ⟨b, List.mem_cons_self _ _⟩
    · exact Or.inr ⟨b, List.mem_cons_of_mem _ hb⟩

/-- An iteration entered with `quit_` clear ends with `quit_` set only when `Quit()` was
called in it. -/
theorem iterate_quit_conv (σ : LoopState) (i : Iteration) (hq : σ.quit_ = false)
    (h : (σ.iterate i).quit_ = true) :
    (∃ b, Action.quit b ∈ i.during_wait) ∨
    (∃ f ∈ (i.during_wait.foldl act σ).pending_functors_, f.quits = true) ∨
    (∃ b, Action.quit b ∈ i.during_drain) := by
  have hk := late_quit_conv i.during_drain
  unfold iterate at h
  simp only at h
  rcases hk _ h with h1 | h1
  · rw [doPendingFunctors_eq] at h1
    simp only at h1
    rw [Bool.or_eq_true] at h1
    rcases h1 with h1 | h1
    · rcases acts_quit_conv _ _ h1 with h2 | h2
      · rw [hq] at h2
        cases h2
      · exact Or.inl h2
    · obtain ⟨f, hf, hfq⟩ := List.any_eq_true.mp h1
      exact Or.inr (Or.inl ⟨f, hf, hfq⟩)
  · exact Or.inr (Or.inr h1)

/-- What other threads do to a loop: `quit_` is set afterwards exactly when it was set
before or one of them called `Quit()`; nothing is executed. -/
theorem otherThreads_quit (s : LoopState) (actions : List Action) :
    (s.otherThreads actions).executed = s.executed ∧
    ((s.otherThreads actions).quit_ = true ↔
      s.quit_ = true ∨ ∃ b, Action.quit b ∈ actions) := by
  obtain ⟨l1, l2, l3⟩ := late_quit actions s
  exact ⟨l1, fun h => late_quit_conv actions s h, fun h => h.elim l2 l3⟩

/-- When the `while` loop returns, whatever the state it is entered in: at once if `quit_`
is set, and otherwise after the first iteration that leaves `quit_` set. -/
theorem whileLoop_returned_iff (inputs : List Iteration) (σ : LoopState) (m : Nat)
    (s' : LoopState) (n : Nat) :
    whileLoop inputs σ m = LoopResult.returned s' n ↔
      ∃ j, j ≤ inputs.length ∧ n = m + j ∧
        s' = (inputs.take j).foldl iterate σ ∧
        ((inputs.take j).foldl iterate σ).quit_ = true ∧
        ∀ i, i < j → ((inputs.take i).foldl iterate σ).quit_ = false := by
  by_cases hq : σ.quit_ = true
  · rw [whileLoop_quit inputs σ m hq, LoopResult.returned.injEq]
    constructor
    · rintro ⟨h1, h2⟩
      exact ⟨0, Nat.zero_le _, by omega, by simpa using h1.symm, by simpa using hq,
        fun i hi => by omega⟩
    · rintro ⟨j, -, h2, h3, -, h5⟩
      have hj : j = 0 := by
        by_contra hne
        have := h5 0 (by omega)
        simp at this
        rw [this] at hq
        cases hq
      subst hj
      exact ⟨by simpa using h3.symm, by omega⟩
  · have hq' : σ.quit_ = false := by simpa using hq
    rw [whileLoop_returned inputs σ m hq' s' n]
    constructor
    · rintro ⟨j, -, h2, h3, h4, h5, h6⟩
      exact ⟨j, h2, h3, h4, h5, h6⟩
    · rintro ⟨j, h2, h3, h4, h5, h6⟩
      refine ⟨j, ?_, h2, h3, h4, h5, h6⟩
      by_contra hne
      have hj : j = 0 := by omega
      subst hj
      simp at h5
      rw [h5] at hq'
      cases hq'

/-- Counterexample to C29: `Quit()` is called on a fresh loop, then `Loop()` is called and
clears the flag; before the first test of `while (!quit_)` another thread calls `Quit()`.
`Loop()` returns without a single iteration: the wait in which a functor would have been
queued never takes place and nothing is executed. -/
theorem quit_at_entry_returns_at_once :
    create.looping_ = false ∧ (create.Quit false).quit_ = true ∧
    Loop (create.Quit false) [Action.quit false]
        [⟨[Action.queue (EventLoop.Functor.mk 7 false []) false], []⟩]
      = some (LoopResult.returned { create with quit_ := true, wakes := 2 } 0) ∧
    ({ create with quit_ := true, wakes := 2 } : LoopState).executed = [] ∧
    ({ create with quit_ := true, wakes := 2 } : LoopState).iteration_ = 0 :=
  ⟨rfl, rfl, rfl, rfl, rfl⟩

/-- C29 (amended): a quit request made before the loop starts is discarded. On a loop that
is not looping and on which `Quit()` was called (from any thread), `Loop()` passes its
assertion and clears `quit_` on entry: with no further input it is waiting in the
multiplexer of its first iteration, it has not returned. With `at_entry` what other threads
do between the clearing of the flag and the first test of `while (!quit_)`, the flag is set
at that test exactly when one of them called `Quit()`. `Loop()` returns after `n`
iterations exactly when `quit_` is set after the `n`-th and after no earlier one (`n = 0`:
at the first test), each iteration being a multiplexer wait followed by a complete drain of
the functors pending after the wait; so when no `Quit()` arrives at entry it returns only
after at least one full iteration. An iteration entered with `quit_` clear ends with `quit_`
set exactly when `Quit()` was called in it: during the wait, by a functor of the drain, or
by another thread during the drain; in every case the drain of that iteration has run all
its functors. -/
theorem quit_before_loop_discarded (s : LoopState) (b : Bool) (at_entry : List Action)
    (inputs : List Iteration) (h : s.looping_ = false) :
    (s.Quit b).quit_ = true ∧
    Loop (s.Quit b) [] []
      = some (LoopResult.waiting { s.Quit b with looping_ := true, quit_ := false } 0) ∧
    (∃ r, Loop (s.Quit b) at_entry inputs = some r) ∧
    ((({ s.Quit b with looping_ := true, quit_ := false } : LoopState).otherThreads
        at_entry).quit_ = true ↔ ∃ b', Action.quit b' ∈ at_entry) ∧
    (∀ s' n, Loop (s.Quit b) at_entry inputs = some (LoopResult.returned s' n) ↔
      n ≤ inputs.length ∧
      s' = { (inputs.take n).foldl iterate
              (({ s.Quit b with looping_ := true, quit_ := false } : LoopState).otherThreads
                at_entry) with looping_ := false } ∧
      ((inputs.take n).foldl iterate
          (({ s.Quit b with looping_ := true, quit_ := false } : LoopState).otherThreads
            at_entry)).quit_ = true ∧
      ∀ i, i < n → ((inputs.take i).foldl iterate
          (({ s.Quit b with looping_ := true, quit_ := false } : LoopState).otherThreads
            at_entry)).quit_ = false) ∧
    ((¬ ∃ b', Action.quit b' ∈ at_entry) →
      ∀ s' n, Loop (s.Quit b) at_entry inputs = some (LoopResult.returned s' n) → 1 ≤ n) ∧
    (∀ (σ : LoopState) (i : Iteration),
      (σ.iterate i).executed = σ.executed ++
        (i.during_wait.foldl act σ).pending_functors_.map EventLoop.Functor.id ∧
      (σ.quit_ = false → ((σ.iterate i).quit_ = true ↔
        ((∃ b, Action.quit b ∈ i.during_wait) ∨
         (∃ f ∈ (i.during_wait.foldl act σ).pending_functors_, f.quits = true) ∨
         (∃ b, Action.quit b ∈ i.during_drain))))) := by
  have hl : (s.Quit b).looping_ = false := by
    unfold Quit
    simp only
    split <;> exact h
  have hentry : (({ s.Quit b with looping_ := true, quit_ := false } : LoopState).otherThreads
      at_entry).quit_ = true ↔ ∃ b', Action.quit b' ∈ at_entry := by
    rw [(otherThreads_quit _ at_entry).2]
    constructor
    · rintro (h0 | h0)
      · cases h0
      · exact h0
    · exact Or.inr
  have hret : ∀ s' n, Loop (s.Quit b) at_entry inputs = some (LoopResult.returned s' n) ↔
      n ≤ inputs.length ∧
      s' = { (inputs.take n).foldl iterate
              (({ s.Quit b with looping_ := true, quit_ := false } : LoopState).otherThreads
                at_entry) with looping_ := false } ∧
      ((inputs.take n).foldl iterate
          (({ s.Quit b with looping_ := true, quit_ := false } : LoopState).otherThreads
            at_entry)).quit_ = true ∧
      ∀ i, i < n → ((inputs.take i).foldl iterate
          (({ s.Quit b with looping_ := true, quit_ := false } : LoopState).otherThreads
            at_entry)).quit_ = false := by
    intro s' n
    have key := whileLoop_returned_iff inputs
      (({ s.Quit b with looping_ := true, quit_ := false } : LoopState).otherThreads at_entry) 0
    unfold Loop
    simp only [hl, Bool.not_false, if_true]
    obtain ⟨s1, n1, hr | hr⟩ := whileLoop_waiting_or_returned inputs
      (({ s.Quit b with looping_ := true, quit_ := false } : LoopState).otherThreads at_entry) 0
    · rw [hr]
      simp only [Option.some.injEq, LoopResult.returned.injEq]
      obtain ⟨j, h2, h3, h4, h5, h6⟩ := (key s1 n1).mp hr
      have hj : j = n1 := by omega
      subst hj
      constructor
      · rintro ⟨e1, e2⟩
        subst e2
        exact ⟨h2, by rw [← e1, h4], h5, h6⟩
      · rintro ⟨g2, g3, g4, g5⟩
        have hn : n = j := by
          rcases Nat.lt_trichotomy n j with hlt | heq | hgt
          · have := h6 n hlt
            rw [this] at g4
            cases g4
          · exact heq
          · have := g5 j hgt
            rw [this] at h5
            cases h5
        subst hn
        exact ⟨by rw [g3, h4], rfl⟩
    · rw [hr]
      simp only [Option.some.injEq]
      constructor
      · intro e
        cases e
      · rintro ⟨g2, g3, g4, g5⟩
        have := (key _ n).mpr ⟨n, g2, by omega, rfl, g4, g5⟩
        rw [hr] at this
        cases this
  refine ⟨(Quit_quit s b).1, ?_, ?_, hentry, hret, ?_, ?_⟩
  · unfold Loop
    simp [hl, whileLoop, otherThreads]
  · unfold Loop
    simp only [hl, Bool.not_false, if_true]
    obtain ⟨s', n, hr | hr⟩ := whileLoop_waiting_or_returned inputs
      (({ s.Quit b with looping_ := true, quit_ := false } : LoopState).otherThreads at_entry) 0
    · rw [hr]
      exact ⟨_, rfl⟩
    · rw [hr]
      exact ⟨_, rfl⟩
  · intro hno s' n hr
    obtain ⟨-, -, g4, -⟩ := (hret s' n).mp hr
    by_contra hn
    have hn0 : n = 0 := by omega
    subst hn0
    simp only [List.take_zero, List.foldl_nil] at g4
    exact hno (hentry.mp g4)
  · intro σ i
    refine ⟨(iterate_effect σ i).1, fun hq => ⟨iterate_quit_conv σ i hq, (iterate_effect σ i).2⟩⟩

/-- Witness of C29 (amended): `Quit()` is called from another thread on a fresh loop, then
`Loop()` runs two iterations with nothing happening at entry: nothing happens in the first
iteration, a functor that quits is queued during the wait of the second. The loop returns
after the second iteration, with that functor executed. -/
theorem quit_before_loop_discarded_witness :
    create.looping_ = false ∧
    Loop (create.Quit false) []
        [⟨[], []⟩, ⟨[Action.queue (EventLoop.Functor.mk 7 true []) false], []⟩]
      = some (LoopResult.returned
          { create with quit_ := true, iteration_ := 2, executed := [7], wakes := 2 } 2) ∧
    Loop (create.Quit false) [] [⟨[], []⟩]
      = some (LoopResult.waiting
          { create with looping_ := true, iteration_ := 1, wakes := 1 } 1) :=
  ⟨rfl,
   ((quit_before_loop_discarded create false []
      [⟨[], []⟩, ⟨[Action.queue (EventLoop.Functor.mk 7 true []) false], []⟩] rfl).2.2.2.2.1
      _ 2).mpr ⟨by decide, rfl, rfl, by decide⟩,
   rfl⟩

end LoopState
end raner

namespace raner
namespace TCPConnection
open ByteBuffer

/-! ## Write-ready handling, outcome by outcome -/

theorem shutdownInLoop_wire (d : TCPConnection) :
    d.shutdownInLoop.socket_.wire = d.socket_.wire := by
  unfold shutdownInLoop
  split
  · simp only [Socket.ShutdownWrite]
    split <;> rfl
  · rfl

theorem shutdownInLoop_registered (d : TCPConnection) :
    d.shutdownInLoop.HasRegisterWrite = d.HasRegisterWrite :=
  HasRegisterWrite_congr d d.shutdownInLoop
    (by rw [(shutdownInLoop_frame d).2.1]) (shutdownInLoop_frame d).2.2.2.2.1

/-- The functor queued when the output buffer runs empty. -/
theorem queue_write_complete (d : TCPConnection) :
    (if d.write_complete_callback_ = true then d.QueueInLoop PendingFunctor.write_complete
      else d).state_ = d.state_ ∧
    (if d.write_complete_callback_ = true then d.QueueInLoop PendingFunctor.write_complete
      else d).socket_ = d.socket_ ∧
    (if d.write_complete_callback_ = true then d.QueueInLoop PendingFunctor.write_complete
      else d).output_buffer_ = d.output_buffer_ ∧
    (if d.write_complete_callback_ = true then d.QueueInLoop PendingFunctor.write_complete
      else d).loop_.epoll_server_ = d.loop_.epoll_server_ ∧
    (if d.write_complete_callback_ = true then d.QueueInLoop PendingFunctor.write_complete
      else d).loop_.pending_functors_ = d.loop_.pending_functors_ ++
        (if d.write_complete_callback_ = true then [PendingFunctor.write_complete] else []) := by
  split
  · exact ⟨rfl, rfl, rfl, rfl, rfl⟩
  · exact ⟨rfl, rfl, rfl, rfl, by simp⟩

/-- Write-ready handling when the socket accepts `n > 0` of the queued bytes. -/
theorem handleWrite_accepted (c : TCPConnection) (n : Nat)
    (hreg : c.HasRegisterWrite = true) (hinv : c.output_buffer_.Inv)
    (hpos : 0 < n) (hle : n ≤ c.output_buffer_.ReadableBytes) (hlt : n < 2 ^ 31) :
    ∃ c', c.handleWrite (SendResult.accepted n) = some c' ∧
      c'.output_buffer_.Inv ∧
      c'.output_buffer_.readable = c.output_buffer_.readable.drop n ∧
      c'.socket_.wire = c.socket_.wire ++ c.output_buffer_.readable.take n ∧
      c'.state_ = c.state_ ∧
      (n = c.output_buffer_.ReadableBytes →
        c'.HasRegisterWrite = false ∧
        c'.loop_.pending_functors_ = c.loop_.pending_functors_ ++
          (if c.write_complete_callback_ = true then [PendingFunctor.write_complete]
            else []) ∧
        c'.socket_.wr_shutdowns = c.socket_.wr_shutdowns +
          (if c.state_ = ConnState.kDisconnecting ∧ c.socket_.IsClosed = false then 1
            else 0)) ∧
      (n < c.output_buffer_.ReadableBytes →
        c'.HasRegisterWrite = true ∧
        c'.loop_.pending_functors_ = c.loop_.pending_functors_ ∧
        c'.socket_.wr_shutdowns = c.socket_.wr_shutdowns) := by
  obtain ⟨ob, hskip, hobi, hobr⟩ := SkipReadBytes_readable c.output_buffer_ n hinv hle
  have hlen : ob.ReadableBytes = c.output_buffer_.ReadableBytes - n := by
    rw [← readable_length ob hobi, hobr, List.length_drop, readable_length _ hinv]
  unfold handleWrite
  rw [if_pos hreg, Write_accepted _ _ _ n hlt]
  simp only
  rw [if_pos (by omega), Int.toNat_ofNat, hskip]
  simp only
  by_cases h0 : ob.ReadableBytes = 0
  · rw [if_pos h0]
    have hq := queue_write_complete (StopWrite { c with socket_ := { c.socket_ with wire := c.socket_.wire ++ c.output_buffer_.readable.take n }, output_buffer_ := ob })
    generalize (if (StopWrite { c with socket_ := { c.socket_ with wire := c.socket_.wire ++ c.output_buffer_.readable.take n }, output_buffer_ := ob }).write_complete_callback_ = true then (StopWrite { c with socket_ := { c.socket_ with wire := c.socket_.wire ++ c.output_buffer_.readable.take n }, output_buffer_ := ob }).QueueInLoop PendingFunctor.write_complete else (StopWrite { c with socket_ := { c.socket_ with wire := c.socket_.wire ++ c.output_buffer_.readable.take n }, output_buffer_ := ob })) = c4 at hq ⊢
    obtain ⟨q1, q2, q3, q4, q5⟩ := hq
    have hreg4 : c4.HasRegisterWrite = false := by
      rw [HasRegisterWrite_congr _ c4 q4 (by rw [q2])]
      exact HasRegisterWrite_StopWrite _
    have hst : c4.state_ = c.state_ := q1
    have hcl : c4.socket_.IsClosed = c.socket_.IsClosed := by rw [q2]; rfl
    by_cases hd : c4.state_ = ConnState.kDisconnecting
    · rw [if_pos hd]
      refine ⟨_, rfl, ?_, ?_, ?_, ?_, fun _ => ⟨?_, ?_, ?_⟩, fun h => by omega⟩
      · rw [(shutdownInLoop_frame c4).1, q3]; exact hobi
      · rw [(shutdownInLoop_frame c4).1, q3]; exact hobr
      · rw [shutdownInLoop_wire, q2]; rfl
      · rw [(shutdownInLoop_frame c4).2.2.1]; exact hst
      · rw [shutdownInLoop_registered]; exact hreg4
      · rw [(shutdownInLoop_frame c4).2.1, q5]; rfl
      · rw [shutdownInLoop_count, hreg4, hcl, q2]
        have hd' : c.state_ = ConnState.kDisconnecting := hst.symm.trans hd
        by_cases hc : c.socket_.IsClosed = false
        · rw [if_pos ⟨rfl, hc⟩, if_pos ⟨hd', hc⟩]
          rfl
        · rw [if_neg (fun hh => hc hh.2), if_neg (fun hh => hc hh.2)]
          rfl
    · rw [if_neg hd]
      refine ⟨_, rfl, ?_, ?_, ?_, hst, fun _ => ⟨hreg4, ?_, ?_⟩, fun h => by omega⟩
      · rw [q3]; exact hobi
      · rw [q3]; exact hobr
      · rw [q2]; rfl
      · rw [q5]; rfl
      · rw [q2, if_neg (fun hh => hd (hst.trans hh.1))]; rfl
  · rw [if_neg h0]
    exact ⟨_, rfl, hobi, hobr, rfl, rfl, fun h => by omega, fun _ => ⟨hreg, rfl, rfl⟩⟩

/-- C24: write-ready handling. When `handleWrite` runs with write interest registered on
an open socket that accepts `n > 0` of the queued bytes, it runs to its end, exactly the
first `n` bytes leave the output buffer and are the bytes the socket accepted, and the state
is unchanged. If the buffer is thereby empty, write interest is deregistered, the
write-complete functor is queued once when a callback is installed (and nothing otherwise),
and the socket is half-closed exactly when the state is Disconnecting. If bytes remain,
write interest stays registered, nothing is queued and no half-close is issued. -/
theorem write_ready_handling (c : TCPConnection) (n : Nat)
    (hreg : c.HasRegisterWrite = true) (hinv : c.output_buffer_.Inv)
    (hopen : c.socket_.IsClosed = false)
    (hpos : 0 < n) (hle : n ≤ c.output_buffer_.ReadableBytes) (hlt : n < 2 ^ 31) :
    ∃ c', c.handleWrite (SendResult.accepted n) = some c' ∧
      c'.output_buffer_.readable = c.output_buffer_.readable.drop n ∧
      c'.output_buffer_.ReadableBytes = c.output_buffer_.ReadableBytes - n ∧
      c'.socket_.wire = c.socket_.wire ++ c.output_buffer_.readable.take n ∧
      c'.state_ = c.state_ ∧
      (n = c.output_buffer_.ReadableBytes →
        c'.HasRegisterWrite = false ∧
        c'.loop_.pending_functors_ = c.loop_.pending_functors_ ++
          (if c.write_complete_callback_ = true then [PendingFunctor.write_complete]
            else []) ∧
        c'.socket_.wr_shutdowns = c.socket_.wr_shutdowns +
          (if c.state_ = ConnState.kDisconnecting then 1 else 0)) ∧
      (n < c.output_buffer_.ReadableBytes →
        c'.HasRegisterWrite = true ∧
        c'.loop_.pending_functors_ = c.loop_.pending_functors_ ∧
        c'.socket_.wr_shutdowns = c.socket_.wr_shutdowns) := by
  obtain ⟨c', h, h1, h2, h3, h4, h5, h6⟩ := handleWrite_accepted c n hreg hinv hpos hle hlt
  refine ⟨c', h, h2, ?_, h3, h4, fun hn => ?_, h6⟩
  · rw [← readable_length _ h1, h2, List.length_drop, readable_length _ hinv]
  · obtain ⟨g1, g2, g3⟩ := h5 hn
    refine ⟨g1, g2, ?_⟩
    rw [g3]
    by_cases hd : c.state_ = ConnState.kDisconnecting
    · rw [if_pos ⟨hd, hopen⟩, if_pos hd]
    · rw [if_neg (fun hh => hd hh.1), if_neg hd]

/-- Witness of C24: the sample connection with two bytes queued; the socket accepts both,
the buffer is empty afterwards, write interest is gone and the write-complete functor is
queued. -/
theorem write_ready_handling_witness :
    backlog.HasRegisterWrite = true ∧ backlog.output_buffer_.readable = [2, 3] ∧
    ∃ c', backlog.handleWrite (SendResult.accepted 2) = some c' ∧
      c'.output_buffer_.readable = [] ∧ c'.socket_.wire = [1, 2, 3] ∧
      c'.HasRegisterWrite = false ∧
      c'.loop_.pending_functors_ = [PendingFunctor.write_complete] :=
  ⟨by decide, by decide,
    match write_ready_handling backlog 2 (by decide) (by decide) (by decide) (by decide)
      (by decide) (by norm_num) with
    | ⟨c', h, h1, _, h3, _, h5, _⟩ =>
      ⟨c', h, h1.trans (by decide), h3.trans (by decide), (h5 (by decide)).1,
        (h5 (by decide)).2.1.trans (by decide)⟩⟩

end TCPConnection
end raner

namespace raner
namespace TCPConnection
open ByteBuffer

/-! ## The outgoing byte stream -/

/-- One `sendInLoop` on a connection that is not Disconnected, with a `send` outcome within
the contract and no fatal failure: the bytes on the wire followed by the queued bytes grow
by the message. -/
theorem sendInLoop_stream (c : TCPConnection) (data : List Byte) (res : SendResult)
    (hs : c.state_ ≠ ConnState.kDisconnected) (hinv : c.output_buffer_.Inv)
    (hok : sendOk data.length res = true) :
    ∃ c', c.sendInLoop data res = some c' ∧ c'.output_buffer_.Inv ∧ c'.state_ = c.state_ ∧
      c'.socket_.wire ++ c'.output_buffer_.readable
        = c.socket_.wire ++ c.output_buffer_.readable ++ data := by
  -- the queueing block, for locals that split the message
  have key : ∀ l : SendLocals, l.conn.output_buffer_ = c.output_buffer_ →
      l.conn.state_ = c.state_ → l.fault_error = false →
      l.nwrote + l.remaining = data.length →
      l.conn.socket_.wire = c.socket_.wire ++ data.take l.nwrote →
      (0 < l.nwrote → c.output_buffer_.readable = []) →
      ∃ c', queueRemaining l data = some c' ∧ c'.output_buffer_.Inv ∧
        c'.state_ = c.state_ ∧
        c'.socket_.wire ++ c'.output_buffer_.readable
          = c.socket_.wire ++ c.output_buffer_.readable ++ data := by
    intro l hob hst hf hlen hwire hempty
    by_cases hr : l.remaining = 0
    · refine ⟨l.conn, queueRemaining_skips l data (Or.inr hr), by rw [hob]; exact hinv, hst, ?_⟩
      have hn : l.nwrote = data.length := by omega
      rw [hwire, hob, hn, List.take_length]
      by_cases hd : data = []
      · subst hd
        simp
      · have : 0 < l.nwrote := by
          rw [hn]
          exact List.length_pos.mpr hd
        rw [hempty this]
        simp
    · obtain ⟨c', hq, hi, hrd, -, -, hst', -, -, -, hsock⟩ :=
        queueRemaining_queues l data (by rw [hob]; exact hinv) hlen hf (by omega)
      refine ⟨c', hq, hi, hst'.trans hst, ?_⟩
      rw [hsock, hrd, hwire, hob]
      by_cases hn : 0 < l.nwrote
      · rw [hempty hn]
        simp
      · have hn0 : l.nwrote = 0 := by omega
        rw [hn0]
        simp
  by_cases hdir : c.HasRegisterWrite = false ∧ c.output_buffer_.ReadableBytes = 0
  · rw [sendInLoop_direct c data res hs hdir.1 hdir.2]
    have hnil := readable_nil_of_empty _ hinv hdir.2
    cases res with
    | accepted k =>
      have hk : k ≤ data.length ∧ k < 2 ^ 31 := by simpa [sendOk] using hok
      rw [directWrite_accepted c data k hk.2 hk.1]
      simp only
      refine key _ ?_ ?_ rfl (by simp only; omega) ?_ (fun _ => hnil)
      · simp only
        split <;> rfl
      · simp only
        split <;> rfl
      · simp only
        split <;> rfl
    | failed e =>
      have he : e ≠ EPIPE ∧ e ≠ ECONNRESET := by simpa [sendOk] using hok
      rw [directWrite_failed c data e]
      simp only
      refine key _ rfl rfl ?_ (by simp) ?_ (fun h => by simp at h)
      · simp only
        by_cases hw : e ≠ EWOULDBLOCK
        · rw [if_pos hw, if_neg (fun hh => hh.elim he.1 he.2)]
        · rw [if_neg hw]
      · simp only [List.take_zero, List.append_nil]
        exact (setSocketError_closed c.socket_).2.2.1
  · rw [sendInLoop_queued c data res hs hdir]
    exact key _ rfl rfl rfl (by simp) (by simp) (fun h => by simp at h)

/-- One write-readiness event with a `send` outcome within the contract: the bytes on the
wire followed by the queued bytes stay the same. -/
theorem handleWrite_stream (c : TCPConnection) (res : SendResult)
    (hinv : c.output_buffer_.Inv)
    (hok : sendOk c.output_buffer_.ReadableBytes res = true) :
    ∃ c', c.handleWrite res = some c' ∧ c'.output_buffer_.Inv ∧ c'.state_ = c.state_ ∧
      c'.socket_.wire ++ c'.output_buffer_.readable
        = c.socket_.wire ++ c.output_buffer_.readable := by
  by_cases hreg : c.HasRegisterWrite = true
  · cases res with
    | accepted k =>
      have hk : k ≤ c.output_buffer_.ReadableBytes ∧ k < 2 ^ 31 := by simpa [sendOk] using hok
      by_cases h0 : k = 0
      · subst h0
        refine ⟨{ c with socket_ := { c.socket_ with wire := c.socket_.wire ++ c.output_buffer_.readable.take 0 } }, ?_, hinv, rfl, by simp⟩
        unfold handleWrite
        rw [if_pos hreg, Write_accepted _ _ _ 0 (by norm_num)]
        simp
      · obtain ⟨c', h, h1, h2, h3, h4, -⟩ :=
          handleWrite_accepted c k hreg hinv (by omega) hk.1 hk.2
        refine ⟨c', h, h1, h4, ?_⟩
        rw [h2, h3, List.append_assoc, List.take_append_drop]
    | failed e =>
      refine ⟨{ c with socket_ := c.socket_.setSocketError, errno := e }, ?_, hinv, rfl, ?_⟩
      · unfold handleWrite
        rw [if_pos hreg]
        simp [Socket.Write]
      · simp only
        rw [(setSocketError_closed c.socket_).2.2.1]
  · refine ⟨c, ?_, hinv, rfl, rfl⟩
    unfold handleWrite
    rw [if_neg hreg]

theorem messages_send (m : List Byte) (res : SendResult) (es : List StreamEvent) :
    messages (StreamEvent.send m res :: es) = m :: messages es := rfl

theorem messages_writable (res : SendResult) (es : List StreamEvent) :
    messages (StreamEvent.writable res :: es) = messages es := rfl

/-- Counterexample to C26: the sample connection after its close has been handled is
Disconnected; a `sendInLoop` of three bytes which the socket would accept in full returns
without writing or queueing anything, so the bytes on the wire followed by the output buffer
are empty while the messages passed to `sendInLoop` are the three bytes. -/
theorem disconnected_send_drops_message :
    blocked.handleClose.isSome = true ∧
    ((blocked.handleClose.getD blocked).state_ = ConnState.kDisconnected) ∧
    admissible (blocked.handleClose.getD blocked)
      [StreamEvent.send [1, 2, 3] (SendResult.accepted 3)] = true ∧
    (∃ c', streamRun (blocked.handleClose.getD blocked)
        [StreamEvent.send [1, 2, 3] (SendResult.accepted 3)] = some c' ∧
      c'.socket_.wire ++ c'.output_buffer_.readable = [] ∧
      c'.socket_.wire ++ c'.output_buffer_.readable ≠
        (blocked.handleClose.getD blocked).socket_.wire
          ++ (blocked.handleClose.getD blocked).output_buffer_.readable
          ++ (messages [StreamEvent.send [1, 2, 3] (SendResult.accepted 3)]).flatten) ∧
    (messages [StreamEvent.send [1, 2, 3] (SendResult.accepted 3)]).flatten = [1, 2, 3] := by
  refine ⟨by decide, by decide, by decide, ⟨_, rfl, by decide, by decide⟩, by decide⟩

/-- C26 (amended): the outgoing byte stream is preserved on a connection that is not
Disconnected. For every history of `sendInLoop` calls and write-readiness events on a
connection whose state is not Disconnected and whose output buffer satisfies the index
invariant, with every `send` outcome within the contract (at most the offered bytes
accepted, possibly none, or a failure other than `EPIPE` and `ECONNRESET`, `EWOULDBLOCK`
included): every call runs to its end, the state is unchanged, and the bytes accepted by the
socket followed by the content of the output buffer are those of the start followed by the
concatenation of all messages passed to `sendInLoop`, in order. -/
theorem outgoing_stream_preserved (c : TCPConnection) (events : List StreamEvent)
    (hs : c.state_ ≠ ConnState.kDisconnected) (hinv : c.output_buffer_.Inv)
    (hadm : c.admissible events = true) :
    ∃ c', c.streamRun events = some c' ∧ c'.output_buffer_.Inv ∧ c'.state_ = c.state_ ∧
      c'.socket_.wire ++ c'.output_buffer_.readable
        = c.socket_.wire ++ c.output_buffer_.readable ++ (messages events).flatten := by
  induction events generalizing c with
  | nil => exact ⟨c, rfl, hinv, rfl, by simp [messages]⟩
  | cons e es ih =>
    unfold admissible at hadm
    rw [Bool.and_eq_true] at hadm
    obtain ⟨hok, hrest⟩ := hadm
    have hstep : ∃ c1, c.streamStep e = some c1 ∧ c1.output_buffer_.Inv ∧
        c1.state_ = c.state_ ∧
        c1.socket_.wire ++ c1.output_buffer_.readable ++ (messages es).flatten
          = c.socket_.wire ++ c.output_buffer_.readable ++ (messages (e :: es)).flatten := by
      cases e with
      | send m res =>
        obtain ⟨c1, h1, h2, h3, h4⟩ := sendInLoop_stream c m res hs hinv hok
        exact ⟨c1, h1, h2, h3, by rw [h4, messages_send]; simp⟩
      | writable res =>
        obtain ⟨c1, h1, h2, h3, h4⟩ := handleWrite_stream c res hinv hok
        exact ⟨c1, h1, h2, h3, by rw [h4, messages_writable]⟩
    obtain ⟨c1, h1, h2, h3, h4⟩ := hstep
    rw [h1] at hrest
    obtain ⟨c', g1, g2, g3, g4⟩ := ih c1 (by rw [h3]; exact hs) h2 hrest
    refine ⟨c', ?_, g2, g3.trans h3, g4.trans h4⟩
    unfold streamRun
    rw [h1]
    exact g1

/-- Witness of C26 (amended): on the sample connection a message of three bytes is sent of
which the socket accepts one, a second message of two bytes is sent while the first is
queued, a write-readiness event passes two bytes and another one fails with
`EWOULDBLOCK`. -/
theorem outgoing_stream_preserved_witness :
    blocked.state_ ≠ ConnState.kDisconnected ∧
    ∃ c', blocked.streamRun
        [StreamEvent.send [1, 2, 3] (SendResult.accepted 1),
         StreamEvent.send [4, 5] (SendResult.accepted 2),
         StreamEvent.writable (SendResult.accepted 2),
         StreamEvent.writable (SendResult.failed EWOULDBLOCK)] = some c' ∧
      c'.socket_.wire = [1, 2, 3] ∧
      c'.socket_.wire ++ c'.output_buffer_.readable = [1, 2, 3, 4, 5] :=
  ⟨by decide,
    match outgoing_stream_preserved blocked
      [StreamEvent.send [1, 2, 3] (SendResult.accepted 1),
       StreamEvent.send [4, 5] (SendResult.accepted 2),
       StreamEvent.writable (SendResult.accepted 2),
       StreamEvent.writable (SendResult.failed EWOULDBLOCK)] (by decide) (by decide) (by decide) with
    | ⟨c', h, _, _, h4⟩ =>
      ⟨c', h, by
        have hc : some c' = some ((blocked.streamRun
          [StreamEvent.send [1, 2, 3] (SendResult.accepted 1),
           StreamEvent.send [4, 5] (SendResult.accepted 2),
           StreamEvent.writable (SendResult.accepted 2),
           StreamEvent.writable (SendResult.failed EWOULDBLOCK)]).getD blocked) := by
          rw [← h]; decide
        cases hc
        decide, h4.trans (by decide)⟩⟩

end TCPConnection
end raner

namespace raner
namespace TCPConnection

/-! ## Teardown of a connection -/

theorem shutdownInLoop_state (d : TCPConnection) : d.shutdownInLoop.state_ = d.state_ :=
  (shutdownInLoop_frame d).2.2.1

/-- C27: teardown does not reach the terminal state from Disconnecting. `ConnectDestroyed`
acts only on a Connected connection: on a Disconnecting one it changes nothing, so the
state stays Disconnecting and the assertion of the destructor fails when the owner then
drops its last reference. Such a connection is reached by every history that constructs a
connection, establishes it and calls `Shutdown()`; `ConnectDestroyed` then leaves it
Disconnecting. From Connected and from Disconnected the state afterwards is Disconnected and
the destructor passes. -/
theorem teardown_leaves_disconnecting (loop : EventLoop) (socket : Socket) (errno : Int) :
    (∀ c : TCPConnection, c.state_ = ConnState.kDisconnecting →
      c.ConnectDestroyed = c ∧ c.ConnectDestroyed.state_ = ConnState.kDisconnecting ∧
      c.ConnectDestroyed.destroy = none) ∧
    (∃ c', (construct loop socket errno).run
        [ConnEvent.established, ConnEvent.shutdown, ConnEvent.destroyed] = some c' ∧
      c'.state_ = ConnState.kDisconnecting ∧ c'.destroy = none) ∧
    (∀ c : TCPConnection,
      c.state_ = ConnState.kConnected ∨ c.state_ = ConnState.kDisconnected →
      c.ConnectDestroyed.state_ = ConnState.kDisconnected ∧
      c.ConnectDestroyed.destroy = some ()) := by
  have hdis : ∀ c : TCPConnection, c.state_ = ConnState.kDisconnecting →
      c.ConnectDestroyed = c ∧ c.ConnectDestroyed.state_ = ConnState.kDisconnecting ∧
      c.ConnectDestroyed.destroy = none := by
    intro c h
    have h1 : c.ConnectDestroyed = c := by
      unfold ConnectDestroyed
      rw [if_neg (by rw [h]; decide)]
    rw [h1]
    refine ⟨rfl, h, ?_⟩
    unfold destroy
    rw [if_neg (by rw [h]; decide)]
  refine ⟨hdis, ?_, ?_⟩
  · have hest : (construct loop socket errno).ConnectEstablished
        = some (((construct loop socket errno).setState
            ConnState.kConnected).RegisterFD.connection_callback_) := by
      unfold ConnectEstablished
      exact if_pos rfl
    have hst : ((((construct loop socket errno).setState
        ConnState.kConnected).RegisterFD.connection_callback_).Shutdown true).state_
          = ConnState.kDisconnecting := by
      have hc : (((construct loop socket errno).setState
          ConnState.kConnected).RegisterFD.connection_callback_).state_
            = ConnState.kConnected := rfl
      unfold Shutdown
      rw [if_pos hc]
      simp only [if_true]
      rw [shutdownInLoop_state]
      rfl
    refine ⟨((((construct loop socket errno).setState
        ConnState.kConnected).RegisterFD.connection_callback_).Shutdown true).ConnectDestroyed,
      ?_, (hdis _ hst).2.1, (hdis _ hst).2.2⟩
    simp only [run, step, hest]
  · intro c h
    rcases h with h | h
    · have h1 : c.ConnectDestroyed.state_ = ConnState.kDisconnected := by
        unfold ConnectDestroyed
        rw [if_pos h]
        rfl
      refine ⟨h1, ?_⟩
      unfold destroy
      rw [if_pos h1]
    · have h1 : c.ConnectDestroyed = c := by
        unfold ConnectDestroyed
        rw [if_neg (by rw [h]; decide)]
      rw [h1]
      refine ⟨h, ?_⟩
      unfold destroy
      rw [if_pos h]

end TCPConnection

namespace TCPClient

/-! ## The client after its connection is gone -/

/-- C28: the state of the client does not track the connection. When the connection of a
Connected client is closed and auto-retry is not enabled (or the desired-connect flag is
clear), `removeConnection` releases the connection and returns without touching the state:
the client is Connected and holds no connection, and every later `Connect()` fails the
assertion `state_ == kDisconnected` of `startInLoop`. -/
theorem connected_without_connection (c : TCPClient) (conn : TCPConnection)
    (out : ConnectOutcome) (now : Int)
    (hconn : c.connection_ = some conn)
    (hcs : conn.state_ = ConnState.kConnected ∨ conn.state_ = ConnState.kDisconnecting)
    (hstate : c.state_ = ClientState.kConnected)
    (h : ¬ (c.retry_ = true ∧ c.connect_ = true)) :
    ∃ c', c.connectionClosed out now = some c' ∧
      c'.state_ = ClientState.kConnected ∧ c'.connection_ = none ∧
      ∀ out2 now2, c'.Connect out2 now2 = none := by
  have hcl : ({ conn with loop_ := c.loop_ } : TCPConnection).handleClose
      = some ((({ conn with loop_ := c.loop_ } : TCPConnection).setState
          ConnState.kDisconnected).UnregisterFD.connection_callback_.close_callback_) := by
    unfold TCPConnection.handleClose
    rw [if_pos hcs]
  generalize ((({ conn with loop_ := c.loop_ } : TCPConnection).setState
      ConnState.kDisconnected).UnregisterFD.connection_callback_.close_callback_) = conn1 at hcl
  have hrm := removeConnection_plain { c with connection_ := some conn1, loop_ := conn1.loop_ }
    out now rfl h
  unfold connectionClosed
  rw [hconn]
  simp only [hcl]
  refine ⟨_, hrm, hstate, rfl, ?_⟩
  intro out2 now2
  unfold Connect startInLoop
  simp only
  rw [if_neg (by rw [hstate]; decide)]

/-- Witness of C28: the sample client, constructed without auto-retry, connected on fd 5;
the peer closes the connection, and the next `Connect()` fails the assertion. -/
theorem connected_without_connection_witness :
    established.state_ = ClientState.kConnected ∧ established.connection_.isSome = true ∧
    established.retry_ = false ∧
    (create ⟨⟨[], []⟩, []⟩ 0).run
      [ClientEvent.connect (ConnectOutcome.started 5) 0,
       ClientEvent.writable 0 1000,
       ClientEvent.connection_closed (ConnectOutcome.started 6) 2000,
       ClientEvent.connect (ConnectOutcome.started 6) 3000] = none ∧
    ∃ c', established.connectionClosed (ConnectOutcome.started 6) 2000 = some c' ∧
      c'.state_ = ClientState.kConnected ∧ c'.connection_ = none ∧
      ∀ out2 now2, c'.Connect out2 now2 = none :=
  ⟨rfl, rfl, rfl, rfl,
    connected_without_connection established (established.connection_.getD TCPConnection.blocked)
      (ConnectOutcome.started 6) 2000 rfl (Or.inl rfl) rfl
      (fun hh => Bool.noConfusion ((show established.retry_ = false from rfl).symm.trans hh.1))⟩

end TCPClient
end raner

namespace raner
namespace TCPConnection
open ByteBuffer

/-! ## A failed write and the multiplexer -/

theorem StartWrite_fds (e : EpollServer) (fd : Int) : (e.StartWrite fd).fds = e.fds := by
  unfold EpollServer.StartWrite
  split <;> rfl

/-- Unregistering the fd `-1` leaves every real descriptor registered as it was. -/
theorem UnregisterFD_closed (e : EpollServer) (fd : Int) (hfd : 0 ≤ fd) :
    (e.UnregisterFD (-1)).IsRegistered fd = e.IsRegistered fd := by
  unfold EpollServer.UnregisterFD EpollServer.IsRegistered
  simp only [List.mem_filter, decide_eq_true_eq]
  by_cases h : fd ∈ e.fds
  · simp [h]
    omega
  · simp [h]

/-- A send on an open socket whose `send` fails, with whatever `errno`: `Socket::Write`
has closed the socket, so `socket_->fd()` is `-1` afterwards; the state and the calls made
are unchanged and the multiplexer has at most gained write interest for the fd `-1`. -/
theorem sendInLoop_failed (c : TCPConnection) (data : List Byte) (e : Int)
    (hs : c.state_ ≠ ConnState.kDisconnected) (hreg : c.HasRegisterWrite = false)
    (hempty : c.output_buffer_.ReadableBytes = 0) (hinv : c.output_buffer_.Inv)
    (hopen : c.socket_.IsClosed = false) :
    ∃ c1, c.sendInLoop data (SendResult.failed e) = some c1 ∧
      c1.state_ = c.state_ ∧ c1.calls = c.calls ∧
      c1.socket_ = c.socket_.setSocketError ∧ c1.socket_.fd_ = -1 ∧
      c1.socket_.socket_error_ = true ∧
      (c1.loop_.epoll_server_ = c.loop_.epoll_server_ ∨
        c1.loop_.epoll_server_ = c.loop_.epoll_server_.StartWrite (-1)) := by
  have hfd : ¬ c.socket_.fd_ < 0 := by simpa [Socket.IsClosed] using hopen
  have hfd1 : c.socket_.setSocketError.fd_ = -1 := by
    simp [Socket.setSocketError, Socket.Close, Socket.IsClosed, hfd]
  rw [sendInLoop_direct c data _ hs hreg hempty, directWrite_failed c data e]
  simp only
  obtain ⟨c1, h1⟩ := queueRemaining_total
    { conn := { c with socket_ := c.socket_.setSocketError, errno := e },
      nwrote := 0, remaining := data.length,
      fault_error := if e ≠ EWOULDBLOCK then
          if e = EPIPE ∨ e = ECONNRESET then true else false
        else false } data hinv (by simp)
  obtain ⟨q1, q2, q3, -, -⟩ := queueRemaining_frame _ data c1 h1
  have q4 := queueRemaining_epoll _ data c1 h1
  refine ⟨c1, h1, q1, q2, q3, by rw [q3]; exact hfd1,
    by rw [q3]; exact (setSocketError_closed c.socket_).1, ?_⟩
  rcases q4 with q4 | q4
  · exact Or.inl q4
  · right
    rw [q4]
    show c.loop_.epoll_server_.StartWrite c.socket_.setSocketError.fd_ = _
    rw [hfd1]

/-- After such a failed send, unregistering `socket_->fd()` leaves the descriptor of the
connection registered as it was. -/
theorem failed_send_keeps_registration (c c1 : TCPConnection)
    (hopen : c.socket_.IsClosed = false)
    (hfd1 : c1.socket_.fd_ = -1)
    (hep : c1.loop_.epoll_server_ = c.loop_.epoll_server_ ∨
      c1.loop_.epoll_server_ = c.loop_.epoll_server_.StartWrite (-1)) :
    (c1.loop_.epoll_server_.UnregisterFD c1.socket_.fd_).IsRegistered c.socket_.fd_
      = c.loop_.epoll_server_.IsRegistered c.socket_.fd_ := by
  have hfd : 0 ≤ c.socket_.fd_ := by
    have : ¬ c.socket_.fd_ < 0 := by simpa [Socket.IsClosed] using hopen
    omega
  rw [hfd1, UnregisterFD_closed _ _ hfd]
  rcases hep with h | h
  · rw [h]
  · rw [h]
    unfold EpollServer.IsRegistered
    rw [StartWrite_fds]

/-- C11: the send fast path treats `EWOULDBLOCK` as an error. Let `sendInLoop(data, len)`
with `len > 0` run on a connection that is not Disconnected, has no write interest
registered, an empty output buffer (satisfying the index invariant) and an open socket, and
let `send` fail with `EWOULDBLOCK`/`EAGAIN`. The call returns with the whole message queued
and the state unchanged, but `Socket::Write` has set the error flag of the socket and closed
it: `socket_->fd()` is `-1`, the write interest that `sendInLoop` starts is registered for
the fd `-1`, and the descriptor the connection was using has no write interest, so no
write-readiness event will drain the queued message. -/
theorem would_block_send_closes_socket (c : TCPConnection) (data : List Byte)
    (hs : c.state_ ≠ ConnState.kDisconnected) (hreg : c.HasRegisterWrite = false)
    (hempty : c.output_buffer_.ReadableBytes = 0) (hinv : c.output_buffer_.Inv)
    (hopen : c.socket_.IsClosed = false) (hlen : 0 < data.length) :
    ∃ c', c.sendInLoop data (SendResult.failed EWOULDBLOCK) = some c' ∧
      c'.output_buffer_.readable = data ∧ c'.state_ = c.state_ ∧
      c'.socket_.socket_error_ = true ∧ c'.socket_.IsClosed = true ∧
      c'.socket_.fd_ = -1 ∧
      c'.loop_.epoll_server_ = c.loop_.epoll_server_.StartWrite (-1) ∧
      c'.loop_.epoll_server_.HasRegisterWrite (-1) = true ∧
      c'.loop_.epoll_server_.HasRegisterWrite c.socket_.fd_ = false := by
  obtain ⟨c', h, h1, h2, h3, h4, h5, h6⟩ := sendInLoop_would_block c data hs hreg hempty hinv hopen
  have hfd : ¬ c.socket_.fd_ < 0 := by simpa [Socket.IsClosed] using hopen
  have hnot : c.socket_.fd_ ∉ c.loop_.epoll_server_.write_fds := by
    have : decide (c.socket_.fd_ ∈ c.loop_.epoll_server_.write_fds) = false := hreg
    simpa using this
  -- the queueing block has run, so write interest was started
  have hq : c'.HasRegisterWrite = true := by
    have hrd0 := readable_nil_of_empty _ hinv hempty
    rw [sendInLoop_direct c data _ hs hreg hempty, directWrite_failed c data EWOULDBLOCK] at h
    simp only [ne_eq, not_true_eq_false, if_false] at h
    obtain ⟨c2, hq2, -, -, -, hr2, -⟩ := queueRemaining_queues
      { conn := { c with socket_ := c.socket_.setSocketError, errno := EWOULDBLOCK },
        nwrote := 0, remaining := data.length, fault_error := false } data hinv (by simp) rfl hlen
    rw [hq2] at h
    cases h
    exact hr2
  have hw : c'.loop_.epoll_server_.HasRegisterWrite (-1) = true := by
    have := hq
    unfold HasRegisterWrite at this
    rw [h4] at this
    exact this
  have hep : c'.loop_.epoll_server_ = c.loop_.epoll_server_.StartWrite (-1) := by
    rcases h6 with h6 | h6
    · rw [h6] at hw
      have hw' : (-1 : Int) ∈ c.loop_.epoll_server_.write_fds := by
        simpa [EpollServer.HasRegisterWrite] using hw
      rw [h6]
      unfold EpollServer.StartWrite
      rw [if_pos hw']
    · exact h6
  refine ⟨c', h, h1, h2, ?_, ?_, h4, hep, hw, h5⟩
  · rw [h3]; exact (setSocketError_closed c.socket_).1
  · rw [h3]; exact (setSocketError_closed c.socket_).2.1

/-- Witness of C11: the sample connection, on the open socket 5, sends three bytes and
`send` fails with `EWOULDBLOCK`. -/
theorem would_block_send_closes_socket_witness :
    blocked.state_ ≠ ConnState.kDisconnected ∧ blocked.HasRegisterWrite = false ∧
    blocked.socket_.fd_ = 5 ∧
    ∃ c', blocked.sendInLoop [1, 2, 3] (SendResult.failed EWOULDBLOCK) = some c' ∧
      c'.output_buffer_.readable = [1, 2, 3] ∧ c'.socket_.socket_error_ = true ∧
      c'.socket_.fd_ = -1 ∧ c'.loop_.epoll_server_.write_fds = [-1] ∧
      c'.loop_.epoll_server_.HasRegisterWrite 5 = false :=
  ⟨by decide, rfl, rfl,
    match would_block_send_closes_socket blocked [1, 2, 3] (by decide) rfl rfl (by decide) rfl
      (by decide) with
    | ⟨c', h, h1, _, h3, _, h5, h6, _, h8⟩ =>
      ⟨c', h, h1, h3, h5, by rw [h6]; rfl, h8⟩⟩

/-- C13: the close sequence leaves the descriptor registered after a failed write.
`handleClose` on a connection in state Connected or Disconnecting returns with the state
Disconnected, has called `UnregisterFD(socket_->fd())` and then exactly the connection
callback (which sees the connection as not connected) and, last, the close callback; a
read of 0 bytes and a forced close run in the loop do exactly this. On a connection whose
socket is open this unregisters the descriptor of the connection. But when a write has
failed before (here: a send on an idle connection whose `send` fails with any `errno`),
`Socket::Write` has closed the socket, `socket_->fd()` is `-1`, and the close sequence
leaves the descriptor that `ConnectEstablished` registered in the multiplexer. -/
theorem close_leaves_fd_registered (c : TCPConnection) (data : List Byte) (e : Int)
    (hs : c.state_ = ConnState.kConnected ∨ c.state_ = ConnState.kDisconnecting)
    (hreg : c.HasRegisterWrite = false) (hempty : c.output_buffer_.ReadableBytes = 0)
    (hinv : c.output_buffer_.Inv) (hopen : c.socket_.IsClosed = false)
    (hfd : c.loop_.epoll_server_.IsRegistered c.socket_.fd_ = true) :
    (∃ c', c.handleClose = some c' ∧ c'.state_ = ConnState.kDisconnected ∧
      c'.loop_.epoll_server_ = c.loop_.epoll_server_.UnregisterFD c.socket_.fd_ ∧
      c'.calls = c.calls ++ [UserCall.connection false, UserCall.close] ∧
      c.forceCloseInLoop = some c' ∧
      (c.input_buffer_.Inv → c.handleRead (ByteBuffer.ReadvResult.data []) = some c') ∧
      c'.loop_.epoll_server_.IsRegistered c.socket_.fd_ = false) ∧
    (∃ c1 c2, c.sendInLoop data (SendResult.failed e) = some c1 ∧
      c1.state_ = c.state_ ∧ c1.socket_.fd_ = -1 ∧
      c1.handleClose = some c2 ∧ c1.forceCloseInLoop = some c2 ∧
      c2.state_ = ConnState.kDisconnected ∧
      c2.loop_.epoll_server_ = c1.loop_.epoll_server_.UnregisterFD (-1) ∧
      c2.calls = c.calls ++ [UserCall.connection false, UserCall.close] ∧
      c2.loop_.epoll_server_.IsRegistered c.socket_.fd_ = true) := by
  constructor
  · refine ⟨_, handleClose_eq c hs, rfl, rfl, rfl, ?_, ?_,
      (UnregisterFD_not_registered _ _).1⟩
    · unfold forceCloseInLoop
      rw [if_pos hs]
      exact handleClose_eq c hs
    · intro hi
      unfold handleRead
      simp only [ReadFD_zero _ hi]
      simp only [lt_self_iff_false, if_false, if_true]
      exact handleClose_eq c hs
  · obtain ⟨c1, h1, h2, h3, h4, h5, -, h7⟩ := sendInLoop_failed c data e
      (by rcases hs with hs | hs <;> (rw [hs]; decide)) hreg hempty hinv hopen
    have hs1 : c1.state_ = ConnState.kConnected ∨ c1.state_ = ConnState.kDisconnecting := by
      rw [h2]; exact hs
    have hk := failed_send_keeps_registration c c1 hopen h5 h7
    refine ⟨c1, _, h1, h2, h5, handleClose_eq c1 hs1, ?_, rfl, ?_, ?_, ?_⟩
    · unfold forceCloseInLoop
      rw [if_pos hs1]
      exact handleClose_eq c1 hs1
    · show c1.loop_.epoll_server_.UnregisterFD c1.socket_.fd_ = _
      rw [h5]
    · show c1.calls ++ _ = _
      rw [h3]
    · show (c1.loop_.epoll_server_.UnregisterFD c1.socket_.fd_).IsRegistered c.socket_.fd_ = true
      rw [hk, hfd]

/-- Witness of C13: the sample connection, registered on fd 5; a send of three bytes fails
with `EPIPE`, then the close is forced in the loop: fd 5 is still registered. -/
theorem close_leaves_fd_registered_witness :
    (blocked.state_ = ConnState.kConnected ∨ blocked.state_ = ConnState.kDisconnecting) ∧
    blocked.loop_.epoll_server_.IsRegistered 5 = true ∧
    ∃ c1 c2, blocked.sendInLoop [1, 2, 3] (SendResult.failed EPIPE) = some c1 ∧
      c1.forceCloseInLoop = some c2 ∧ c2.state_ = ConnState.kDisconnected ∧
      c2.calls = blocked.calls ++ [UserCall.connection false, UserCall.close] ∧
      c2.loop_.epoll_server_.IsRegistered 5 = true :=
  ⟨Or.inl rfl, rfl,
    match (close_leaves_fd_registered blocked [1, 2, 3] EPIPE (Or.inl rfl) rfl rfl (by decide)
      rfl rfl).2 with
    | ⟨c1, c2, h1, _, _, _, h5, h6, _, h8, h9⟩ => ⟨c1, c2, h1, h5, h6, h8, h9⟩⟩

/-- C16: `ConnectDestroyed` leaves the descriptor registered after a failed write.
`ConnectDestroyed` acts only in state Connected: there it sets the state to Disconnected,
calls `UnregisterFD(socket_->fd())` and then the connection callback exactly once (which
sees the connection as not connected), and changes nothing else; in every other state it
returns the connection unchanged, so no callback runs; hence it is idempotent, and after
`handleClose` a later `ConnectDestroyed` changes nothing. On a Connected connection whose
socket is open this unregisters the descriptor of the connection. But when a write has
failed before (here: a send on an idle connection whose `send` fails with any `errno`),
`Socket::Write` has closed the socket, `socket_->fd()` is `-1`, and `ConnectDestroyed`
leaves the descriptor that `ConnectEstablished` registered in the multiplexer. -/
theorem destroy_leaves_fd_registered (c : TCPConnection) (data : List Byte) (e : Int)
    (hs : c.state_ = ConnState.kConnected)
    (hreg : c.HasRegisterWrite = false) (hempty : c.output_buffer_.ReadableBytes = 0)
    (hinv : c.output_buffer_.Inv) (hopen : c.socket_.IsClosed = false)
    (hfd : c.loop_.epoll_server_.IsRegistered c.socket_.fd_ = true) :
    (c.ConnectDestroyed =
        { c with state_ := ConnState.kDisconnected,
                 loop_ := { c.loop_ with
                   epoll_server_ := c.loop_.epoll_server_.UnregisterFD c.socket_.fd_ },
                 calls := c.calls ++ [UserCall.connection false] } ∧
      c.ConnectDestroyed.loop_.epoll_server_.IsRegistered c.socket_.fd_ = false) ∧
    (∀ d : TCPConnection, d.state_ ≠ ConnState.kConnected → d.ConnectDestroyed = d) ∧
    (∀ d : TCPConnection, d.ConnectDestroyed.ConnectDestroyed = d.ConnectDestroyed) ∧
    (∀ d d' : TCPConnection, d.handleClose = some d' → d'.ConnectDestroyed = d') ∧
    (∃ c1, c.sendInLoop data (SendResult.failed e) = some c1 ∧
      c1.state_ = ConnState.kConnected ∧ c1.socket_.fd_ = -1 ∧
      c1.ConnectDestroyed.state_ = ConnState.kDisconnected ∧
      c1.ConnectDestroyed.loop_.epoll_server_ = c1.loop_.epoll_server_.UnregisterFD (-1) ∧
      c1.ConnectDestroyed.calls = c.calls ++ [UserCall.connection false] ∧
      c1.ConnectDestroyed.loop_.epoll_server_.IsRegistered c.socket_.fd_ = true) := by
  have hne : ∀ d : TCPConnection, d.state_ ≠ ConnState.kConnected → d.ConnectDestroyed = d := by
    intro d hd
    unfold ConnectDestroyed
    rw [if_neg hd]
  have hcon : ∀ d : TCPConnection, d.state_ = ConnState.kConnected → d.ConnectDestroyed =
      { d with state_ := ConnState.kDisconnected,
               loop_ := { d.loop_ with
                 epoll_server_ := d.loop_.epoll_server_.UnregisterFD d.socket_.fd_ },
               calls := d.calls ++ [UserCall.connection false] } := by
    intro d hd
    unfold ConnectDestroyed
    rw [if_pos hd]
    simp [setState, UnregisterFD, connection_callback_, Connected]
  refine ⟨⟨hcon c hs, ?_⟩, hne, fun d => ?_, fun d d' h => ?_, ?_⟩
  · rw [hcon c hs]
    exact (UnregisterFD_not_registered _ _).1
  · by_cases hd : d.state_ = ConnState.kConnected
    · apply hne
      rw [hcon d hd]
      simp
    · rw [hne d hd, hne d hd]
  · have hd : d.state_ = ConnState.kConnected ∨ d.state_ = ConnState.kDisconnecting := by
      unfold handleClose at h
      by_contra hn
      rw [if_neg hn] at h
      cases h
    rw [handleClose_eq d hd] at h
    cases h
    exact hne _ (by simp)
  · obtain ⟨c1, h1, h2, h3, h4, h5, -, h7⟩ := sendInLoop_failed c data e
      (by rw [hs]; decide) hreg hempty hinv hopen
    have hs1 : c1.state_ = ConnState.kConnected := by rw [h2]; exact hs
    have hk := failed_send_keeps_registration c c1 hopen h5 h7
    refine ⟨c1, h1, hs1, h5, ?_, ?_, ?_, ?_⟩
    · rw [hcon c1 hs1]
    · rw [hcon c1 hs1]
      show c1.loop_.epoll_server_.UnregisterFD c1.socket_.fd_ = _
      rw [h5]
    · rw [hcon c1 hs1]
      show c1.calls ++ _ = _
      rw [h3]
    · rw [hcon c1 hs1]
      show (c1.loop_.epoll_server_.UnregisterFD c1.socket_.fd_).IsRegistered c.socket_.fd_ = true
      rw [hk, hfd]

/-- Witness of C16: the sample connection, registered on fd 5; a send of three bytes fails
with `EPIPE`, then the owner calls `ConnectDestroyed`: fd 5 is still registered. -/
theorem destroy_leaves_fd_registered_witness :
    blocked.state_ = ConnState.kConnected ∧
    blocked.loop_.epoll_server_.IsRegistered 5 = true ∧
    ∃ c1, blocked.sendInLoop [1, 2, 3] (SendResult.failed EPIPE) = some c1 ∧
      c1.ConnectDestroyed.state_ = ConnState.kDisconnected ∧
      c1.ConnectDestroyed.calls = blocked.calls ++ [UserCall.connection false] ∧
      c1.ConnectDestroyed.loop_.epoll_server_.IsRegistered 5 = true :=
  ⟨rfl, rfl,
    match (destroy_leaves_fd_registered blocked [1, 2, 3] EPIPE rfl rfl rfl (by decide)
      rfl rfl).2.2.2.2 with
    | ⟨c1, h1, _, _, h4, _, h6, h7⟩ => ⟨c1, h1, h4, h6, h7⟩⟩

end TCPConnection
end raner
